import Mathlib

/-!
# Hit buffer analysis (`analyze_hitbuffer.cpp`)

A shallow embedding of the frame decoder `HitBufferDecoder` and of the three
statistics passes `get_baseline`, `get_hitrate_thresh` and `analyze_hitbuf`.

Conventions of the embedding.

* A 32-bit word is a `Nat`; every use of a word in the source goes through a
  shift, a mask or a narrowing cast, and the definitions below copy those
  (`header >> 24` stored in a `uint8_t` is `(header >>> 24) % 256`), so the
  definitions are exact on words below `2 ^ 32`.
* A buffer is the list of its whole 32-bit words together with the number of
  bytes (0 to 3) that follow the last whole word.
* A pointer walk `*data++` guarded by a remaining `length` is recursion on the
  list of the words that remain.
* Python exceptions are values of `Err`.
-/

namespace Hitbuffer

/-! ## Constants -/

def OBJECT_CODE_PPS_SECOND : Nat := 0xe0
def OBJECT_CODE_PPS_YEAR : Nat := 0xe4
def OBJECT_CODE_TRIG_CONFIG : Nat := 0xe5
def OBJECT_CODE_DATA_FORMAT : Nat := 0xe6
def STATUS_CPUTRIG_ACTIVE : Nat := 1 <<< 5

/-- The top byte of a header word is none of the four object codes: the
`default` branch of the `switch`, a hit. -/
def IsHitHeader (header : Nat) : Prop :=
  (header >>> 24) % 256 ≠ 0xe0 ∧ (header >>> 24) % 256 ≠ 0xe4 ∧
  (header >>> 24) % 256 ≠ 0xe5 ∧ (header >>> 24) % 256 ≠ 0xe6

instance (header : Nat) : Decidable (IsHitHeader header) := by
  unfold IsHitHeader; infer_instance

/-! ## Errors and buffers -/

/-- The `pybind11::value_error`s of the source, by kind:
`InvalidInput` is "input must be multiple of four bytes",
`TruncatedFrame` is "incomplete frame at end of hitbuffer file" (in
`analyze_hitbuf`: "incomplete frame"), `InvalidAdcCount` is
"invalid number of ADCs" and `InsufficientData` is "too little data". -/
inductive Err where
  | InvalidInput
  | TruncatedFrame
  | InvalidAdcCount
  | InsufficientData
  deriving DecidableEq, Repr

deriving instance DecidableEq for Except

/-- A `pybind11::buffer` of bytes: `data` is the view `(uint32_t *)info.ptr`
of its whole words, `tail` the number of bytes after the last whole word. -/
structure Buffer where
  data : List Nat
  tail : Fin 4
  deriving DecidableEq, Repr

/-- The byte length `info.size`. -/
def Buffer.size (b : Buffer) : Nat := 4 * b.data.length + b.tail.val

/-- The word-aligned buffer holding exactly the given words. -/
def Buffer.ofWords (ws : List Nat) : Buffer := ⟨ws, 0⟩

/-! ## Frame decoder -/

/-- The frame objects `FramePpsSecond`, `FramePpsYear` and `FrameHit`. -/
inductive Frame where
  | PpsSecond (second : Nat)
  | PpsYear (year : Nat)
  | Hit (adcs : Nat × Nat × Nat) (cpu_trigger : Bool)
  deriving DecidableEq, Repr

/-- What one call of `__next__` does: return a frame object, throw
`stop_iteration`, or throw a `value_error`. -/
inductive Next where
  | frame (f : Frame)
  | stop_iteration
  | error (e : Err)
  deriving DecidableEq, Repr

/-- The members of `HitBufferDecoder`. -/
structure HitBufferDecoder where
  input : Buffer
  position : Nat
  cpu_trigger : Bool
  deriving DecidableEq, Repr

/-- The constructor `HitBufferDecoder(pybind11::buffer _input)`. -/
def HitBufferDecoder.new (_input : Buffer) : Except Err HitBufferDecoder :=
  if _input.size % 4 ≠ 0 then .error .InvalidInput
  else .ok { input := _input, position := 0, cpu_trigger := false }

/-- The `while (this->position < length)` loop of `__next__`. The first
argument is the list of the words `data[position], ..., data[length - 1]`, so
`position < length` is the list being non-empty and `data[this->position++]`
takes its head. Returns the outcome with the new `position` and
`cpu_trigger`. -/
def nextLoop : List Nat → Nat → Bool → Next × Nat × Bool
  | [], position, cpu_trigger => (.stop_iteration, position, cpu_trigger)
  | header :: rest, position, cpu_trigger =>
    let position := position + 1
    let frame_type := (header >>> 24) % 256
    if frame_type = OBJECT_CODE_PPS_SECOND then
      (.frame (.PpsSecond (header &&& ((1 <<< 24) - 1))), position, cpu_trigger)
    else if frame_type = OBJECT_CODE_PPS_YEAR then
      (.frame (.PpsYear (header &&& ((1 <<< 16) - 1))), position, cpu_trigger)
    else if frame_type = OBJECT_CODE_TRIG_CONFIG then
      let rc_status := header &&& 0xffff
      match rest with
      | [] => (.error .TruncatedFrame, position, cpu_trigger)
      | _offset :: rest =>
        nextLoop rest (position + 1) ((rc_status &&& STATUS_CPUTRIG_ACTIVE) != 0)
    else if frame_type = OBJECT_CODE_DATA_FORMAT then
      nextLoop rest position cpu_trigger
    else
      match rest with
      | [] => (.error .TruncatedFrame, position, cpu_trigger)
      | multi :: rest =>
        let position := position + 1
        let adc_count := (multi >>> 28) &&& 0xf
        if adc_count ≠ 3 then (.error .InvalidAdcCount, position, cpu_trigger)
        else
          match rest with
          | [] => (.error .TruncatedFrame, position, cpu_trigger)
          | adcs :: _ =>
            (.frame (.Hit (multi &&& 0x0fff, (adcs >>> 16) &&& 0x0fff, adcs &&& 0x0fff)
              cpu_trigger), position + 1, cpu_trigger)

/-- The method `HitBufferDecoder::__next__`: the outcome and the decoder
after the call. -/
def HitBufferDecoder.__next__ (self : HitBufferDecoder) : Next × HitBufferDecoder :=
  let length := self.input.size / 4
  let r := nextLoop ((self.input.data.take length).drop self.position)
    self.position self.cpu_trigger
  (r.1, { self with position := r.2.1, cpu_trigger := r.2.2 })

/-- Repeated calls of `__next__` (a Python `for` loop over the decoder), at
most `fuel` of them: `none` when the calls run out before the decoder has
thrown, otherwise the frames returned up to the throw, with `none` for a
final `stop_iteration` and `some e` for a `value_error`. -/
def drain : Nat → HitBufferDecoder → Option (List Frame × Option Err)
  | 0, _ => none
  | fuel + 1, d =>
    match d.__next__ with
    | (.frame f, d') =>
      match drain fuel d' with
      | none => none
      | some (fs, r) => some (f :: fs, r)
    | (.stop_iteration, _) => some ([], none)
    | (.error e, _) => some ([], some e)

/-- Construct a decoder on the buffer and iterate it to the end. The fuel
`size / 4 + 1` is one call per word and one for the final `stop_iteration`. -/
def decode_all (input : Buffer) : Option (List Frame × Option Err) :=
  match HitBufferDecoder.new input with
  | .error e => some ([], some e)
  | .ok d => drain (input.size / 4 + 1) d

/-! ## Baseline estimator -/

/-- The function `take_from_length`: check that `count` elements remain and
subtract `count` from `length`. -/
def take_from_length (length : Nat) (count : Nat) : Except Err Nat :=
  if length < count then .error .TruncatedFrame else .ok (length - count)

/-- The `while (length)` loop of `get_baseline` on the remaining words, with
the arrays `baseline` and `count` and the local `cpu_trigger`; it returns
them as they are when the loop ends. The 64-bit accumulators are `Nat`: a
count is at most the number of words and a sum at most 4095 times that, below
`2 ^ 64` for every buffer of fewer than `2 ^ 52` words. The two-word check
`take_from_length(length, 2)` followed by `*data++` twice is the pair of
matches on the remaining words: fewer than two of them is the error. -/
def baselineLoop (adc_clip : Nat) :
    List Nat → (Nat × Nat × Nat) → (Nat × Nat × Nat) → Bool →
      Except Err ((Nat × Nat × Nat) × (Nat × Nat × Nat) × Bool)
  | [], baseline, count, cpu_trigger => .ok (baseline, count, cpu_trigger)
  | header :: data, baseline, count, cpu_trigger =>
    let frame_type := (header >>> 24) % 256
    if frame_type = OBJECT_CODE_PPS_SECOND ∨ frame_type = OBJECT_CODE_PPS_YEAR ∨
        frame_type = OBJECT_CODE_DATA_FORMAT then
      baselineLoop adc_clip data baseline count cpu_trigger
    else if frame_type = OBJECT_CODE_TRIG_CONFIG then
      let rc_status := header &&& 0xffff
      let cpu_trigger := (rc_status &&& STATUS_CPUTRIG_ACTIVE) != 0
      match data with
      | [] => .error .TruncatedFrame
      | _offset :: data => baselineLoop adc_clip data baseline count cpu_trigger
    else
      match data with
      | [] => .error .TruncatedFrame
      | multi :: data =>
        match data with
        | [] => .error .TruncatedFrame
        | adc_word :: data =>
          let adc_count := (multi >>> 28) &&& 0xf
          if adc_count ≠ 3 then .error .InvalidAdcCount
          else if !cpu_trigger then baselineLoop adc_clip data baseline count cpu_trigger
          else
            let adc := multi &&& 0x0fff
            let baseline := if adc ≤ adc_clip then (baseline.1 + adc, baseline.2) else baseline
            let count := if adc ≤ adc_clip then (count.1 + 1, count.2) else count
            let adc := (adc_word >>> 16) &&& 0x0fff
            let baseline :=
              if adc ≤ adc_clip then (baseline.1, baseline.2.1 + adc, baseline.2.2) else baseline
            let count := if adc ≤ adc_clip then (count.1, count.2.1 + 1, count.2.2) else count
            let adc := adc_word &&& 0x0fff
            let baseline :=
              if adc ≤ adc_clip then (baseline.1, baseline.2.1, baseline.2.2 + adc) else baseline
            let count := if adc ≤ adc_clip then (count.1, count.2.1, count.2.2 + 1) else count
            baselineLoop adc_clip data baseline count cpu_trigger

/-- The body of `get_baseline` with the locals at the end of the loop: the
arrays `baseline` and `count` and the flag `cpu_trigger`. -/
def baseline_scan (input : Buffer) (adc_clip : Nat) :
    Except Err ((Nat × Nat × Nat) × (Nat × Nat × Nat) × Bool) :=
  if input.size % 4 ≠ 0 then .error .InvalidInput
  else baselineLoop adc_clip (input.data.take (input.size / 4)) (0, 0, 0) (0, 0, 0) false

/-- The function `get_baseline`: the tuple of `baseline` and `count`. -/
def get_baseline (input : Buffer) (adc_clip : Nat) :
    Except Err ((Nat × Nat × Nat) × (Nat × Nat × Nat)) :=
  match baseline_scan input adc_clip with
  | .error e => .error e
  | .ok (baseline, count, _) => .ok (baseline, count)

/-! ## Threshold hit-rate estimator -/

/-- The loop `while (adc_index < adcs.size() && adcs[adc_index] >
max_adc_counts) adc_index++` on the channels from `adc_index` on. -/
def find_adc_index (max_adc_counts : Nat) : List Nat → Nat → Nat
  | [], adc_index => adc_index
  | adc :: adcs, adc_index =>
    if adc > max_adc_counts then find_adc_index max_adc_counts adcs (adc_index + 1)
    else adc_index

/-- The `while (length)` loop of `get_hitrate_thresh`. The floating point
test `mips < threshold_mip`, with `mips` computed from `adcs[adc_index]`,
`baseline_adc`, `mip_per_adc0` and `adc_amp`, is a function of `adc_index`
and `adcs[adc_index]` once the four `double` arguments are fixed; it is the
parameter `below_threshold`. The counters are `uint64_t` and at most the
number of words, so they are `Nat`. -/
def hitrateLoop (below_threshold : Nat → Nat → Bool) (max_adc_counts : Nat) :
    List Nat → Nat → Nat → Nat → Bool → Except Err (Nat × Nat × Nat × Bool)
  | [], seconds, hits, hits_temp, cpu_trigger => .ok (seconds, hits, hits_temp, cpu_trigger)
  | header :: data, seconds, hits, hits_temp, cpu_trigger =>
    let frame_type := (header >>> 24) % 256
    if frame_type = OBJECT_CODE_PPS_YEAR ∨ frame_type = OBJECT_CODE_DATA_FORMAT then
      hitrateLoop below_threshold max_adc_counts data seconds hits hits_temp cpu_trigger
    else if frame_type = OBJECT_CODE_PPS_SECOND then
      let hits_temp := if seconds < 2 then 0 else hits_temp
      let hits := hits_temp
      hitrateLoop below_threshold max_adc_counts data (seconds + 1) hits hits_temp cpu_trigger
    else if frame_type = OBJECT_CODE_TRIG_CONFIG then
      let rc_status := header &&& 0xffff
      let cpu_trigger := (rc_status &&& STATUS_CPUTRIG_ACTIVE) != 0
      match data with
      | [] => .error .TruncatedFrame
      | _offset :: data =>
        hitrateLoop below_threshold max_adc_counts data seconds hits hits_temp cpu_trigger
    else
      match data with
      | [] => .error .TruncatedFrame
      | multi :: data =>
        match data with
        | [] => .error .TruncatedFrame
        | adc_word :: data =>
          let adc_count := (multi >>> 28) &&& 0xf
          if adc_count ≠ 3 then .error .InvalidAdcCount
          else if cpu_trigger then
            hitrateLoop below_threshold max_adc_counts data seconds hits hits_temp cpu_trigger
          else
            let adcs := [multi &&& 0x0fff, (adc_word >>> 16) &&& 0x0fff, adc_word &&& 0x0fff]
            let adc_index := find_adc_index max_adc_counts adcs 0
            if adc_index ≥ adcs.length then
              hitrateLoop below_threshold max_adc_counts data seconds hits hits_temp cpu_trigger
            else if below_threshold adc_index (adcs.getD adc_index 0) then
              hitrateLoop below_threshold max_adc_counts data seconds hits hits_temp cpu_trigger
            else
              hitrateLoop below_threshold max_adc_counts data seconds hits (hits_temp + 1)
                cpu_trigger

/-- The function `get_hitrate_thresh`: the tuple of `seconds` and `hits`. -/
def get_hitrate_thresh (input : Buffer) (below_threshold : Nat → Nat → Bool)
    (max_adc_counts : Nat) : Except Err (Nat × Nat) :=
  if input.size % 4 ≠ 0 then .error .InvalidInput
  else
    match hitrateLoop below_threshold max_adc_counts (input.data.take (input.size / 4))
        0 0 0 false with
    | .error e => .error e
    | .ok (seconds, hits, _, _) => .ok (seconds, hits)

/-- The operations on `double` that `get_hitrate_thresh` uses, left
uninterpreted: the conversion of a `uint16_t` ADC value, subtraction,
multiplication and the comparison `<`. -/
structure DoubleOps (F : Type) where
  ofUInt16 : Nat → F
  sub : F → F → F
  mul : F → F → F
  lt : F → F → Bool

/-- The value `mips` of `get_hitrate_thresh` for the channel `adc_index`
with the ADC value `adc = adcs[adc_index]`: `adc - baseline_adc[adc_index]`,
times `mip_per_adc0`, and for `adc_index > 0` times `adc_amp[adc_index - 1]`.
The arrays are given by their index functions. -/
def mips_of {F : Type} (ops : DoubleOps F) (adc_amp : Nat → F) (baseline_adc : Nat → F)
    (mip_per_adc0 : F) (adc_index adc : Nat) : F :=
  let mips := ops.sub (ops.ofUInt16 adc) (baseline_adc adc_index)
  let mips := ops.mul mips mip_per_adc0
  if adc_index > 0 then ops.mul mips (adc_amp (adc_index - 1)) else mips

/-- The test `mips < threshold_mip` of `get_hitrate_thresh` as a function of
the channel index and its ADC value, for given `double` arguments. -/
def below_threshold_of {F : Type} (ops : DoubleOps F) (adc_amp : Nat → F)
    (baseline_adc : Nat → F) (mip_per_adc0 threshold_mip : F) : Nat → Nat → Bool :=
  fun adc_index adc =>
    ops.lt (mips_of ops adc_amp baseline_adc mip_per_adc0 adc_index adc) threshold_mip

/-- Exact integer arithmetic as one instance of the operations. -/
def intOps : DoubleOps Int where
  ofUInt16 := fun n => (n : Int)
  sub := fun a b => a - b
  mul := fun a b => a * b
  lt := fun a b => decide (a < b)

/-! ## Generic event counter -/

/-- The value of an `int` expression: 32 bits, two's complement. -/
def wrapInt (x : Int) : Int := (x + 2 ^ 31) % 2 ^ 32 - 2 ^ 31

/-- The `for (size_t i = 0; i < count; i++)` loop of `analyze_hitbuf` from
index `i` on, with the `int` counters `seconds`, `hits` and `hits_temp`.
Every iteration increases `i`, so the loop is recursion on `fuel`, and
`none` is the fuel running out before the loop has ended. -/
def analyzeLoop (data : List Nat) (count : Nat) :
    Nat → Nat → Int → Int → Int → Option (Except Err (Int × Int × Int))
  | 0, _, _, _, _ => none
  | fuel + 1, i, seconds, hits, hits_temp =>
    if i < count then
      let header := data.getD i 0
      let type := (header >>> 24) % 256
      if type = OBJECT_CODE_PPS_SECOND then
        let hits_temp := if seconds < 2 then 0 else hits_temp
        let hits := hits_temp
        let seconds := wrapInt (seconds + 1)
        analyzeLoop data count fuel (i + 1) seconds hits hits_temp
      else if type = OBJECT_CODE_TRIG_CONFIG then
        let i := i + 1
        if i > count then some (.error .TruncatedFrame)
        else analyzeLoop data count fuel (i + 1) seconds hits hits_temp
      else if type = OBJECT_CODE_PPS_YEAR ∨ type = OBJECT_CODE_DATA_FORMAT then
        analyzeLoop data count fuel (i + 1) seconds hits hits_temp
      else
        let hits_temp := wrapInt (hits_temp + 1)
        let i := i + 1
        if i ≥ count then some (.error .TruncatedFrame)
        else
          let adc_count := ((data.getD i 0) >>> 28) &&& 0xf
          let extra_words := adc_count / 2
          let i := i + extra_words
          if i > count then some (.error .TruncatedFrame)
          else analyzeLoop data count fuel (i + 1) seconds hits hits_temp
    else some (.ok (seconds, hits, hits_temp))

/-- The function `analyze_hitbuf`. It has no check of `info.size % 4`;
`count` is `info.size / sizeof(uint32_t)`. The fuel `count + 1` is one
iteration per word and one for the final test `i < count`. -/
def analyze_hitbuf (input : Buffer) : Option (Except Err (Int × Int)) :=
  let count := input.size / 4
  match analyzeLoop input.data count (count + 1) 0 0 0 0 with
  | none => none
  | some (.error e) => some (.error e)
  | some (.ok (seconds, hits, _)) =>
    let seconds := wrapInt (seconds - 2)
    if seconds < 1 then some (.error .InsufficientData)
    else some (.ok (seconds, hits))

/-- The header words `data[i]` that the loop of `analyze_hitbuf` reads at
the top of its iterations from index `i` on, up to the end of the loop or
the iteration that throws. -/
def analyzeHeaders (data : List Nat) (count : Nat) : Nat → Nat → List Nat
  | 0, _ => []
  | fuel + 1, i =>
    if i < count then
      let header := data.getD i 0
      let type := (header >>> 24) % 256
      if type = OBJECT_CODE_PPS_SECOND then
        header :: analyzeHeaders data count fuel (i + 1)
      else if type = OBJECT_CODE_TRIG_CONFIG then
        let i := i + 1
        if i > count then [header]
        else header :: analyzeHeaders data count fuel (i + 1)
      else if type = OBJECT_CODE_PPS_YEAR ∨ type = OBJECT_CODE_DATA_FORMAT then
        header :: analyzeHeaders data count fuel (i + 1)
      else
        let i := i + 1
        if i ≥ count then [header]
        else
          let adc_count := ((data.getD i 0) >>> 28) &&& 0xf
          let extra_words := adc_count / 2
          let i := i + extra_words
          if i > count then [header]
          else header :: analyzeHeaders data count fuel (i + 1)
    else []

/-- One iteration of the `for` loop of `analyze_hitbuf` at an index
`i < count`: the `switch` on `data[i]` followed by the `i++` of the loop. It
gives the next value of `i` with the counters, or the error thrown. -/
def analyzeStep (data : List Nat) (count i : Nat) (seconds hits hits_temp : Int) :
    Except Err (Nat × Int × Int × Int) :=
  let header := data.getD i 0
  let type := (header >>> 24) % 256
  if type = OBJECT_CODE_PPS_SECOND then
    let hits_temp := if seconds < 2 then 0 else hits_temp
    let hits := hits_temp
    let seconds := wrapInt (seconds + 1)
    .ok (i + 1, seconds, hits, hits_temp)
  else if type = OBJECT_CODE_TRIG_CONFIG then
    let i := i + 1
    if i > count then .error .TruncatedFrame
    else .ok (i + 1, seconds, hits, hits_temp)
  else if type = OBJECT_CODE_PPS_YEAR ∨ type = OBJECT_CODE_DATA_FORMAT then
    .ok (i + 1, seconds, hits, hits_temp)
  else
    let hits_temp := wrapInt (hits_temp + 1)
    let i := i + 1
    if i ≥ count then .error .TruncatedFrame
    else
      let adc_count := ((data.getD i 0) >>> 28) &&& 0xf
      let extra_words := adc_count / 2
      let i := i + extra_words
      if i > count then .error .TruncatedFrame
      else .ok (i + 1, seconds, hits, hits_temp)

/-- The loop of `analyze_hitbuf` as the iteration of `analyzeStep`, giving
also the value of `i` with which the loop ends. `analyzeLoop_eq_run` proves
that `analyzeLoop` is this loop without the final `i`. -/
def analyzeRun (data : List Nat) (count : Nat) :
    Nat → Nat → Int → Int → Int → Option (Except Err (Nat × Int × Int × Int))
  | 0, _, _, _, _ => none
  | fuel + 1, i, seconds, hits, hits_temp =>
    if i < count then
      match analyzeStep data count i seconds hits hits_temp with
      | .error e => some (.error e)
      | .ok (i', seconds', hits', hits_temp') =>
        analyzeRun data count fuel i' seconds' hits' hits_temp'
    else some (.ok (i, seconds, hits, hits_temp))

/-- The number of words of a hit frame in `analyze_hitbuf`, from the word
`multi` that follows the header: the header, `multi`, and `adc_count / 2`
extra words. -/
def analyzeHitWidth (multi : Nat) : Nat := 2 + ((multi >>> 28) &&& 0xf) / 2

/-- The top byte of a header word is `OBJECT_CODE_PPS_SECOND`. -/
def isPpsSecondHeader (header : Nat) : Bool := decide ((header >>> 24) % 256 = 0xe0)

/-- The number of PpsSecond frames that the scan of `analyze_hitbuf` sees:
the headers it reads whose top byte is `0xE0`. -/
def ppsSeen (input : Buffer) : Nat :=
  ((analyzeHeaders input.data (input.size / 4) (input.size / 4 + 1) 0).filter
    isPpsSecondHeader).length

/-! ## Fletcher checksum (`fletcher_16.cpp`) -/

/-- The `do { c0 = c0 + *data++; c1 = c1 + c0; } while (--blocklen);` loop of
`fletcher16_wikipedia` on the bytes of one block, with `uint32_t` sums. The
block has `blocklen >= 1` bytes, so the body runs once per byte. -/
def fletcherBlock : List Nat → Nat × Nat → Nat × Nat
  | [], (c0, c1) => (c0, c1)
  | b :: block, (c0, c1) =>
    let c0 := (c0 + b) % 2 ^ 32
    let c1 := (c1 + c0) % 2 ^ 32
    fletcherBlock block (c0, c1)

/-- The `for (c0 = c1 = 0; len > 0; )` loop of `fletcher16_wikipedia` on the
remaining bytes (`len` of them). Every iteration takes at least one byte, so
the loop is recursion on `fuel`, and `none` is the fuel running out. -/
def fletcherLoop : Nat → List Nat → Nat → Nat → Option (Nat × Nat)
  | 0, _, _, _ => none
  | fuel + 1, data, c0, c1 =>
    if data.length > 0 then
      let blocklen := if data.length > 5002 then 5002 else data.length
      let r := fletcherBlock (data.take blocklen) (c0, c1)
      fletcherLoop fuel (data.drop blocklen) (r.1 % 255) (r.2 % 255)
    else some (c0, c1)

/-- The function `fletcher16_wikipedia` on a list of bytes; the result is a
`uint16_t`. -/
def fletcher16_wikipedia (data : List Nat) : Option Nat :=
  match fletcherLoop (data.length + 1) data 0 0 with
  | none => none
  | some (c0, c1) => some (((c1 <<< 8) ||| c0) % 2 ^ 16)

/-- The running sums `acc + b_0`, `acc + b_0 + b_1`, ... of a byte list. -/
def prefixSumsFrom : Nat → List Nat → List Nat
  | _, [] => []
  | acc, b :: bs => (acc + b) :: prefixSumsFrom (acc + b) bs

/-- The naive Fletcher-16 sums: both reduced modulo 255 after every byte. -/
def fletcherNaive : List Nat → Nat × Nat → Nat × Nat
  | [], (c0, c1) => (c0, c1)
  | b :: bs, (c0, c1) =>
    let c0 := (c0 + b) % 255
    let c1 := (c1 + c0) % 255
    fletcherNaive bs (c0, c1)

/-- The sums of one block without the reduction modulo `2 ^ 32`. -/
def fletcherBlockExact : List Nat → Nat × Nat → Nat × Nat
  | [], (c0, c1) => (c0, c1)
  | b :: block, (c0, c1) => fletcherBlockExact block (c0 + b, c1 + (c0 + b))

/-! ## Notions used to state the properties -/

/-- A hit with the three ADC values `adcs` is counted by the hit-rate
estimator (when it is reached with `cpu_trigger = false`): some channel is at
most `max_adc_counts`, and the threshold test on the first such channel does
not discard it. -/
def hitCounted (below_threshold : Nat → Nat → Bool) (max_adc_counts : Nat)
    (adcs : Nat × Nat × Nat) : Bool :=
  if adcs.1 ≤ max_adc_counts then !below_threshold 0 adcs.1
  else if adcs.2.1 ≤ max_adc_counts then !below_threshold 1 adcs.2.1
  else if adcs.2.2 ≤ max_adc_counts then !below_threshold 2 adcs.2.2
  else false

/-- The arrays after the three `if (adc <= adc_clip)` statements of one hit:
each channel adds its value and one count when the value is within the clip. -/
def clipAdd (clip : Nat) (adcs : Nat × Nat × Nat) (b c : Nat × Nat × Nat) :
    (Nat × Nat × Nat) × (Nat × Nat × Nat) :=
  ((b.1 + (if adcs.1 ≤ clip then adcs.1 else 0),
    b.2.1 + (if adcs.2.1 ≤ clip then adcs.2.1 else 0),
    b.2.2 + (if adcs.2.2 ≤ clip then adcs.2.2 else 0)),
   (c.1 + (if adcs.1 ≤ clip then 1 else 0),
    c.2.1 + (if adcs.2.1 ≤ clip then 1 else 0),
    c.2.2 + (if adcs.2.2 ≤ clip then 1 else 0)))

/-- The values `adc[i]` of one channel (picked by `channel`) over the Hit
frames of a list that have `cpu_trigger = true` and `adc[i] <= adc_clip`. -/
def clippedValues (adc_clip : Nat) (channel : Nat × Nat × Nat → Nat) (fs : List Frame) :
    List Nat :=
  fs.filterMap fun f =>
    match f with
    | .Hit adcs true => if channel adcs ≤ adc_clip then some (channel adcs) else none
    | _ => none

/-- The frame is a `FramePpsSecond`. -/
def isPpsSecond : Frame → Bool
  | .PpsSecond _ => true
  | _ => false

/-- The number of PpsSecond frames of a list. -/
def countPps (fs : List Frame) : Nat := (fs.filter isPpsSecond).length

/-- The frames that lie after the `n`-th PpsSecond frame of a list; none when
the list has fewer than `n` PpsSecond frames. -/
def afterNthPps : Nat → List Frame → List Frame
  | 0, fs => fs
  | _ + 1, [] => []
  | n + 1, f :: fs => if isPpsSecond f then afterNthPps n fs else afterNthPps (n + 1) fs

/-- The frames that lie before the last PpsSecond frame of a list: those
followed by at least one PpsSecond frame. -/
def beforeLastPps : List Frame → List Frame
  | [] => []
  | f :: fs => if fs.any isPpsSecond then f :: beforeLastPps fs else []

/-- A frame that the hit-rate estimator counts: a Hit frame with
`cpu_trigger = false` that `hitCounted` accepts. -/
def countedFrame (below_threshold : Nat → Nat → Bool) (max_adc_counts : Nat) : Frame → Bool
  | .Hit adcs false => hitCounted below_threshold max_adc_counts adcs
  | _ => false

/-- The number of counted hits of a list of frames. -/
def countHits (below_threshold : Nat → Nat → Bool) (max_adc_counts : Nat)
    (fs : List Frame) : Nat :=
  (fs.filter (countedFrame below_threshold max_adc_counts)).length

/-- The counters `(seconds, hits, hits_temp)` of `get_hitrate_thresh` after
one more frame. -/
def hitrateStep (below_threshold : Nat → Nat → Bool) (max_adc_counts : Nat) :
    Nat × Nat × Nat → Frame → Nat × Nat × Nat
  | (s, _, t), .PpsSecond _ => (s + 1, if s < 2 then 0 else t, if s < 2 then 0 else t)
  | (s, h, t), .Hit adcs false =>
    (s, h, t + if hitCounted below_threshold max_adc_counts adcs then 1 else 0)
  | st, _ => st

/-- The error a call fails with, `none` when it returns. -/
def errOf {α : Type} : Except Err α → Option Err
  | .error e => some e
  | .ok _ => none

/-- The error of the decoder at a hit header that is followed by the words
`trailing`, fewer than two: `TruncatedFrame` when there is none, or when the
`adc_count` field of the one word is 3; `InvalidAdcCount` when the one word
has another `adc_count`. -/
def truncatedHitError (trailing : List Nat) : Err :=
  match trailing with
  | [] => .TruncatedFrame
  | multi :: _ => if (multi >>> 28) &&& 0xf = 3 then .TruncatedFrame else .InvalidAdcCount

/-! ## The frames of a word list -/

/-- Put a frame in front of the frames of the rest. -/
def consFrame (f : Frame) (r : List Frame × Option Err) : List Frame × Option Err :=
  (f :: r.1, r.2)

/-- The frames the decoder returns from a list of remaining words with a
carried `cpu_trigger`, and how the iteration ends (`none`: `stop_iteration`).
This is `nextLoop` iterated; `drain_eq_framesFrom` proves it. -/
def framesFrom : List Nat → Bool → List Frame × Option Err
  | [], _ => ([], none)
  | header :: rest, cpu_trigger =>
    let frame_type := (header >>> 24) % 256
    if frame_type = OBJECT_CODE_PPS_SECOND then
      consFrame (.PpsSecond (header &&& ((1 <<< 24) - 1))) (framesFrom rest cpu_trigger)
    else if frame_type = OBJECT_CODE_PPS_YEAR then
      consFrame (.PpsYear (header &&& ((1 <<< 16) - 1))) (framesFrom rest cpu_trigger)
    else if frame_type = OBJECT_CODE_TRIG_CONFIG then
      match rest with
      | [] => ([], some .TruncatedFrame)
      | _offset :: rest =>
        framesFrom rest (((header &&& 0xffff) &&& STATUS_CPUTRIG_ACTIVE) != 0)
    else if frame_type = OBJECT_CODE_DATA_FORMAT then
      framesFrom rest cpu_trigger
    else
      match rest with
      | [] => ([], some .TruncatedFrame)
      | multi :: rest =>
        if (multi >>> 28) &&& 0xf ≠ 3 then ([], some .InvalidAdcCount)
        else
          match rest with
          | [] => ([], some .TruncatedFrame)
          | adcs :: rest =>
            consFrame (.Hit (multi &&& 0x0fff, (adcs >>> 16) &&& 0x0fff, adcs &&& 0x0fff)
              cpu_trigger) (framesFrom rest cpu_trigger)

/-! ## The frames a pass consumes -/

/-- One frame consumed by a pass of the decoder: a TrigConfig frame (with
its header word), a DataFormat frame, or a frame that `__next__` returns. -/
inductive Consumed where
  | trig (header : Nat)
  | format
  | out (f : Frame)
  deriving DecidableEq, Repr

/-- The frames a pass of the decoder consumes from a list of remaining
words, in order, up to the end of the words or the first error. It follows
the `switch` of `__next__` and records the silently consumed frames too. -/
def consumedFrom : List Nat → Bool → List Consumed
  | [], _ => []
  | header :: rest, cpu_trigger =>
    let frame_type := (header >>> 24) % 256
    if frame_type = OBJECT_CODE_PPS_SECOND then
      .out (.PpsSecond (header &&& ((1 <<< 24) - 1))) :: consumedFrom rest cpu_trigger
    else if frame_type = OBJECT_CODE_PPS_YEAR then
      .out (.PpsYear (header &&& ((1 <<< 16) - 1))) :: consumedFrom rest cpu_trigger
    else if frame_type = OBJECT_CODE_TRIG_CONFIG then
      match rest with
      | [] => []
      | _offset :: rest =>
        .trig header ::
          consumedFrom rest (((header &&& 0xffff) &&& STATUS_CPUTRIG_ACTIVE) != 0)
    else if frame_type = OBJECT_CODE_DATA_FORMAT then
      .format :: consumedFrom rest cpu_trigger
    else
      match rest with
      | [] => []
      | multi :: rest =>
        if (multi >>> 28) &&& 0xf ≠ 3 then []
        else
          match rest with
          | [] => []
          | adcs :: rest =>
            .out (.Hit (multi &&& 0x0fff, (adcs >>> 16) &&& 0x0fff, adcs &&& 0x0fff)
              cpu_trigger) :: consumedFrom rest cpu_trigger

/-- The frames consumed by a pass over a buffer; none when the constructor
rejects the buffer. -/
def consumed (input : Buffer) : List Consumed :=
  if input.size % 4 ≠ 0 then [] else consumedFrom input.data false

/-- The returned frame of a consumed frame, if it has one. -/
def Consumed.frame : Consumed → Option Frame
  | .out f => some f
  | _ => none

/-- The header word of a consumed TrigConfig frame. -/
def Consumed.trigHeader : Consumed → Option Nat
  | .trig header => some header
  | _ => none

/-- The flag carried after a list of consumed frames: `init` when no
TrigConfig frame is among them, otherwise bit 5 (`STATUS_CPUTRIG_ACTIVE`) of
the low 16 bits of the header of the last TrigConfig frame. -/
def carriedFlag (init : Bool) (pre : List Consumed) : Bool :=
  match (pre.filterMap Consumed.trigHeader).getLast? with
  | none => init
  | some header => ((header &&& 0xffff) &&& 0x20) != 0

/-! ## Reference encoder (frame table of the format) -/

/-- A frame on the wire with all the fields of the frame table, those the
decoder does not report included. -/
inductive WireFrame where
  | PpsSecond (second : Nat)
  | PpsYear (year : Nat)
  | TrigConfig (trigger_mode rc_status offset : Nat)
  | DataFormat (payload : Nat)
  | Hit (header tot adc0 adc1 adc2 : Nat)
  deriving DecidableEq, Repr

/-- The ranges of the fields: 24-bit second, 16-bit year, 8-bit trigger mode,
16-bit status, 32-bit offset word, 24-bit payload, a 32-bit hit header whose
top byte is not an object code, 12-bit time over threshold and ADC values. -/
def WireFrame.Valid : WireFrame → Prop
  | .PpsSecond second => second < 2 ^ 24
  | .PpsYear year => year < 2 ^ 16
  | .TrigConfig trigger_mode rc_status offset =>
    trigger_mode < 2 ^ 8 ∧ rc_status < 2 ^ 16 ∧ offset < 2 ^ 32
  | .DataFormat payload => payload < 2 ^ 24
  | .Hit header tot adc0 adc1 adc2 =>
    header < 2 ^ 32 ∧ IsHitHeader header ∧ tot < 2 ^ 12 ∧
    adc0 < 2 ^ 12 ∧ adc1 < 2 ^ 12 ∧ adc2 < 2 ^ 12

instance (f : WireFrame) : Decidable f.Valid := by
  cases f <;> unfold WireFrame.Valid <;> infer_instance

/-- The words of one frame as the frame table lays them out: the type code
in bits 24 to 31 of the first word and every field at its bit offset (the
fields do not overlap, so they are added). A hit has `adc_count = 3`. -/
def WireFrame.encode : WireFrame → List Nat
  | .PpsSecond second => [0xe0 * 2 ^ 24 + second]
  | .PpsYear year => [0xe4 * 2 ^ 24 + year]
  | .TrigConfig trigger_mode rc_status offset =>
    [0xe5 * 2 ^ 24 + trigger_mode * 2 ^ 16 + rc_status, offset]
  | .DataFormat payload => [0xe6 * 2 ^ 24 + payload]
  | .Hit header tot adc0 adc1 adc2 =>
    [header, 3 * 2 ^ 28 + tot * 2 ^ 16 + adc0, adc1 * 2 ^ 16 + adc2]

/-- The words of a list of frames, one frame after the other. -/
def encodeFrames : List WireFrame → List Nat
  | [] => []
  | f :: fs => f.encode ++ encodeFrames fs

/-- The frame object a wire frame stands for, `cpu_trigger` left `false`;
`none` for the frames that are consumed silently. -/
def WireFrame.event : WireFrame → Option Frame
  | .PpsSecond second => some (.PpsSecond second)
  | .PpsYear year => some (.PpsYear year)
  | .TrigConfig _ _ _ => none
  | .DataFormat _ => none
  | .Hit _ _ adc0 adc1 adc2 => some (.Hit (adc0, adc1, adc2) false)

/-- A frame object with its `cpu_trigger` flag put to `false`: what is left
are the second, the year, or the three ADC values. -/
def Frame.values : Frame → Frame
  | .Hit adcs _ => .Hit adcs false
  | f => f

/-- The ranges of the fields of a frame object: a 24-bit second, a 16-bit
year, three 12-bit ADC values. -/
def Frame.InRange : Frame → Prop
  | .PpsSecond second => second < 2 ^ 24
  | .PpsYear year => year < 2 ^ 16
  | .Hit adcs _ => adcs.1 < 2 ^ 12 ∧ adcs.2.1 < 2 ^ 12 ∧ adcs.2.2 < 2 ^ 12

/-- The frame is a `FrameHit`. -/
def isHit : Frame → Bool
  | .Hit _ _ => true
  | _ => false

/-- The frame is a `FrameHit` with `cpu_trigger = true`. -/
def isCpuHit : Frame → Bool
  | .Hit _ true => true
  | _ => false

/-- The number of Hit frames of a list that have `cpu_trigger = true`. -/
def countCpuHits (fs : List Frame) : Nat := (fs.filter isCpuHit).length

/-- A result of `analyzeStep` or `analyzeRun` with its index moved by `n`. -/
def shiftIndex (n : Nat) : Except Err (Nat × Int × Int × Int) → Except Err (Nat × Int × Int × Int)
  | .error e => .error e
  | .ok (i, st) => .ok (n + i, st)

/-- The counters `(seconds, hits, hits_temp)` of `analyze_hitbuf` after one
more frame of the decoder: a PpsSecond frame closes a second, a Hit frame is
counted whatever its flag and values, a PpsYear frame changes nothing. -/
def analyzeFrameStep : Int × Int × Int → Frame → Int × Int × Int
  | (s, _, t), .PpsSecond _ => (wrapInt (s + 1), if s < 2 then 0 else t, if s < 2 then 0 else t)
  | (s, h, t), .Hit _ _ => (s, h, wrapInt (t + 1))
  | st, .PpsYear _ => st

/-- The same counters as natural numbers, without the 32-bit wrap. -/
def countStep : Nat × Nat × Nat → Frame → Nat × Nat × Nat
  | (s, _, t), .PpsSecond _ => (s + 1, if s < 2 then 0 else t, if s < 2 then 0 else t)
  | (s, h, t), .Hit _ _ => (s, h, t + 1)
  | st, .PpsYear _ => st

/-- The number of Hit frames of a list. -/
def countHitFrames (fs : List Frame) : Nat := (fs.filter isHit).length

/-! ## Predicates used in the proofs -/

/-- What `nextLoop` returns, in terms of `framesFrom`. -/
def NextSpec (rest : List Nat) (pos : Nat) (cpu : Bool) : Next × Nat × Bool → Prop
  | (.frame f, pos', cpu') =>
    ∃ k, 1 ≤ k ∧ k ≤ rest.length ∧ pos' = pos + k ∧
      framesFrom rest cpu = consFrame f (framesFrom (rest.drop k) cpu')
  | (.stop_iteration, pos', _) => pos' = pos + rest.length ∧ framesFrom rest cpu = ([], none)
  | (.error e, pos', _) =>
    pos ≤ pos' ∧ pos' ≤ pos + rest.length ∧ framesFrom rest cpu = ([], some e)

/-- The sums and counts of `clippedValues` on top of given arrays. -/
def BaselineFold (clip : Nat) (fs : List Frame) (b c : Nat × Nat × Nat)
    (r : (Nat × Nat × Nat) × (Nat × Nat × Nat) × Bool) : Prop :=
  r.1.1 = b.1 + (clippedValues clip (fun a => a.1) fs).sum ∧
  r.1.2.1 = b.2.1 + (clippedValues clip (fun a => a.2.1) fs).sum ∧
  r.1.2.2 = b.2.2 + (clippedValues clip (fun a => a.2.2) fs).sum ∧
  r.2.1.1 = c.1 + (clippedValues clip (fun a => a.1) fs).length ∧
  r.2.1.2.1 = c.2.1 + (clippedValues clip (fun a => a.2.1) fs).length ∧
  r.2.1.2.2 = c.2.2 + (clippedValues clip (fun a => a.2.2) fs).length

/-! # Theorems -/


/-! ## Unfolding lemmas -/

theorem frame_type_cases (header : Nat) :
    (header >>> 24) % 256 = 0xe0 ∨ (header >>> 24) % 256 = 0xe4 ∨
    (header >>> 24) % 256 = 0xe5 ∨ (header >>> 24) % 256 = 0xe6 ∨ IsHitHeader header := by
  unfold IsHitHeader; omega

theorem framesFrom_nil (cpu : Bool) : framesFrom [] cpu = ([], none) := by
  rw [framesFrom.eq_def]

theorem framesFrom_second (header : Nat) (rest : List Nat) (cpu : Bool)
    (h : (header >>> 24) % 256 = 0xe0) :
    framesFrom (header :: rest) cpu =
      consFrame (.PpsSecond (header &&& ((1 <<< 24) - 1))) (framesFrom rest cpu) := by
  rw [framesFrom.eq_def]; simp [h, OBJECT_CODE_PPS_SECOND]

theorem framesFrom_year (header : Nat) (rest : List Nat) (cpu : Bool)
    (h : (header >>> 24) % 256 = 0xe4) :
    framesFrom (header :: rest) cpu =
      consFrame (.PpsYear (header &&& ((1 <<< 16) - 1))) (framesFrom rest cpu) := by
  rw [framesFrom.eq_def]; simp [h, OBJECT_CODE_PPS_SECOND, OBJECT_CODE_PPS_YEAR]

theorem framesFrom_trig_nil (header : Nat) (cpu : Bool)
    (h : (header >>> 24) % 256 = 0xe5) :
    framesFrom [header] cpu = ([], some .TruncatedFrame) := by
  rw [framesFrom.eq_def]
  simp [h, OBJECT_CODE_PPS_SECOND, OBJECT_CODE_PPS_YEAR, OBJECT_CODE_TRIG_CONFIG]

theorem framesFrom_trig (header offset : Nat) (rest : List Nat) (cpu : Bool)
    (h : (header >>> 24) % 256 = 0xe5) :
    framesFrom (header :: offset :: rest) cpu =
      framesFrom rest (((header &&& 0xffff) &&& STATUS_CPUTRIG_ACTIVE) != 0) := by
  rw [framesFrom.eq_def]
  simp [h, OBJECT_CODE_PPS_SECOND, OBJECT_CODE_PPS_YEAR, OBJECT_CODE_TRIG_CONFIG]

theorem framesFrom_format (header : Nat) (rest : List Nat) (cpu : Bool)
    (h : (header >>> 24) % 256 = 0xe6) :
    framesFrom (header :: rest) cpu = framesFrom rest cpu := by
  rw [framesFrom.eq_def]
  simp [h, OBJECT_CODE_PPS_SECOND, OBJECT_CODE_PPS_YEAR, OBJECT_CODE_TRIG_CONFIG,
    OBJECT_CODE_DATA_FORMAT]

theorem framesFrom_hit_nil (header : Nat) (cpu : Bool) (h : IsHitHeader header) :
    framesFrom [header] cpu = ([], some .TruncatedFrame) := by
  obtain ⟨h1, h2, h3, h4⟩ := h
  rw [framesFrom.eq_def]
  simp [h1, h2, h3, h4, OBJECT_CODE_PPS_SECOND, OBJECT_CODE_PPS_YEAR, OBJECT_CODE_TRIG_CONFIG,
    OBJECT_CODE_DATA_FORMAT]

theorem framesFrom_hit_bad (header multi : Nat) (rest : List Nat) (cpu : Bool)
    (h : IsHitHeader header) (hc : (multi >>> 28) &&& 0xf ≠ 3) :
    framesFrom (header :: multi :: rest) cpu = ([], some .InvalidAdcCount) := by
  obtain ⟨h1, h2, h3, h4⟩ := h
  rw [framesFrom.eq_def]
  simp [h1, h2, h3, h4, hc, OBJECT_CODE_PPS_SECOND, OBJECT_CODE_PPS_YEAR,
    OBJECT_CODE_TRIG_CONFIG, OBJECT_CODE_DATA_FORMAT]

theorem framesFrom_hit_short (header multi : Nat) (cpu : Bool)
    (h : IsHitHeader header) (hc : (multi >>> 28) &&& 0xf = 3) :
    framesFrom [header, multi] cpu = ([], some .TruncatedFrame) := by
  obtain ⟨h1, h2, h3, h4⟩ := h
  rw [framesFrom.eq_def]
  simp [h1, h2, h3, h4, hc, OBJECT_CODE_PPS_SECOND, OBJECT_CODE_PPS_YEAR,
    OBJECT_CODE_TRIG_CONFIG, OBJECT_CODE_DATA_FORMAT]

theorem framesFrom_hit (header multi adcs : Nat) (rest : List Nat) (cpu : Bool)
    (h : IsHitHeader header) (hc : (multi >>> 28) &&& 0xf = 3) :
    framesFrom (header :: multi :: adcs :: rest) cpu =
      consFrame (.Hit (multi &&& 0x0fff, (adcs >>> 16) &&& 0x0fff, adcs &&& 0x0fff) cpu)
        (framesFrom rest cpu) := by
  obtain ⟨h1, h2, h3, h4⟩ := h
  rw [framesFrom.eq_def]
  simp [h1, h2, h3, h4, hc, OBJECT_CODE_PPS_SECOND, OBJECT_CODE_PPS_YEAR,
    OBJECT_CODE_TRIG_CONFIG, OBJECT_CODE_DATA_FORMAT]

theorem nextLoop_nil (pos : Nat) (cpu : Bool) :
    nextLoop [] pos cpu = (.stop_iteration, pos, cpu) := by
  rw [nextLoop.eq_def]

theorem nextLoop_second (header : Nat) (rest : List Nat) (pos : Nat) (cpu : Bool)
    (h : (header >>> 24) % 256 = 0xe0) :
    nextLoop (header :: rest) pos cpu =
      (.frame (.PpsSecond (header &&& ((1 <<< 24) - 1))), pos + 1, cpu) := by
  rw [nextLoop.eq_def]; simp [h, OBJECT_CODE_PPS_SECOND]

theorem nextLoop_year (header : Nat) (rest : List Nat) (pos : Nat) (cpu : Bool)
    (h : (header >>> 24) % 256 = 0xe4) :
    nextLoop (header :: rest) pos cpu =
      (.frame (.PpsYear (header &&& ((1 <<< 16) - 1))), pos + 1, cpu) := by
  rw [nextLoop.eq_def]; simp [h, OBJECT_CODE_PPS_SECOND, OBJECT_CODE_PPS_YEAR]

theorem nextLoop_trig_nil (header : Nat) (pos : Nat) (cpu : Bool)
    (h : (header >>> 24) % 256 = 0xe5) :
    nextLoop [header] pos cpu = (.error .TruncatedFrame, pos + 1, cpu) := by
  rw [nextLoop.eq_def]
  simp [h, OBJECT_CODE_PPS_SECOND, OBJECT_CODE_PPS_YEAR, OBJECT_CODE_TRIG_CONFIG]

theorem nextLoop_trig (header offset : Nat) (rest : List Nat) (pos : Nat) (cpu : Bool)
    (h : (header >>> 24) % 256 = 0xe5) :
    nextLoop (header :: offset :: rest) pos cpu =
      nextLoop rest (pos + 1 + 1) (((header &&& 0xffff) &&& STATUS_CPUTRIG_ACTIVE) != 0) := by
  rw [nextLoop.eq_def]
  simp [h, OBJECT_CODE_PPS_SECOND, OBJECT_CODE_PPS_YEAR, OBJECT_CODE_TRIG_CONFIG]

theorem nextLoop_format (header : Nat) (rest : List Nat) (pos : Nat) (cpu : Bool)
    (h : (header >>> 24) % 256 = 0xe6) :
    nextLoop (header :: rest) pos cpu = nextLoop rest (pos + 1) cpu := by
  rw [nextLoop.eq_def]
  simp [h, OBJECT_CODE_PPS_SECOND, OBJECT_CODE_PPS_YEAR, OBJECT_CODE_TRIG_CONFIG,
    OBJECT_CODE_DATA_FORMAT]

theorem nextLoop_hit_nil (header : Nat) (pos : Nat) (cpu : Bool) (h : IsHitHeader header) :
    nextLoop [header] pos cpu = (.error .TruncatedFrame, pos + 1, cpu) := by
  obtain ⟨h1, h2, h3, h4⟩ := h
  rw [nextLoop.eq_def]
  simp [h1, h2, h3, h4, OBJECT_CODE_PPS_SECOND, OBJECT_CODE_PPS_YEAR, OBJECT_CODE_TRIG_CONFIG,
    OBJECT_CODE_DATA_FORMAT]

theorem nextLoop_hit_bad (header multi : Nat) (rest : List Nat) (pos : Nat) (cpu : Bool)
    (h : IsHitHeader header) (hc : (multi >>> 28) &&& 0xf ≠ 3) :
    nextLoop (header :: multi :: rest) pos cpu = (.error .InvalidAdcCount, pos + 1 + 1, cpu) := by
  obtain ⟨h1, h2, h3, h4⟩ := h
  rw [nextLoop.eq_def]
  simp [h1, h2, h3, h4, hc, OBJECT_CODE_PPS_SECOND, OBJECT_CODE_PPS_YEAR,
    OBJECT_CODE_TRIG_CONFIG, OBJECT_CODE_DATA_FORMAT]

theorem nextLoop_hit_short (header multi : Nat) (pos : Nat) (cpu : Bool)
    (h : IsHitHeader header) (hc : (multi >>> 28) &&& 0xf = 3) :
    nextLoop [header, multi] pos cpu = (.error .TruncatedFrame, pos + 1 + 1, cpu) := by
  obtain ⟨h1, h2, h3, h4⟩ := h
  rw [nextLoop.eq_def]
  simp [h1, h2, h3, h4, hc, OBJECT_CODE_PPS_SECOND, OBJECT_CODE_PPS_YEAR,
    OBJECT_CODE_TRIG_CONFIG, OBJECT_CODE_DATA_FORMAT]

theorem nextLoop_hit (header multi adcs : Nat) (rest : List Nat) (pos : Nat) (cpu : Bool)
    (h : IsHitHeader header) (hc : (multi >>> 28) &&& 0xf = 3) :
    nextLoop (header :: multi :: adcs :: rest) pos cpu =
      (.frame (.Hit (multi &&& 0x0fff, (adcs >>> 16) &&& 0x0fff, adcs &&& 0x0fff) cpu),
        pos + 1 + 1 + 1, cpu) := by
  obtain ⟨h1, h2, h3, h4⟩ := h
  rw [nextLoop.eq_def]
  simp [h1, h2, h3, h4, hc, OBJECT_CODE_PPS_SECOND, OBJECT_CODE_PPS_YEAR,
    OBJECT_CODE_TRIG_CONFIG, OBJECT_CODE_DATA_FORMAT]

/-! ## The decoder in terms of `framesFrom` -/

theorem NextSpec_skip (pre rest : List Nat) (pos : Nat) (cpu cpu' : Bool)
    (r : Next × Nat × Bool)
    (hf : framesFrom (pre ++ rest) cpu = framesFrom rest cpu')
    (key : NextSpec rest (pos + pre.length) cpu' r) : NextSpec (pre ++ rest) pos cpu r := by
  rcases r with ⟨(f | _ | e), pos', cpu''⟩
  · obtain ⟨k, hk1, hk2, hk3, hk4⟩ := key
    refine ⟨pre.length + k, by omega, by simp; omega, by omega, ?_⟩
    rw [hf, hk4, ← List.drop_drop]; simp
  · obtain ⟨hk1, hk2⟩ := key
    exact ⟨by simp; omega, by rw [hf, hk2]⟩
  · obtain ⟨hk1, hk2, hk3⟩ := key
    exact ⟨by omega, by simp; omega, by rw [hf, hk3]⟩

theorem nextLoop_spec_aux : ∀ (n : Nat) (rest : List Nat), rest.length ≤ n →
    ∀ (pos : Nat) (cpu : Bool), NextSpec rest pos cpu (nextLoop rest pos cpu) := by
  intro n
  induction n with
  | zero =>
    intro rest h pos cpu
    have : rest = [] := List.length_eq_zero.mp (Nat.le_zero.mp h)
    subst this
    simp [nextLoop_nil, NextSpec, framesFrom_nil]
  | succ n ih =>
    intro rest h pos cpu
    cases rest with
    | nil => simp [nextLoop_nil, NextSpec, framesFrom_nil]
    | cons header rest =>
      simp only [List.length_cons] at h
      rcases frame_type_cases header with h1 | h1 | h1 | h1 | h1
      · rw [nextLoop_second _ _ _ _ h1]
        exact ⟨1, le_refl _, by simp, rfl, by rw [framesFrom_second _ _ _ h1]; simp⟩
      · rw [nextLoop_year _ _ _ _ h1]
        exact ⟨1, le_refl _, by simp, rfl, by rw [framesFrom_year _ _ _ h1]; simp⟩
      · cases rest with
        | nil =>
          rw [nextLoop_trig_nil _ _ _ h1]
          exact ⟨by omega, by simp, framesFrom_trig_nil _ _ h1⟩
        | cons offset rest =>
          simp only [List.length_cons] at h
          rw [nextLoop_trig _ _ _ _ _ h1]
          exact NextSpec_skip [header, offset] rest pos cpu _ _ (framesFrom_trig _ _ _ _ h1)
            (ih rest (by omega) _ _)
      · rw [nextLoop_format _ _ _ _ h1]
        exact NextSpec_skip [header] rest pos cpu _ _ (framesFrom_format _ _ _ h1)
          (ih rest (by omega) _ _)
      · cases rest with
        | nil =>
          rw [nextLoop_hit_nil _ _ _ h1]
          exact ⟨by omega, by simp, framesFrom_hit_nil _ _ h1⟩
        | cons multi rest =>
          by_cases hc : (multi >>> 28) &&& 0xf = 3
          · cases rest with
            | nil =>
              rw [nextLoop_hit_short _ _ _ _ h1 hc]
              exact ⟨by omega, by simp, framesFrom_hit_short _ _ _ h1 hc⟩
            | cons adcs rest =>
              rw [nextLoop_hit _ _ _ _ _ _ h1 hc]
              exact ⟨3, by omega, by simp, by omega, by rw [framesFrom_hit _ _ _ _ _ h1 hc]; simp⟩
          · rw [nextLoop_hit_bad _ _ _ _ _ h1 hc]
            exact ⟨by omega, by simp; omega, framesFrom_hit_bad _ _ _ _ h1 hc⟩

theorem nextLoop_spec (rest : List Nat) (pos : Nat) (cpu : Bool) :
    NextSpec rest pos cpu (nextLoop rest pos cpu) :=
  nextLoop_spec_aux rest.length rest (le_refl _) pos cpu

theorem Buffer.size_div (b : Buffer) : b.size / 4 = b.data.length := by
  have := b.tail.isLt
  unfold Buffer.size; omega

theorem Buffer.size_mod (b : Buffer) : b.size % 4 = b.tail.val := by
  have := b.tail.isLt
  unfold Buffer.size; omega

theorem drain_eq_framesFrom : ∀ (fuel : Nat) (d : HitBufferDecoder),
    d.input.data.length - d.position < fuel →
    drain fuel d = some (framesFrom (d.input.data.drop d.position) d.cpu_trigger) := by
  intro fuel
  induction fuel with
  | zero => intro d h; omega
  | succ fuel ih =>
    intro d h
    have spec := nextLoop_spec (d.input.data.drop d.position) d.position d.cpu_trigger
    rw [drain, HitBufferDecoder.__next__]
    simp only [Buffer.size_div, List.take_length]
    generalize nextLoop (d.input.data.drop d.position) d.position d.cpu_trigger = r at spec
    rcases r with ⟨(f | _ | e), pos', cpu'⟩
    · obtain ⟨k, hk1, hk2, hk3, hk4⟩ := spec
      simp only [List.length_drop] at hk2
      subst hk3
      have := ih { d with position := d.position + k, cpu_trigger := cpu' } (by simp only; omega)
      simp only [] at this
      simp only [this, hk4, consFrame, List.drop_drop]
    · simp [spec.2]
    · simp [spec.2.2]

theorem decode_all_eq (input : Buffer) :
    decode_all input =
      if input.tail.val ≠ 0 then some ([], some .InvalidInput)
      else some (framesFrom input.data false) := by
  unfold decode_all HitBufferDecoder.new
  rw [Buffer.size_mod, Buffer.size_div]
  split_ifs with h
  · rfl
  · simp only []
    rw [drain_eq_framesFrom _ _ (by simp)]
    simp

theorem decode_all_ofWords (ws : List Nat) :
    decode_all (Buffer.ofWords ws) = some (framesFrom ws false) := by
  rw [decode_all_eq]; simp [Buffer.ofWords]

/-! ## Masks and shifts as division and remainder -/

theorem shr_eq_div (x : Nat) :
    x >>> 24 = x / 16777216 ∧ x >>> 28 = x / 268435456 ∧ x >>> 16 = x / 65536 := by
  refine ⟨?_, ?_, ?_⟩ <;> rw [Nat.shiftRight_eq_div_pow]

theorem and_mask_eq_mod (x : Nat) :
    x &&& ((1 <<< 24) - 1) = x % 16777216 ∧ x &&& ((1 <<< 16) - 1) = x % 65536 ∧
    x &&& 0xffff = x % 65536 ∧ x &&& 0x0fff = x % 4096 ∧ x &&& 0xf = x % 16 :=
  ⟨Nat.and_pow_two_sub_one_eq_mod x 24, Nat.and_pow_two_sub_one_eq_mod x 16,
    Nat.and_pow_two_sub_one_eq_mod x 16, Nat.and_pow_two_sub_one_eq_mod x 12,
    Nat.and_pow_two_sub_one_eq_mod x 4⟩

/-! ## Round trip through the reference encoder -/

theorem framesFrom_encodeFrames (fs : List WireFrame) (h : ∀ f ∈ fs, f.Valid) (cpu : Bool) :
    (framesFrom (encodeFrames fs) cpu).2 = none ∧
    (framesFrom (encodeFrames fs) cpu).1.map Frame.values = fs.filterMap WireFrame.event := by
  induction fs generalizing cpu with
  | nil => simp [encodeFrames, framesFrom_nil]
  | cons f fs ih =>
    have hf : f.Valid := h f (List.mem_cons_self _ _)
    have ih := ih (fun g hg => h g (List.mem_cons_of_mem _ hg))
    cases f with
    | PpsSecond second =>
      simp only [WireFrame.Valid] at hf
      have ht : ((0xe0 * 2 ^ 24 + second) >>> 24) % 256 = 0xe0 := by
        rw [(shr_eq_div _).1]; omega
      have hv : (0xe0 * 2 ^ 24 + second) &&& ((1 <<< 24) - 1) = second := by
        rw [(and_mask_eq_mod _).1]; omega
      simp only [encodeFrames, WireFrame.encode, List.singleton_append]
      rw [framesFrom_second _ _ _ ht, hv]
      simp [consFrame, ih, WireFrame.event, Frame.values]
    | PpsYear year =>
      simp only [WireFrame.Valid] at hf
      have ht : ((0xe4 * 2 ^ 24 + year) >>> 24) % 256 = 0xe4 := by
        rw [(shr_eq_div _).1]; omega
      have hv : (0xe4 * 2 ^ 24 + year) &&& ((1 <<< 16) - 1) = year := by
        rw [(and_mask_eq_mod _).2.1]; omega
      simp only [encodeFrames, WireFrame.encode, List.singleton_append]
      rw [framesFrom_year _ _ _ ht, hv]
      simp [consFrame, ih, WireFrame.event, Frame.values]
    | TrigConfig trigger_mode rc_status offset =>
      simp only [WireFrame.Valid] at hf
      have ht : ((0xe5 * 2 ^ 24 + trigger_mode * 2 ^ 16 + rc_status) >>> 24) % 256 = 0xe5 := by
        rw [(shr_eq_div _).1]; omega
      simp only [encodeFrames, WireFrame.encode, List.cons_append, List.nil_append]
      rw [framesFrom_trig _ _ _ _ ht]
      simp [ih, WireFrame.event]
    | DataFormat payload =>
      simp only [WireFrame.Valid] at hf
      have ht : ((0xe6 * 2 ^ 24 + payload) >>> 24) % 256 = 0xe6 := by
        rw [(shr_eq_div _).1]; omega
      simp only [encodeFrames, WireFrame.encode, List.singleton_append]
      rw [framesFrom_format _ _ _ ht]
      simp [ih, WireFrame.event]
    | Hit header tot adc0 adc1 adc2 =>
      simp only [WireFrame.Valid] at hf
      obtain ⟨_, hh, ht, h0, h1, h2⟩ := hf
      have hc : ((3 * 2 ^ 28 + tot * 2 ^ 16 + adc0) >>> 28) &&& 0xf = 3 := by
        rw [(and_mask_eq_mod _).2.2.2.2, (shr_eq_div _).2.1]; omega
      have hv0 : (3 * 2 ^ 28 + tot * 2 ^ 16 + adc0) &&& 0x0fff = adc0 := by
        rw [(and_mask_eq_mod _).2.2.2.1]; omega
      have hv1 : ((adc1 * 2 ^ 16 + adc2) >>> 16) &&& 0x0fff = adc1 := by
        rw [(and_mask_eq_mod _).2.2.2.1, (shr_eq_div _).2.2]; omega
      have hv2 : (adc1 * 2 ^ 16 + adc2) &&& 0x0fff = adc2 := by
        rw [(and_mask_eq_mod _).2.2.2.1]; omega
      simp only [encodeFrames, WireFrame.encode, List.cons_append, List.nil_append]
      rw [framesFrom_hit _ _ _ _ _ hh hc, hv0, hv1, hv2]
      simp [consFrame, ih, WireFrame.event, Frame.values]

/-- C1. Frame decoder round trip: for every list of valid wire frames,
iterating `HitBufferDecoder` over their encoding raises no error, ends with
`stop_iteration`, and returns exactly the PpsSecond, PpsYear and Hit frames
of the list, in order and with the same second, year and ADC values; nothing
is returned for a TrigConfig or DataFormat frame. -/
theorem decoder_round_trip (fs : List WireFrame) (h : ∀ f ∈ fs, f.Valid) :
    ∃ evs, decode_all (Buffer.ofWords (encodeFrames fs)) = some (evs, none) ∧
      evs.map Frame.values = fs.filterMap WireFrame.event := by
  have key := framesFrom_encodeFrames fs h false
  refine ⟨(framesFrom (encodeFrames fs) false).1, ?_, key.2⟩
  rw [decode_all_ofWords, ← key.1]

theorem decoder_round_trip_witness :
    ∃ evs, decode_all (Buffer.ofWords (encodeFrames
        [.PpsSecond 7, .TrigConfig 1 0x20 9, .Hit 0x01000000 5 100 200 300,
          .DataFormat 3, .PpsYear 2021])) = some (evs, none) ∧
      evs.map Frame.values =
        [WireFrame.PpsSecond 7, .TrigConfig 1 0x20 9, .Hit 0x01000000 5 100 200 300,
          .DataFormat 3, .PpsYear 2021].filterMap WireFrame.event :=
  decoder_round_trip _ (by decide)

/-! ## The carried `cpu_trigger` flag -/

theorem carriedFlag_trig (init : Bool) (header : Nat) (pre : List Consumed) :
    carriedFlag init (.trig header :: pre) =
      carriedFlag (((header &&& 0xffff) &&& STATUS_CPUTRIG_ACTIVE) != 0) pre := by
  unfold carriedFlag
  simp only [List.filterMap_cons, Consumed.trigHeader]
  cases hl : (pre.filterMap Consumed.trigHeader) with
  | nil => simp [STATUS_CPUTRIG_ACTIVE]
  | cons x xs =>
    rw [List.getLast?_cons_cons, List.getLast?_eq_getLast _ (List.cons_ne_nil _ _)]

theorem carriedFlag_format (init : Bool) (pre : List Consumed) :
    carriedFlag init (.format :: pre) = carriedFlag init pre := by
  unfold carriedFlag
  simp [List.filterMap_cons, Consumed.trigHeader]

theorem carriedFlag_out (init : Bool) (f : Frame) (pre : List Consumed) :
    carriedFlag init (.out f :: pre) = carriedFlag init pre := by
  unfold carriedFlag
  simp [List.filterMap_cons, Consumed.trigHeader]

theorem consumedFrom_spec_aux : ∀ (n : Nat) (ws : List Nat), ws.length ≤ n → ∀ (cpu : Bool),
    (framesFrom ws cpu).1 = (consumedFrom ws cpu).filterMap Consumed.frame ∧
    ∀ (pre post : List Consumed) (adcs : Nat × Nat × Nat) (c : Bool),
      consumedFrom ws cpu = pre ++ .out (.Hit adcs c) :: post → c = carriedFlag cpu pre := by
  intro n
  induction n with
  | zero =>
    intro ws h cpu
    have : ws = [] := List.length_eq_zero.mp (Nat.le_zero.mp h)
    subst this
    rw [consumedFrom.eq_def, framesFrom_nil]
    simp
  | succ n ih =>
    intro ws h cpu
    cases ws with
    | nil =>
      rw [consumedFrom.eq_def, framesFrom_nil]
      simp
    | cons header rest =>
      simp only [List.length_cons] at h
      rcases frame_type_cases header with h1 | h1 | h1 | h1 | h1
      · have hc : consumedFrom (header :: rest) cpu =
            .out (.PpsSecond (header &&& ((1 <<< 24) - 1))) :: consumedFrom rest cpu := by
          rw [consumedFrom.eq_def]; simp [h1, OBJECT_CODE_PPS_SECOND]
        obtain ⟨ih1, ih2⟩ := ih rest (by omega) cpu
        rw [hc, framesFrom_second _ _ _ h1]
        refine ⟨by simp [consFrame, ih1, Consumed.frame], ?_⟩
        intro pre post adcs c heq
        cases pre with
        | nil => simp at heq
        | cons p pre =>
          simp only [List.cons_append, List.cons.injEq] at heq
          rw [← heq.1, carriedFlag_out]
          exact ih2 pre post adcs c heq.2
      · have hc : consumedFrom (header :: rest) cpu =
            .out (.PpsYear (header &&& ((1 <<< 16) - 1))) :: consumedFrom rest cpu := by
          rw [consumedFrom.eq_def]
          simp [h1, OBJECT_CODE_PPS_SECOND, OBJECT_CODE_PPS_YEAR]
        obtain ⟨ih1, ih2⟩ := ih rest (by omega) cpu
        rw [hc, framesFrom_year _ _ _ h1]
        refine ⟨by simp [consFrame, ih1, Consumed.frame], ?_⟩
        intro pre post adcs c heq
        cases pre with
        | nil => simp at heq
        | cons p pre =>
          simp only [List.cons_append, List.cons.injEq] at heq
          rw [← heq.1, carriedFlag_out]
          exact ih2 pre post adcs c heq.2
      · cases rest with
        | nil =>
          have hc : consumedFrom [header] cpu = [] := by
            rw [consumedFrom.eq_def]
            simp [h1, OBJECT_CODE_PPS_SECOND, OBJECT_CODE_PPS_YEAR, OBJECT_CODE_TRIG_CONFIG]
          rw [hc, framesFrom_trig_nil _ _ h1]
          simp
        | cons offset rest =>
          simp only [List.length_cons] at h
          have hc : consumedFrom (header :: offset :: rest) cpu = .trig header ::
              consumedFrom rest (((header &&& 0xffff) &&& STATUS_CPUTRIG_ACTIVE) != 0) := by
            rw [consumedFrom.eq_def]
            simp [h1, OBJECT_CODE_PPS_SECOND, OBJECT_CODE_PPS_YEAR, OBJECT_CODE_TRIG_CONFIG]
          obtain ⟨ih1, ih2⟩ := ih rest (by omega)
            (((header &&& 0xffff) &&& STATUS_CPUTRIG_ACTIVE) != 0)
          rw [hc, framesFrom_trig _ _ _ _ h1]
          refine ⟨by simp [ih1, Consumed.frame], ?_⟩
          intro pre post adcs c heq
          cases pre with
          | nil => simp at heq
          | cons p pre =>
            simp only [List.cons_append, List.cons.injEq] at heq
            rw [← heq.1, carriedFlag_trig]
            exact ih2 pre post adcs c heq.2
      · have hc : consumedFrom (header :: rest) cpu = .format :: consumedFrom rest cpu := by
          rw [consumedFrom.eq_def]
          simp [h1, OBJECT_CODE_PPS_SECOND, OBJECT_CODE_PPS_YEAR, OBJECT_CODE_TRIG_CONFIG,
            OBJECT_CODE_DATA_FORMAT]
        obtain ⟨ih1, ih2⟩ := ih rest (by omega) cpu
        rw [hc, framesFrom_format _ _ _ h1]
        refine ⟨by simp [ih1, Consumed.frame], ?_⟩
        intro pre post adcs c heq
        cases pre with
        | nil => simp at heq
        | cons p pre =>
          simp only [List.cons_append, List.cons.injEq] at heq
          rw [← heq.1, carriedFlag_format]
          exact ih2 pre post adcs c heq.2
      · obtain ⟨g1, g2, g3, g4⟩ := id h1
        cases rest with
        | nil =>
          have hc : consumedFrom [header] cpu = [] := by
            rw [consumedFrom.eq_def]
            simp [g1, g2, g3, g4, OBJECT_CODE_PPS_SECOND, OBJECT_CODE_PPS_YEAR,
              OBJECT_CODE_TRIG_CONFIG, OBJECT_CODE_DATA_FORMAT]
          rw [hc, framesFrom_hit_nil _ _ h1]
          simp
        | cons multi rest =>
          by_cases hm : (multi >>> 28) &&& 0xf = 3
          · cases rest with
            | nil =>
              have hc : consumedFrom [header, multi] cpu = [] := by
                rw [consumedFrom.eq_def]
                simp [g1, g2, g3, g4, hm, OBJECT_CODE_PPS_SECOND, OBJECT_CODE_PPS_YEAR,
                  OBJECT_CODE_TRIG_CONFIG, OBJECT_CODE_DATA_FORMAT]
              rw [hc, framesFrom_hit_short _ _ _ h1 hm]
              simp
            | cons adcs rest =>
              simp only [List.length_cons] at h
              have hc : consumedFrom (header :: multi :: adcs :: rest) cpu =
                  .out (.Hit (multi &&& 0x0fff, (adcs >>> 16) &&& 0x0fff, adcs &&& 0x0fff)
                    cpu) :: consumedFrom rest cpu := by
                rw [consumedFrom.eq_def]
                simp [g1, g2, g3, g4, hm, OBJECT_CODE_PPS_SECOND, OBJECT_CODE_PPS_YEAR,
                  OBJECT_CODE_TRIG_CONFIG, OBJECT_CODE_DATA_FORMAT]
              obtain ⟨ih1, ih2⟩ := ih rest (by omega) cpu
              rw [hc, framesFrom_hit _ _ _ _ _ h1 hm]
              refine ⟨by simp [consFrame, ih1, Consumed.frame], ?_⟩
              intro pre post vals c heq
              cases pre with
              | nil =>
                simp only [List.nil_append, List.cons.injEq, Consumed.out.injEq,
                  Frame.Hit.injEq] at heq
                rw [← heq.1.2]
                simp [carriedFlag]
              | cons p pre =>
                simp only [List.cons_append, List.cons.injEq] at heq
                rw [← heq.1, carriedFlag_out]
                exact ih2 pre post vals c heq.2
          · have hc : consumedFrom (header :: multi :: rest) cpu = [] := by
              rw [consumedFrom.eq_def]
              simp [g1, g2, g3, g4, hm, OBJECT_CODE_PPS_SECOND, OBJECT_CODE_PPS_YEAR,
                OBJECT_CODE_TRIG_CONFIG, OBJECT_CODE_DATA_FORMAT]
            rw [hc, framesFrom_hit_bad _ _ _ _ h1 hm]
            simp

/-- C2. For every buffer, the frames `HitBufferDecoder` returns are the
returned frames among the frames the pass consumes, and every Hit frame among
them carries `cpu_trigger = false` when no TrigConfig frame was consumed
before it, and otherwise bit 5 (mask `0x20`) of the low 16 bits of the header
word of the last TrigConfig frame consumed before it. -/
theorem hit_cpu_trigger_is_last_trig_config (input : Buffer)
    (pre post : List Consumed) (adcs : Nat × Nat × Nat) (c : Bool)
    (hp : consumed input = pre ++ .out (.Hit adcs c) :: post) :
    (∃ r, decode_all input = some ((consumed input).filterMap Consumed.frame, r)) ∧
    c = match (pre.filterMap Consumed.trigHeader).getLast? with
        | none => false
        | some header => ((header &&& 0xffff) &&& 0x20) != 0 := by
  rw [decode_all_eq]
  unfold consumed at hp ⊢
  rw [Buffer.size_mod] at hp ⊢
  by_cases ht : input.tail.val ≠ 0
  · simp [ht] at hp
  · have key := consumedFrom_spec_aux _ input.data (le_refl _) false
    simp only [ht, if_false] at hp ⊢
    refine ⟨⟨(framesFrom input.data false).2, ?_⟩, key.2 pre post adcs c hp⟩
    rw [← key.1]

theorem hit_cpu_trigger_is_last_trig_config_witness :
    (∃ r, decode_all (Buffer.ofWords
        [0x01000000, 0x30000001, 0x00020003, 0xe5000020, 0, 0xe5000000, 0,
          0xe5ab0427, 9, 0x01000000, 0x30000004, 0x00050006]) =
      some ((consumed (Buffer.ofWords
        [0x01000000, 0x30000001, 0x00020003, 0xe5000020, 0, 0xe5000000, 0,
          0xe5ab0427, 9, 0x01000000, 0x30000004, 0x00050006])).filterMap Consumed.frame, r)) ∧
    true = match ([Consumed.out (.Hit (1, 2, 3) false), .trig 0xe5000020, .trig 0xe5000000,
        .trig 0xe5ab0427].filterMap Consumed.trigHeader).getLast? with
        | none => false
        | some header => ((header &&& 0xffff) &&& 0x20) != 0 :=
  hit_cpu_trigger_is_last_trig_config
    (Buffer.ofWords [0x01000000, 0x30000001, 0x00020003, 0xe5000020, 0, 0xe5000000, 0,
      0xe5ab0427, 9, 0x01000000, 0x30000004, 0x00050006])
    [.out (.Hit (1, 2, 3) false), .trig 0xe5000020, .trig 0xe5000000, .trig 0xe5ab0427]
    [] (4, 5, 6) true (by decide)

/-! ## The shapes of a word list at a frame boundary -/

theorem words_cases (ws : List Nat) :
    ws = [] ∨
    (∃ header rest, ws = header :: rest ∧ (header >>> 24) % 256 = 0xe0) ∨
    (∃ header rest, ws = header :: rest ∧ (header >>> 24) % 256 = 0xe4) ∨
    (∃ header, ws = [header] ∧ (header >>> 24) % 256 = 0xe5) ∨
    (∃ header offset rest, ws = header :: offset :: rest ∧ (header >>> 24) % 256 = 0xe5) ∨
    (∃ header rest, ws = header :: rest ∧ (header >>> 24) % 256 = 0xe6) ∨
    (∃ header, ws = [header] ∧ IsHitHeader header) ∨
    (∃ header multi, ws = [header, multi] ∧ IsHitHeader header) ∨
    (∃ header multi adc_word rest, ws = header :: multi :: adc_word :: rest ∧
      IsHitHeader header) := by
  cases ws with
  | nil => exact Or.inl rfl
  | cons header rest =>
    rcases frame_type_cases header with h | h | h | h | h
    · exact Or.inr (Or.inl ⟨_, _, rfl, h⟩)
    · exact Or.inr (Or.inr (Or.inl ⟨_, _, rfl, h⟩))
    · cases rest with
      | nil => exact Or.inr (Or.inr (Or.inr (Or.inl ⟨_, rfl, h⟩)))
      | cons offset rest => exact Or.inr (Or.inr (Or.inr (Or.inr (Or.inl ⟨_, _, _, rfl, h⟩))))
    · exact Or.inr (Or.inr (Or.inr (Or.inr (Or.inr (Or.inl ⟨_, _, rfl, h⟩)))))
    · cases rest with
      | nil => exact Or.inr (Or.inr (Or.inr (Or.inr (Or.inr (Or.inr (Or.inl ⟨_, rfl, h⟩))))))
      | cons multi rest =>
        cases rest with
        | nil =>
          exact Or.inr (Or.inr (Or.inr (Or.inr (Or.inr (Or.inr (Or.inr
            (Or.inl ⟨_, _, rfl, h⟩)))))))
        | cons adc_word rest =>
          exact Or.inr (Or.inr (Or.inr (Or.inr (Or.inr (Or.inr (Or.inr
            (Or.inr ⟨_, _, _, _, rfl, h⟩)))))))

/-! ## Unfolding `baselineLoop` -/

theorem baselineLoop_nil (clip : Nat) (b c : Nat × Nat × Nat) (cpu : Bool) :
    baselineLoop clip [] b c cpu = .ok (b, c, cpu) := by
  rw [baselineLoop.eq_def]

theorem baselineLoop_skip (clip : Nat) (header : Nat) (rest : List Nat)
    (b c : Nat × Nat × Nat) (cpu : Bool)
    (h : (header >>> 24) % 256 = 0xe0 ∨ (header >>> 24) % 256 = 0xe4 ∨
      (header >>> 24) % 256 = 0xe6) :
    baselineLoop clip (header :: rest) b c cpu = baselineLoop clip rest b c cpu := by
  rw [baselineLoop.eq_def]
  rcases h with h | h | h <;> simp [h, OBJECT_CODE_PPS_SECOND, OBJECT_CODE_PPS_YEAR,
    OBJECT_CODE_TRIG_CONFIG, OBJECT_CODE_DATA_FORMAT]

theorem baselineLoop_trig_nil (clip : Nat) (header : Nat)
    (b c : Nat × Nat × Nat) (cpu : Bool) (h : (header >>> 24) % 256 = 0xe5) :
    baselineLoop clip [header] b c cpu = .error .TruncatedFrame := by
  rw [baselineLoop.eq_def]
  simp [h, OBJECT_CODE_PPS_SECOND, OBJECT_CODE_PPS_YEAR,
    OBJECT_CODE_TRIG_CONFIG, OBJECT_CODE_DATA_FORMAT]

theorem baselineLoop_trig (clip : Nat) (header offset : Nat) (rest : List Nat)
    (b c : Nat × Nat × Nat) (cpu : Bool) (h : (header >>> 24) % 256 = 0xe5) :
    baselineLoop clip (header :: offset :: rest) b c cpu =
      baselineLoop clip rest b c (((header &&& 0xffff) &&& STATUS_CPUTRIG_ACTIVE) != 0) := by
  rw [baselineLoop.eq_def]
  simp [h, OBJECT_CODE_PPS_SECOND, OBJECT_CODE_PPS_YEAR,
    OBJECT_CODE_TRIG_CONFIG, OBJECT_CODE_DATA_FORMAT]

theorem baselineLoop_hit_nil (clip : Nat) (header : Nat)
    (b c : Nat × Nat × Nat) (cpu : Bool) (h : IsHitHeader header) :
    baselineLoop clip [header] b c cpu = .error .TruncatedFrame := by
  obtain ⟨h1, h2, h3, h4⟩ := h
  rw [baselineLoop.eq_def]
  simp [h1, h2, h3, h4, OBJECT_CODE_PPS_SECOND, OBJECT_CODE_PPS_YEAR,
    OBJECT_CODE_TRIG_CONFIG, OBJECT_CODE_DATA_FORMAT]

theorem baselineLoop_hit_one (clip : Nat) (header multi : Nat)
    (b c : Nat × Nat × Nat) (cpu : Bool) (h : IsHitHeader header) :
    baselineLoop clip [header, multi] b c cpu = .error .TruncatedFrame := by
  obtain ⟨h1, h2, h3, h4⟩ := h
  rw [baselineLoop.eq_def]
  simp [h1, h2, h3, h4, OBJECT_CODE_PPS_SECOND, OBJECT_CODE_PPS_YEAR,
    OBJECT_CODE_TRIG_CONFIG, OBJECT_CODE_DATA_FORMAT]

theorem baselineLoop_hit_bad (clip : Nat) (header multi adc_word : Nat) (rest : List Nat)
    (b c : Nat × Nat × Nat) (cpu : Bool) (h : IsHitHeader header)
    (hc : (multi >>> 28) &&& 0xf ≠ 3) :
    baselineLoop clip (header :: multi :: adc_word :: rest) b c cpu =
      .error .InvalidAdcCount := by
  obtain ⟨h1, h2, h3, h4⟩ := h
  rw [baselineLoop.eq_def]
  simp [h1, h2, h3, h4, hc, OBJECT_CODE_PPS_SECOND, OBJECT_CODE_PPS_YEAR,
    OBJECT_CODE_TRIG_CONFIG, OBJECT_CODE_DATA_FORMAT]

theorem baselineLoop_hit_off (clip : Nat) (header multi adc_word : Nat) (rest : List Nat)
    (b c : Nat × Nat × Nat) (h : IsHitHeader header) (hc : (multi >>> 28) &&& 0xf = 3) :
    baselineLoop clip (header :: multi :: adc_word :: rest) b c false =
      baselineLoop clip rest b c false := by
  obtain ⟨h1, h2, h3, h4⟩ := h
  rw [baselineLoop.eq_def]
  simp [h1, h2, h3, h4, hc, OBJECT_CODE_PPS_SECOND, OBJECT_CODE_PPS_YEAR,
    OBJECT_CODE_TRIG_CONFIG, OBJECT_CODE_DATA_FORMAT]

theorem baselineLoop_hit_on (clip : Nat) (header multi adc_word : Nat) (rest : List Nat)
    (b c : Nat × Nat × Nat) (h : IsHitHeader header) (hc : (multi >>> 28) &&& 0xf = 3) :
    baselineLoop clip (header :: multi :: adc_word :: rest) b c true =
      baselineLoop clip rest
        (clipAdd clip (multi &&& 0x0fff, (adc_word >>> 16) &&& 0x0fff, adc_word &&& 0x0fff)
          b c).1
        (clipAdd clip (multi &&& 0x0fff, (adc_word >>> 16) &&& 0x0fff, adc_word &&& 0x0fff)
          b c).2 true := by
  obtain ⟨h1, h2, h3, h4⟩ := h
  obtain ⟨b0, b1, b2⟩ := b
  obtain ⟨c0, c1, c2⟩ := c
  rw [baselineLoop.eq_def]
  simp only [h1, h2, h3, h4, hc, OBJECT_CODE_PPS_SECOND, OBJECT_CODE_PPS_YEAR,
    OBJECT_CODE_TRIG_CONFIG, OBJECT_CODE_DATA_FORMAT, clipAdd]
  by_cases g0 : multi &&& 0x0fff ≤ clip <;> by_cases g1 : (adc_word >>> 16) &&& 0x0fff ≤ clip <;>
    by_cases g2 : adc_word &&& 0x0fff ≤ clip <;> simp [g0, g1, g2]

/-! ## Unfolding `hitrateLoop` -/

theorem lt_or_le_both (a b : Nat) : (a < b ∧ ¬ b ≤ a) ∨ (¬ a < b ∧ b ≤ a) := by omega

theorem hitrateLoop_nil (bt : Nat → Nat → Bool) (mx s h t : Nat) (cpu : Bool) :
    hitrateLoop bt mx [] s h t cpu = .ok (s, h, t, cpu) := by
  rw [hitrateLoop.eq_def]

theorem hitrateLoop_skip (bt : Nat → Nat → Bool) (mx : Nat) (header : Nat) (rest : List Nat)
    (s h t : Nat) (cpu : Bool)
    (hh : (header >>> 24) % 256 = 0xe4 ∨ (header >>> 24) % 256 = 0xe6) :
    hitrateLoop bt mx (header :: rest) s h t cpu = hitrateLoop bt mx rest s h t cpu := by
  rw [hitrateLoop.eq_def]
  rcases hh with hh | hh <;> simp [hh, OBJECT_CODE_PPS_SECOND, OBJECT_CODE_PPS_YEAR,
    OBJECT_CODE_TRIG_CONFIG, OBJECT_CODE_DATA_FORMAT]

theorem hitrateLoop_second (bt : Nat → Nat → Bool) (mx : Nat) (header : Nat) (rest : List Nat)
    (s h t : Nat) (cpu : Bool) (hh : (header >>> 24) % 256 = 0xe0) :
    hitrateLoop bt mx (header :: rest) s h t cpu =
      hitrateLoop bt mx rest (s + 1) (if s < 2 then 0 else t) (if s < 2 then 0 else t) cpu := by
  rw [hitrateLoop.eq_def]
  simp [hh, OBJECT_CODE_PPS_SECOND, OBJECT_CODE_PPS_YEAR,
    OBJECT_CODE_TRIG_CONFIG, OBJECT_CODE_DATA_FORMAT]

theorem hitrateLoop_trig_nil (bt : Nat → Nat → Bool) (mx : Nat) (header : Nat)
    (s h t : Nat) (cpu : Bool) (hh : (header >>> 24) % 256 = 0xe5) :
    hitrateLoop bt mx [header] s h t cpu = .error .TruncatedFrame := by
  rw [hitrateLoop.eq_def]
  simp [hh, OBJECT_CODE_PPS_SECOND, OBJECT_CODE_PPS_YEAR,
    OBJECT_CODE_TRIG_CONFIG, OBJECT_CODE_DATA_FORMAT]

theorem hitrateLoop_trig (bt : Nat → Nat → Bool) (mx : Nat) (header offset : Nat)
    (rest : List Nat) (s h t : Nat) (cpu : Bool) (hh : (header >>> 24) % 256 = 0xe5) :
    hitrateLoop bt mx (header :: offset :: rest) s h t cpu =
      hitrateLoop bt mx rest s h t (((header &&& 0xffff) &&& STATUS_CPUTRIG_ACTIVE) != 0) := by
  rw [hitrateLoop.eq_def]
  simp [hh, OBJECT_CODE_PPS_SECOND, OBJECT_CODE_PPS_YEAR,
    OBJECT_CODE_TRIG_CONFIG, OBJECT_CODE_DATA_FORMAT]

theorem hitrateLoop_hit_nil (bt : Nat → Nat → Bool) (mx : Nat) (header : Nat)
    (s h t : Nat) (cpu : Bool) (hh : IsHitHeader header) :
    hitrateLoop bt mx [header] s h t cpu = .error .TruncatedFrame := by
  obtain ⟨h1, h2, h3, h4⟩ := hh
  rw [hitrateLoop.eq_def]
  simp [h1, h2, h3, h4, OBJECT_CODE_PPS_SECOND, OBJECT_CODE_PPS_YEAR,
    OBJECT_CODE_TRIG_CONFIG, OBJECT_CODE_DATA_FORMAT]

theorem hitrateLoop_hit_one (bt : Nat → Nat → Bool) (mx : Nat) (header multi : Nat)
    (s h t : Nat) (cpu : Bool) (hh : IsHitHeader header) :
    hitrateLoop bt mx [header, multi] s h t cpu = .error .TruncatedFrame := by
  obtain ⟨h1, h2, h3, h4⟩ := hh
  rw [hitrateLoop.eq_def]
  simp [h1, h2, h3, h4, OBJECT_CODE_PPS_SECOND, OBJECT_CODE_PPS_YEAR,
    OBJECT_CODE_TRIG_CONFIG, OBJECT_CODE_DATA_FORMAT]

theorem hitrateLoop_hit_bad (bt : Nat → Nat → Bool) (mx : Nat) (header multi adc_word : Nat)
    (rest : List Nat) (s h t : Nat) (cpu : Bool) (hh : IsHitHeader header)
    (hc : (multi >>> 28) &&& 0xf ≠ 3) :
    hitrateLoop bt mx (header :: multi :: adc_word :: rest) s h t cpu =
      .error .InvalidAdcCount := by
  obtain ⟨h1, h2, h3, h4⟩ := hh
  rw [hitrateLoop.eq_def]
  simp [h1, h2, h3, h4, hc, OBJECT_CODE_PPS_SECOND, OBJECT_CODE_PPS_YEAR,
    OBJECT_CODE_TRIG_CONFIG, OBJECT_CODE_DATA_FORMAT]

theorem hitrateLoop_hit_on (bt : Nat → Nat → Bool) (mx : Nat) (header multi adc_word : Nat)
    (rest : List Nat) (s h t : Nat) (hh : IsHitHeader header)
    (hc : (multi >>> 28) &&& 0xf = 3) :
    hitrateLoop bt mx (header :: multi :: adc_word :: rest) s h t true =
      hitrateLoop bt mx rest s h t true := by
  obtain ⟨h1, h2, h3, h4⟩ := hh
  rw [hitrateLoop.eq_def]
  simp [h1, h2, h3, h4, hc, OBJECT_CODE_PPS_SECOND, OBJECT_CODE_PPS_YEAR,
    OBJECT_CODE_TRIG_CONFIG, OBJECT_CODE_DATA_FORMAT]

theorem hitrateLoop_hit_off (bt : Nat → Nat → Bool) (mx : Nat) (header multi adc_word : Nat)
    (rest : List Nat) (s h t : Nat) (hh : IsHitHeader header)
    (hc : (multi >>> 28) &&& 0xf = 3) :
    hitrateLoop bt mx (header :: multi :: adc_word :: rest) s h t false =
      hitrateLoop bt mx rest s h
        (t + if hitCounted bt mx
          (multi &&& 0x0fff, (adc_word >>> 16) &&& 0x0fff, adc_word &&& 0x0fff) then 1 else 0)
        false := by
  obtain ⟨h1, h2, h3, h4⟩ := hh
  rw [hitrateLoop.eq_def]
  simp only [h1, h2, h3, h4, hc, OBJECT_CODE_PPS_SECOND, OBJECT_CODE_PPS_YEAR,
    OBJECT_CODE_TRIG_CONFIG, OBJECT_CODE_DATA_FORMAT, hitCounted, find_adc_index]
  rcases lt_or_le_both mx (multi &&& 0x0fff) with ⟨g0, g0'⟩ | ⟨g0, g0'⟩ <;>
    rcases lt_or_le_both mx ((adc_word >>> 16) &&& 0x0fff) with ⟨g1, g1'⟩ | ⟨g1, g1'⟩ <;>
    rcases lt_or_le_both mx (adc_word &&& 0x0fff) with ⟨g2, g2'⟩ | ⟨g2, g2'⟩ <;>
    cases hb0 : bt 0 (multi &&& 0x0fff) <;> cases hb1 : bt 1 ((adc_word >>> 16) &&& 0x0fff) <;>
    cases hb2 : bt 2 (adc_word &&& 0x0fff) <;>
    simp [g0, g1, g2, g0', g1', g2', hb0, hb1, hb2]

/-! ## The two estimators fail alike -/

theorem loops_fail_alike_aux (clip : Nat) (bt : Nat → Nat → Bool) (mx : Nat) :
    ∀ (n : Nat) (ws : List Nat), ws.length ≤ n →
    ∀ (b c : Nat × Nat × Nat) (cpu : Bool) (s h t : Nat) (cpu' : Bool),
      errOf (baselineLoop clip ws b c cpu) = errOf (hitrateLoop bt mx ws s h t cpu') ∧
      errOf (baselineLoop clip ws b c cpu) ≠ some .InvalidInput ∧
      errOf (baselineLoop clip ws b c cpu) ≠ some .InsufficientData := by
  intro n
  induction n with
  | zero =>
    intro ws hl b c cpu s h t cpu'
    have : ws = [] := List.length_eq_zero.mp (Nat.le_zero.mp hl)
    subst this
    simp [baselineLoop_nil, hitrateLoop_nil, errOf]
  | succ n ih =>
    intro ws hl b c cpu s h t cpu'
    rcases words_cases ws with rfl | ⟨header, rest, rfl, hh⟩ | ⟨header, rest, rfl, hh⟩ |
      ⟨header, rfl, hh⟩ | ⟨header, offset, rest, rfl, hh⟩ | ⟨header, rest, rfl, hh⟩ |
      ⟨header, rfl, hh⟩ | ⟨header, multi, rfl, hh⟩ | ⟨header, multi, adc_word, rest, rfl, hh⟩
    · simp [baselineLoop_nil, hitrateLoop_nil, errOf]
    · simp only [List.length_cons] at hl
      rw [baselineLoop_skip _ _ _ _ _ _ (Or.inl hh), hitrateLoop_second _ _ _ _ _ _ _ _ hh]
      exact ih rest (by omega) _ _ _ _ _ _ _
    · simp only [List.length_cons] at hl
      rw [baselineLoop_skip _ _ _ _ _ _ (Or.inr (Or.inl hh)),
        hitrateLoop_skip _ _ _ _ _ _ _ _ (Or.inl hh)]
      exact ih rest (by omega) _ _ _ _ _ _ _
    · rw [baselineLoop_trig_nil _ _ _ _ _ hh, hitrateLoop_trig_nil _ _ _ _ _ _ _ hh]
      simp [errOf]
    · simp only [List.length_cons] at hl
      rw [baselineLoop_trig _ _ _ _ _ _ _ hh, hitrateLoop_trig _ _ _ _ _ _ _ _ _ hh]
      exact ih rest (by omega) _ _ _ _ _ _ _
    · simp only [List.length_cons] at hl
      rw [baselineLoop_skip _ _ _ _ _ _ (Or.inr (Or.inr hh)),
        hitrateLoop_skip _ _ _ _ _ _ _ _ (Or.inr hh)]
      exact ih rest (by omega) _ _ _ _ _ _ _
    · rw [baselineLoop_hit_nil _ _ _ _ _ hh, hitrateLoop_hit_nil _ _ _ _ _ _ _ hh]
      simp [errOf]
    · rw [baselineLoop_hit_one _ _ _ _ _ _ hh, hitrateLoop_hit_one _ _ _ _ _ _ _ _ hh]
      simp [errOf]
    · simp only [List.length_cons] at hl
      by_cases hc : (multi >>> 28) &&& 0xf = 3
      · cases cpu <;> cases cpu'
        · rw [baselineLoop_hit_off _ _ _ _ _ _ _ hh hc,
            hitrateLoop_hit_off _ _ _ _ _ _ _ _ _ hh hc]
          exact ih rest (by omega) _ _ _ _ _ _ _
        · rw [baselineLoop_hit_off _ _ _ _ _ _ _ hh hc,
            hitrateLoop_hit_on _ _ _ _ _ _ _ _ _ hh hc]
          exact ih rest (by omega) _ _ _ _ _ _ _
        · rw [baselineLoop_hit_on _ _ _ _ _ _ _ hh hc,
            hitrateLoop_hit_off _ _ _ _ _ _ _ _ _ hh hc]
          exact ih rest (by omega) _ _ _ _ _ _ _
        · rw [baselineLoop_hit_on _ _ _ _ _ _ _ hh hc,
            hitrateLoop_hit_on _ _ _ _ _ _ _ _ _ hh hc]
          exact ih rest (by omega) _ _ _ _ _ _ _
      · rw [baselineLoop_hit_bad _ _ _ _ _ _ _ _ hh hc,
          hitrateLoop_hit_bad _ _ _ _ _ _ _ _ _ _ hh hc]
        simp [errOf]

theorem errOf_get_baseline (input : Buffer) (clip : Nat) :
    errOf (get_baseline input clip) =
      if input.tail.val ≠ 0 then some .InvalidInput
      else errOf (baselineLoop clip input.data (0, 0, 0) (0, 0, 0) false) := by
  unfold get_baseline baseline_scan
  rw [Buffer.size_mod, Buffer.size_div, List.take_length]
  split_ifs with ht
  · rfl
  · cases baselineLoop clip input.data (0, 0, 0) (0, 0, 0) false <;> rfl

theorem errOf_get_hitrate_thresh (input : Buffer) (bt : Nat → Nat → Bool) (mx : Nat) :
    errOf (get_hitrate_thresh input bt mx) =
      if input.tail.val ≠ 0 then some .InvalidInput
      else errOf (hitrateLoop bt mx input.data 0 0 0 false) := by
  unfold get_hitrate_thresh
  rw [Buffer.size_mod, Buffer.size_div, List.take_length]
  split_ifs with ht
  · rfl
  · cases hitrateLoop bt mx input.data 0 0 0 false <;> rfl

/-- C9. `get_hitrate_thresh` and `get_baseline` have the same failure
behaviour: on every buffer and for all values of the numeric arguments either
both return or both fail with the same error, which is never
`InsufficientData`; the failure is the same for every `adc_clip`, every
threshold test and every `max_adc_counts`, and the two loops fail alike from
any remaining words whatever the accumulators and the carried `cpu_trigger`
flags are. -/
theorem hitrate_and_baseline_fail_alike (input : Buffer) (adc_clip adc_clip' : Nat)
    (below_threshold below_threshold' : Nat → Nat → Bool)
    (max_adc_counts max_adc_counts' : Nat) :
    errOf (get_hitrate_thresh input below_threshold max_adc_counts) =
      errOf (get_baseline input adc_clip) ∧
    errOf (get_baseline input adc_clip) = errOf (get_baseline input adc_clip') ∧
    errOf (get_hitrate_thresh input below_threshold max_adc_counts) =
      errOf (get_hitrate_thresh input below_threshold' max_adc_counts') ∧
    errOf (get_baseline input adc_clip) ≠ some .InsufficientData ∧
    ∀ (data : List Nat) (baseline count : Nat × Nat × Nat) (cpu_trigger : Bool)
      (seconds hits hits_temp : Nat) (cpu_trigger' : Bool),
      errOf (hitrateLoop below_threshold max_adc_counts data seconds hits hits_temp
        cpu_trigger') = errOf (baselineLoop adc_clip data baseline count cpu_trigger) := by
  have key := fun (clip : Nat) (bt : Nat → Nat → Bool) (mx : Nat) =>
    loops_fail_alike_aux clip bt mx input.data.length input.data (le_refl _)
      (0, 0, 0) (0, 0, 0) false 0 0 0 false
  simp only [errOf_get_baseline, errOf_get_hitrate_thresh]
  refine ⟨?_, ?_, ?_, ?_, ?_⟩
  · split_ifs
    · rfl
    · exact (key adc_clip below_threshold max_adc_counts).1.symm
  · split_ifs
    · rfl
    · rw [(key adc_clip below_threshold max_adc_counts).1,
        (key adc_clip' below_threshold max_adc_counts).1]
  · split_ifs
    · rfl
    · rw [← (key adc_clip below_threshold max_adc_counts).1,
        ← (key adc_clip below_threshold' max_adc_counts').1]
  · split_ifs
    · simp
    · exact (key adc_clip below_threshold max_adc_counts).2.2
  · intro data baseline count cpu_trigger seconds hits hits_temp cpu_trigger'
    exact (loops_fail_alike_aux adc_clip below_threshold max_adc_counts data.length data
      (le_refl _) baseline count cpu_trigger seconds hits hits_temp cpu_trigger').1.symm

/-! ## Appending words to a buffer that scans to its end -/

theorem baselineLoop_append_aux (clip : Nat) (S : List Nat) :
    ∀ (n : Nat) (B : List Nat), B.length ≤ n →
    ∀ (b c : Nat × Nat × Nat) (cpu : Bool) (r : (Nat × Nat × Nat) × (Nat × Nat × Nat) × Bool),
      baselineLoop clip B b c cpu = .ok r →
      baselineLoop clip (B ++ S) b c cpu = baselineLoop clip S r.1 r.2.1 r.2.2 := by
  intro n
  induction n with
  | zero =>
    intro B hl b c cpu r hr
    have : B = [] := List.length_eq_zero.mp (Nat.le_zero.mp hl)
    subst this
    rw [baselineLoop_nil] at hr
    cases hr
    rfl
  | succ n ih =>
    intro B hl b c cpu r hr
    rcases words_cases B with rfl | ⟨header, rest, rfl, hh⟩ | ⟨header, rest, rfl, hh⟩ |
      ⟨header, rfl, hh⟩ | ⟨header, offset, rest, rfl, hh⟩ | ⟨header, rest, rfl, hh⟩ |
      ⟨header, rfl, hh⟩ | ⟨header, multi, rfl, hh⟩ | ⟨header, multi, adc_word, rest, rfl, hh⟩
    · rw [baselineLoop_nil] at hr
      cases hr
      rfl
    · simp only [List.length_cons] at hl
      rw [baselineLoop_skip _ _ _ _ _ _ (Or.inl hh)] at hr
      rw [List.cons_append, baselineLoop_skip _ _ _ _ _ _ (Or.inl hh)]
      exact ih rest (by omega) _ _ _ _ hr
    · simp only [List.length_cons] at hl
      rw [baselineLoop_skip _ _ _ _ _ _ (Or.inr (Or.inl hh))] at hr
      rw [List.cons_append, baselineLoop_skip _ _ _ _ _ _ (Or.inr (Or.inl hh))]
      exact ih rest (by omega) _ _ _ _ hr
    · rw [baselineLoop_trig_nil _ _ _ _ _ hh] at hr
      cases hr
    · simp only [List.length_cons] at hl
      rw [baselineLoop_trig _ _ _ _ _ _ _ hh] at hr
      rw [List.cons_append, List.cons_append, baselineLoop_trig _ _ _ _ _ _ _ hh]
      exact ih rest (by omega) _ _ _ _ hr
    · simp only [List.length_cons] at hl
      rw [baselineLoop_skip _ _ _ _ _ _ (Or.inr (Or.inr hh))] at hr
      rw [List.cons_append, baselineLoop_skip _ _ _ _ _ _ (Or.inr (Or.inr hh))]
      exact ih rest (by omega) _ _ _ _ hr
    · rw [baselineLoop_hit_nil _ _ _ _ _ hh] at hr
      cases hr
    · rw [baselineLoop_hit_one _ _ _ _ _ _ hh] at hr
      cases hr
    · simp only [List.length_cons] at hl
      by_cases hc : (multi >>> 28) &&& 0xf = 3
      · cases cpu
        · rw [baselineLoop_hit_off _ _ _ _ _ _ _ hh hc] at hr
          rw [List.cons_append, List.cons_append, List.cons_append,
            baselineLoop_hit_off _ _ _ _ _ _ _ hh hc]
          exact ih rest (by omega) _ _ _ _ hr
        · rw [baselineLoop_hit_on _ _ _ _ _ _ _ hh hc] at hr
          rw [List.cons_append, List.cons_append, List.cons_append,
            baselineLoop_hit_on _ _ _ _ _ _ _ hh hc]
          exact ih rest (by omega) _ _ _ _ hr
      · rw [baselineLoop_hit_bad _ _ _ _ _ _ _ _ hh hc] at hr
        cases hr

theorem baseline_scan_ofWords (ws : List Nat) (clip : Nat) :
    baseline_scan (Buffer.ofWords ws) clip =
      baselineLoop clip ws (0, 0, 0) (0, 0, 0) false := by
  unfold baseline_scan
  rw [Buffer.size_mod, Buffer.size_div, List.take_length]
  simp [Buffer.ofWords]

/-- C10. The baseline clip is applied per channel: when `get_baseline` scans
the words `B` to their end with the carried `cpu_trigger` true, appending a
complete hit frame with `adc_count = 3` changes the result exactly by adding,
for each channel on its own, the ADC value to the sum and one to the count
when the value is at most `adc_clip`, and nothing when it is above. When
channel 0 exceeds the clip and channel 1 does not, count 0 stays and count 1
goes up by one. -/
theorem baseline_clip_per_channel (B : List Nat) (adc_clip header multi adc_word : Nat)
    (sums counts : Nat × Nat × Nat)
    (hB : baseline_scan (Buffer.ofWords B) adc_clip = .ok (sums, counts, true))
    (hh : IsHitHeader header) (hc : (multi >>> 28) &&& 0xf = 3) :
    get_baseline (Buffer.ofWords B) adc_clip = .ok (sums, counts) ∧
    ∃ sums' counts',
      get_baseline (Buffer.ofWords (B ++ [header, multi, adc_word])) adc_clip =
        .ok (sums', counts') ∧
      sums' =
        (sums.1 + (if multi &&& 0x0fff ≤ adc_clip then multi &&& 0x0fff else 0),
         sums.2.1 + (if (adc_word >>> 16) &&& 0x0fff ≤ adc_clip
           then (adc_word >>> 16) &&& 0x0fff else 0),
         sums.2.2 + (if adc_word &&& 0x0fff ≤ adc_clip then adc_word &&& 0x0fff else 0)) ∧
      counts' =
        (counts.1 + (if multi &&& 0x0fff ≤ adc_clip then 1 else 0),
         counts.2.1 + (if (adc_word >>> 16) &&& 0x0fff ≤ adc_clip then 1 else 0),
         counts.2.2 + (if adc_word &&& 0x0fff ≤ adc_clip then 1 else 0)) ∧
      (adc_clip < multi &&& 0x0fff → (adc_word >>> 16) &&& 0x0fff ≤ adc_clip →
        counts'.1 = counts.1 ∧ counts'.2.1 = counts.2.1 + 1) := by
  have hB' := hB
  rw [baseline_scan_ofWords] at hB'
  have happ := baselineLoop_append_aux adc_clip [header, multi, adc_word] B.length B
    (le_refl _) _ _ _ _ hB'
  simp only [] at happ
  rw [baselineLoop_hit_on _ _ _ _ _ _ _ hh hc, baselineLoop_nil] at happ
  refine ⟨by unfold get_baseline; rw [hB], _, _, ?_, rfl, rfl, ?_⟩
  · unfold get_baseline
    rw [baseline_scan_ofWords, happ]
    rfl
  · intro h0 h1
    simp [Nat.not_le.mpr h0, h1]

theorem baseline_clip_per_channel_witness :
    get_baseline (Buffer.ofWords [0xe5000020, 0, 0x01000000, 0x30000005, 0x00060007]) 100 =
      .ok ((5, 6, 7), (1, 1, 1)) ∧
    ∃ sums' counts',
      get_baseline (Buffer.ofWords ([0xe5000020, 0, 0x01000000, 0x30000005, 0x00060007] ++
        [0x02000000, 0x3abc0fff, 0x00020003])) 100 = .ok (sums', counts') ∧
      sums' =
        (5 + (if 0x3abc0fff &&& 0x0fff ≤ 100 then 0x3abc0fff &&& 0x0fff else 0),
         6 + (if (0x00020003 >>> 16) &&& 0x0fff ≤ 100
           then (0x00020003 >>> 16) &&& 0x0fff else 0),
         7 + (if 0x00020003 &&& 0x0fff ≤ 100 then 0x00020003 &&& 0x0fff else 0)) ∧
      counts' =
        (1 + (if 0x3abc0fff &&& 0x0fff ≤ 100 then 1 else 0),
         1 + (if (0x00020003 >>> 16) &&& 0x0fff ≤ 100 then 1 else 0),
         1 + (if 0x00020003 &&& 0x0fff ≤ 100 then 1 else 0)) ∧
      (100 < 0x3abc0fff &&& 0x0fff → (0x00020003 >>> 16) &&& 0x0fff ≤ 100 →
        counts'.1 = 1 ∧ counts'.2.1 = 1 + 1) :=
  baseline_clip_per_channel [0xe5000020, 0, 0x01000000, 0x30000005, 0x00060007] 100
    0x02000000 0x3abc0fff 0x00020003 (5, 6, 7) (1, 1, 1) (by decide) (by decide) (by decide)

/-! ## `get_baseline` as a fold of the decoder's frames -/

theorem clippedValues_nil (clip : Nat) (ch : Nat × Nat × Nat → Nat) :
    clippedValues clip ch [] = [] := rfl

theorem clippedValues_second (clip : Nat) (ch : Nat × Nat × Nat → Nat) (x : Nat)
    (fs : List Frame) : clippedValues clip ch (.PpsSecond x :: fs) = clippedValues clip ch fs := by
  simp [clippedValues]

theorem clippedValues_year (clip : Nat) (ch : Nat × Nat × Nat → Nat) (x : Nat)
    (fs : List Frame) : clippedValues clip ch (.PpsYear x :: fs) = clippedValues clip ch fs := by
  simp [clippedValues]

theorem clippedValues_hit_off (clip : Nat) (ch : Nat × Nat × Nat → Nat) (adcs : Nat × Nat × Nat)
    (fs : List Frame) :
    clippedValues clip ch (.Hit adcs false :: fs) = clippedValues clip ch fs := by
  simp [clippedValues]

theorem clippedValues_hit_on (clip : Nat) (ch : Nat × Nat × Nat → Nat) (adcs : Nat × Nat × Nat)
    (fs : List Frame) :
    clippedValues clip ch (.Hit adcs true :: fs) =
      if ch adcs ≤ clip then ch adcs :: clippedValues clip ch fs
      else clippedValues clip ch fs := by
  unfold clippedValues
  rw [List.filterMap_cons]
  split_ifs with h <;> simp [h]

theorem clippedValues_hit_on_sum (clip : Nat) (ch : Nat × Nat × Nat → Nat)
    (adcs : Nat × Nat × Nat) (fs : List Frame) :
    (clippedValues clip ch (.Hit adcs true :: fs)).sum =
      (if ch adcs ≤ clip then ch adcs else 0) + (clippedValues clip ch fs).sum := by
  rw [clippedValues_hit_on]
  split_ifs <;> simp

theorem clippedValues_hit_on_length (clip : Nat) (ch : Nat × Nat × Nat → Nat)
    (adcs : Nat × Nat × Nat) (fs : List Frame) :
    (clippedValues clip ch (.Hit adcs true :: fs)).length =
      (if ch adcs ≤ clip then 1 else 0) + (clippedValues clip ch fs).length := by
  rw [clippedValues_hit_on]
  split_ifs <;> simp [Nat.add_comm]

theorem get_baseline_ok (input : Buffer) (clip : Nat) (sums counts : Nat × Nat × Nat)
    (h : get_baseline input clip = .ok (sums, counts)) :
    input.tail.val = 0 ∧
    ∃ cpu, baselineLoop clip input.data (0, 0, 0) (0, 0, 0) false = .ok (sums, counts, cpu) := by
  unfold get_baseline baseline_scan at h
  rw [Buffer.size_mod, Buffer.size_div, List.take_length] at h
  by_cases ht : input.tail.val = 0
  · rw [if_neg (not_not.mpr ht)] at h
    refine ⟨ht, ?_⟩
    cases hl : baselineLoop clip input.data (0, 0, 0) (0, 0, 0) false with
    | error e => rw [hl] at h; cases h
    | ok r =>
      rw [hl] at h
      obtain ⟨b, c, cpu⟩ := r
      simp only [Except.ok.injEq, Prod.mk.injEq] at h
      exact ⟨cpu, by rw [h.1, h.2]⟩
  · rw [if_pos ht] at h
    cases h

theorem baselineLoop_fold_aux (clip : Nat) :
    ∀ (n : Nat) (ws : List Nat), ws.length ≤ n →
    ∀ (b c : Nat × Nat × Nat) (cpu : Bool) (r : (Nat × Nat × Nat) × (Nat × Nat × Nat) × Bool),
      baselineLoop clip ws b c cpu = .ok r →
      (framesFrom ws cpu).2 = none ∧ BaselineFold clip (framesFrom ws cpu).1 b c r := by
  intro n
  induction n with
  | zero =>
    intro ws hl b c cpu r hr
    have : ws = [] := List.length_eq_zero.mp (Nat.le_zero.mp hl)
    subst this
    rw [baselineLoop_nil] at hr
    cases hr
    simp [framesFrom_nil, BaselineFold, clippedValues_nil]
  | succ n ih =>
    intro ws hl b c cpu r hr
    rcases words_cases ws with rfl | ⟨header, rest, rfl, hh⟩ | ⟨header, rest, rfl, hh⟩ |
      ⟨header, rfl, hh⟩ | ⟨header, offset, rest, rfl, hh⟩ | ⟨header, rest, rfl, hh⟩ |
      ⟨header, rfl, hh⟩ | ⟨header, multi, rfl, hh⟩ | ⟨header, multi, adc_word, rest, rfl, hh⟩
    · rw [baselineLoop_nil] at hr
      cases hr
      simp [framesFrom_nil, BaselineFold, clippedValues_nil]
    · simp only [List.length_cons] at hl
      rw [baselineLoop_skip _ _ _ _ _ _ (Or.inl hh)] at hr
      have key := ih rest (by omega) _ _ _ _ hr
      rw [framesFrom_second _ _ _ hh]
      simpa [consFrame, BaselineFold, clippedValues_second] using key
    · simp only [List.length_cons] at hl
      rw [baselineLoop_skip _ _ _ _ _ _ (Or.inr (Or.inl hh))] at hr
      have key := ih rest (by omega) _ _ _ _ hr
      rw [framesFrom_year _ _ _ hh]
      simpa [consFrame, BaselineFold, clippedValues_year] using key
    · rw [baselineLoop_trig_nil _ _ _ _ _ hh] at hr
      cases hr
    · simp only [List.length_cons] at hl
      rw [baselineLoop_trig _ _ _ _ _ _ _ hh] at hr
      rw [framesFrom_trig _ _ _ _ hh]
      exact ih rest (by omega) _ _ _ _ hr
    · simp only [List.length_cons] at hl
      rw [baselineLoop_skip _ _ _ _ _ _ (Or.inr (Or.inr hh))] at hr
      rw [framesFrom_format _ _ _ hh]
      exact ih rest (by omega) _ _ _ _ hr
    · rw [baselineLoop_hit_nil _ _ _ _ _ hh] at hr
      cases hr
    · rw [baselineLoop_hit_one _ _ _ _ _ _ hh] at hr
      cases hr
    · simp only [List.length_cons] at hl
      by_cases hc : (multi >>> 28) &&& 0xf = 3
      · rw [framesFrom_hit _ _ _ _ _ hh hc]
        cases cpu
        · rw [baselineLoop_hit_off _ _ _ _ _ _ _ hh hc] at hr
          have key := ih rest (by omega) _ _ _ _ hr
          simpa [consFrame, BaselineFold, clippedValues_hit_off] using key
        · rw [baselineLoop_hit_on _ _ _ _ _ _ _ hh hc] at hr
          obtain ⟨k0, k1, k2, k3, k4, k5, k6⟩ := ih rest (by omega) _ _ _ _ hr
          simp only [clipAdd] at k1 k2 k3 k4 k5 k6
          refine ⟨by simpa [consFrame] using k0, ?_, ?_, ?_, ?_, ?_, ?_⟩
          · rw [k1]; simp only [consFrame, clippedValues_hit_on_sum, Nat.add_assoc]
          · rw [k2]; simp only [consFrame, clippedValues_hit_on_sum, Nat.add_assoc]
          · rw [k3]; simp only [consFrame, clippedValues_hit_on_sum, Nat.add_assoc]
          · rw [k4]; simp only [consFrame, clippedValues_hit_on_length, Nat.add_assoc]
          · rw [k5]; simp only [consFrame, clippedValues_hit_on_length, Nat.add_assoc]
          · rw [k6]; simp only [consFrame, clippedValues_hit_on_length, Nat.add_assoc]
      · rw [baselineLoop_hit_bad _ _ _ _ _ _ _ _ hh hc] at hr
        cases hr

/-- C3. `get_baseline` is the fold of the frame decoder's output: whenever
`get_baseline` succeeds, iterating `HitBufferDecoder` over the same buffer
ends with `stop_iteration` and no error, and for each channel the count is
the number of returned Hit frames with `cpu_trigger = true` whose value on
that channel is at most `adc_clip`, and the sum is the sum of those values;
Hit frames with `cpu_trigger = false` add to no channel. -/
theorem get_baseline_is_fold_of_decoder (input : Buffer) (adc_clip : Nat)
    (sums counts : Nat × Nat × Nat)
    (h : get_baseline input adc_clip = .ok (sums, counts)) :
    ∃ fs, decode_all input = some (fs, none) ∧
      counts = ((clippedValues adc_clip (fun adcs => adcs.1) fs).length,
        (clippedValues adc_clip (fun adcs => adcs.2.1) fs).length,
        (clippedValues adc_clip (fun adcs => adcs.2.2) fs).length) ∧
      sums = ((clippedValues adc_clip (fun adcs => adcs.1) fs).sum,
        (clippedValues adc_clip (fun adcs => adcs.2.1) fs).sum,
        (clippedValues adc_clip (fun adcs => adcs.2.2) fs).sum) := by
  obtain ⟨ht, cpu, hl⟩ := get_baseline_ok input adc_clip sums counts h
  obtain ⟨k0, k1, k2, k3, k4, k5, k6⟩ :=
    baselineLoop_fold_aux adc_clip _ input.data (le_refl _) _ _ _ _ hl
  simp only [Nat.zero_add] at k1 k2 k3 k4 k5 k6
  refine ⟨(framesFrom input.data false).1, ?_, ?_, ?_⟩
  · rw [decode_all_eq, if_neg (not_not.mpr ht), ← k0]
  · rw [← k4, ← k5, ← k6]
  · rw [← k1, ← k2, ← k3]

theorem get_baseline_is_fold_of_decoder_witness :
    ∃ fs, decode_all (Buffer.ofWords [0x01000000, 0x30000001, 0x00020003, 0xe5000020, 0,
        0xe0000001, 0x01000000, 0x30000004, 0x00050106]) = some (fs, none) ∧
      ((1, 1, 0) : Nat × Nat × Nat) = ((clippedValues 100 (fun adcs => adcs.1) fs).length,
        (clippedValues 100 (fun adcs => adcs.2.1) fs).length,
        (clippedValues 100 (fun adcs => adcs.2.2) fs).length) ∧
      ((4, 5, 0) : Nat × Nat × Nat) = ((clippedValues 100 (fun adcs => adcs.1) fs).sum,
        (clippedValues 100 (fun adcs => adcs.2.1) fs).sum,
        (clippedValues 100 (fun adcs => adcs.2.2) fs).sum) :=
  get_baseline_is_fold_of_decoder _ 100 (4, 5, 0) (1, 1, 0) (by decide)

/-! ## The counters of `get_hitrate_thresh` over a list of frames -/

theorem beforeLastPps_of_not_any (fs : List Frame) (h : fs.any isPpsSecond = false) :
    beforeLastPps fs = [] := by
  cases fs with
  | nil => rfl
  | cons f fs =>
    simp only [List.any_cons, Bool.or_eq_false_iff] at h
    simp [beforeLastPps, h.2]

theorem countHits_cons (bt : Nat → Nat → Bool) (mx : Nat) (f : Frame) (fs : List Frame) :
    countHits bt mx (f :: fs) =
      (if countedFrame bt mx f then 1 else 0) + countHits bt mx fs := by
  unfold countHits
  rw [List.filter_cons]
  split_ifs <;> simp [Nat.add_comm]

theorem countPps_cons (f : Frame) (fs : List Frame) :
    countPps (f :: fs) = (if isPpsSecond f then 1 else 0) + countPps fs := by
  unfold countPps
  rw [List.filter_cons]
  split_ifs <;> simp [Nat.add_comm]

theorem countHits_beforeLastPps_cons (bt : Nat → Nat → Bool) (mx : Nat) (f : Frame)
    (fs : List Frame) :
    countHits bt mx (beforeLastPps (f :: fs)) =
      if fs.any isPpsSecond then
        (if countedFrame bt mx f then 1 else 0) + countHits bt mx (beforeLastPps fs)
      else 0 := by
  rw [beforeLastPps]
  by_cases ha : fs.any isPpsSecond = true
  · rw [if_pos ha, if_pos ha, countHits_cons]
  · rw [if_neg ha, if_neg ha]
    rfl

theorem foldl_hitrateStep_warm (bt : Nat → Nat → Bool) (mx : Nat) (fs : List Frame) :
    ∀ (s h t : Nat), 2 ≤ s →
      fs.foldl (hitrateStep bt mx) (s, h, t) =
        (s + countPps fs,
         if fs.any isPpsSecond then t + countHits bt mx (beforeLastPps fs) else h,
         t + countHits bt mx fs) := by
  induction fs with
  | nil => intro s h t _; simp [countPps, countHits]
  | cons f fs ih =>
    intro s h t hs
    rw [List.foldl_cons, countHits_beforeLastPps_cons, countHits_cons, countPps_cons,
      List.any_cons]
    cases f with
    | PpsSecond x =>
      have hn : ¬ s < 2 := by omega
      simp only [hitrateStep, hn, if_false]
      rw [ih (s + 1) t t (by omega)]
      simp only [isPpsSecond, countedFrame, if_true, Bool.true_or, Bool.false_eq_true, if_false]
      by_cases ha : fs.any isPpsSecond = true
      · simp only [ha, if_true, Prod.mk.injEq]
        omega
      · simp only [ha, Bool.false_eq_true, if_false, Prod.mk.injEq, true_and]
        omega
    | PpsYear x =>
      simp only [hitrateStep]
      rw [ih s h t hs]
      simp only [isPpsSecond, countedFrame, Bool.false_or, Bool.false_eq_true, if_false]
      by_cases ha : fs.any isPpsSecond = true
      · simp only [ha, if_true, Prod.mk.injEq]
        omega
      · simp only [ha, Bool.false_eq_true, if_false, Prod.mk.injEq, true_and]
        omega
    | Hit adcs c =>
      cases c
      · simp only [hitrateStep]
        rw [ih s h _ hs]
        simp only [isPpsSecond, countedFrame, Bool.false_or, Bool.false_eq_true, if_false]
        generalize (if hitCounted bt mx adcs = true then 1 else 0) = k
        by_cases ha : fs.any isPpsSecond = true
        · simp only [ha, if_true, Prod.mk.injEq]
          omega
        · simp only [ha, Bool.false_eq_true, if_false, Prod.mk.injEq, true_and]
          omega
      · simp only [hitrateStep]
        rw [ih s h t hs]
        simp only [isPpsSecond, countedFrame, Bool.false_or, Bool.false_eq_true, if_false]
        by_cases ha : fs.any isPpsSecond = true
        · simp only [ha, if_true, Prod.mk.injEq]
          omega
        · simp only [ha, Bool.false_eq_true, if_false, Prod.mk.injEq, true_and]
          omega

theorem foldl_hitrateStep_start (bt : Nat → Nat → Bool) (mx : Nat) (fs : List Frame) :
    ∀ (n t : Nat), n ≤ 2 → (n = 0 → t = 0) →
      (fs.foldl (hitrateStep bt mx) (2 - n, 0, t)).1 = 2 - n + countPps fs ∧
      (fs.foldl (hitrateStep bt mx) (2 - n, 0, t)).2.1 =
        countHits bt mx (beforeLastPps (afterNthPps n fs)) := by
  induction fs with
  | nil =>
    intro n t _ _
    cases n <;> simp [countPps, countHits, afterNthPps, beforeLastPps]
  | cons f fs ih =>
    intro n t hn ht
    cases n with
    | zero =>
      have ht0 : t = 0 := ht rfl
      subst ht0
      rw [foldl_hitrateStep_warm bt mx (f :: fs) 2 0 0 (le_refl _)]
      refine ⟨rfl, ?_⟩
      simp only [afterNthPps]
      by_cases ha : (f :: fs).any isPpsSecond = true
      · simp [ha]
      · rw [Bool.not_eq_true] at ha
        rw [beforeLastPps_of_not_any _ ha]
        simp [ha, countHits]
    | succ k =>
      rw [List.foldl_cons]
      cases f with
      | PpsSecond x =>
        have hlt : 2 - (k + 1) < 2 := by omega
        simp only [hitrateStep, hlt, if_true, afterNthPps, isPpsSecond]
        have hk : 2 - (k + 1) + 1 = 2 - k := by omega
        rw [hk]
        obtain ⟨i1, i2⟩ := ih k 0 (by omega) (fun _ => rfl)
        refine ⟨?_, i2⟩
        rw [i1]
        simp [countPps, isPpsSecond]
        omega
      | PpsYear x =>
        simp only [hitrateStep, afterNthPps, isPpsSecond]
        obtain ⟨i1, i2⟩ := ih (k + 1) t hn (by omega)
        refine ⟨?_, i2⟩
        rw [i1]
        simp [countPps, isPpsSecond]
      | Hit adcs c =>
        cases c
        · simp only [hitrateStep, afterNthPps, isPpsSecond]
          obtain ⟨i1, i2⟩ := ih (k + 1) (t + if hitCounted bt mx adcs then 1 else 0) hn
            (by omega)
          refine ⟨?_, i2⟩
          rw [i1]
          simp [countPps, isPpsSecond]
        · simp only [hitrateStep, afterNthPps, isPpsSecond]
          obtain ⟨i1, i2⟩ := ih (k + 1) t hn (by omega)
          refine ⟨?_, i2⟩
          rw [i1]
          simp [countPps, isPpsSecond]

theorem countPps_afterNthPps (fs : List Frame) :
    ∀ (n : Nat), countPps (afterNthPps n fs) = countPps fs - n := by
  induction fs with
  | nil => intro n; cases n <;> simp [afterNthPps, countPps]
  | cons f fs ih =>
    intro n
    cases n with
    | zero => simp [afterNthPps]
    | succ k =>
      rw [afterNthPps]
      rw [countPps_cons]
      by_cases hf : isPpsSecond f = true
      · rw [if_pos hf, if_pos hf, ih k]
        omega
      · rw [if_neg hf, if_neg hf, ih (k + 1)]
        omega

theorem any_isPpsSecond_of_countPps_zero (fs : List Frame) (h : countPps fs = 0) :
    fs.any isPpsSecond = false := by
  unfold countPps at h
  rw [List.length_eq_zero] at h
  rw [Bool.eq_false_iff]
  intro ha
  rw [List.any_eq_true] at ha
  obtain ⟨x, hx, hp⟩ := ha
  have : x ∈ fs.filter isPpsSecond := List.mem_filter.mpr ⟨hx, hp⟩
  rw [h] at this
  cases this

theorem countHits_window_zero (bt : Nat → Nat → Bool) (mx : Nat) (fs : List Frame)
    (h : countPps fs < 3) : countHits bt mx (beforeLastPps (afterNthPps 2 fs)) = 0 := by
  have h0 : countPps (afterNthPps 2 fs) = 0 := by rw [countPps_afterNthPps]; omega
  rw [beforeLastPps_of_not_any _ (any_isPpsSecond_of_countPps_zero _ h0)]
  rfl

/-! ## `get_hitrate_thresh` over the decoder's frames -/

theorem hitrateLoop_fold_aux (bt : Nat → Nat → Bool) (mx : Nat) :
    ∀ (n : Nat) (ws : List Nat), ws.length ≤ n →
    ∀ (s h t : Nat) (cpu : Bool) (r : Nat × Nat × Nat × Bool),
      hitrateLoop bt mx ws s h t cpu = .ok r →
      (framesFrom ws cpu).2 = none ∧
      (framesFrom ws cpu).1.foldl (hitrateStep bt mx) (s, h, t) = (r.1, r.2.1, r.2.2.1) := by
  intro n
  induction n with
  | zero =>
    intro ws hl s h t cpu r hr
    have : ws = [] := List.length_eq_zero.mp (Nat.le_zero.mp hl)
    subst this
    rw [hitrateLoop_nil] at hr
    cases hr
    simp [framesFrom_nil]
  | succ n ih =>
    intro ws hl s h t cpu r hr
    rcases words_cases ws with rfl | ⟨header, rest, rfl, hh⟩ | ⟨header, rest, rfl, hh⟩ |
      ⟨header, rfl, hh⟩ | ⟨header, offset, rest, rfl, hh⟩ | ⟨header, rest, rfl, hh⟩ |
      ⟨header, rfl, hh⟩ | ⟨header, multi, rfl, hh⟩ | ⟨header, multi, adc_word, rest, rfl, hh⟩
    · rw [hitrateLoop_nil] at hr
      cases hr
      simp [framesFrom_nil]
    · simp only [List.length_cons] at hl
      rw [hitrateLoop_second _ _ _ _ _ _ _ _ hh] at hr
      have key := ih rest (by omega) _ _ _ _ _ hr
      rw [framesFrom_second _ _ _ hh]
      simpa only [consFrame, List.foldl_cons, hitrateStep] using key
    · simp only [List.length_cons] at hl
      rw [hitrateLoop_skip _ _ _ _ _ _ _ _ (Or.inl hh)] at hr
      have key := ih rest (by omega) _ _ _ _ _ hr
      rw [framesFrom_year _ _ _ hh]
      simpa only [consFrame, List.foldl_cons, hitrateStep] using key
    · rw [hitrateLoop_trig_nil _ _ _ _ _ _ _ hh] at hr
      cases hr
    · simp only [List.length_cons] at hl
      rw [hitrateLoop_trig _ _ _ _ _ _ _ _ _ hh] at hr
      rw [framesFrom_trig _ _ _ _ hh]
      exact ih rest (by omega) _ _ _ _ _ hr
    · simp only [List.length_cons] at hl
      rw [hitrateLoop_skip _ _ _ _ _ _ _ _ (Or.inr hh)] at hr
      rw [framesFrom_format _ _ _ hh]
      exact ih rest (by omega) _ _ _ _ _ hr
    · rw [hitrateLoop_hit_nil _ _ _ _ _ _ _ hh] at hr
      cases hr
    · rw [hitrateLoop_hit_one _ _ _ _ _ _ _ _ hh] at hr
      cases hr
    · simp only [List.length_cons] at hl
      by_cases hc : (multi >>> 28) &&& 0xf = 3
      · rw [framesFrom_hit _ _ _ _ _ hh hc]
        cases cpu
        · rw [hitrateLoop_hit_off _ _ _ _ _ _ _ _ _ hh hc] at hr
          have key := ih rest (by omega) _ _ _ _ _ hr
          simpa only [consFrame, List.foldl_cons, hitrateStep] using key
        · rw [hitrateLoop_hit_on _ _ _ _ _ _ _ _ _ hh hc] at hr
          have key := ih rest (by omega) _ _ _ _ _ hr
          simpa only [consFrame, List.foldl_cons, hitrateStep] using key
      · rw [hitrateLoop_hit_bad _ _ _ _ _ _ _ _ _ _ hh hc] at hr
        cases hr

theorem get_hitrate_thresh_ofWords (ws : List Nat) (bt : Nat → Nat → Bool) (mx : Nat) :
    get_hitrate_thresh (Buffer.ofWords ws) bt mx =
      match hitrateLoop bt mx ws 0 0 0 false with
      | .error e => .error e
      | .ok (seconds, hits, _, _) => .ok (seconds, hits) := by
  unfold get_hitrate_thresh
  rw [Buffer.size_mod, Buffer.size_div, List.take_length]
  simp [Buffer.ofWords]

theorem get_hitrate_thresh_ok (input : Buffer) (bt : Nat → Nat → Bool) (mx : Nat)
    (seconds hits : Nat) (h : get_hitrate_thresh input bt mx = .ok (seconds, hits)) :
    input.tail.val = 0 ∧
    ∃ t cpu, hitrateLoop bt mx input.data 0 0 0 false = .ok (seconds, hits, t, cpu) := by
  unfold get_hitrate_thresh at h
  rw [Buffer.size_mod, Buffer.size_div, List.take_length] at h
  by_cases ht : input.tail.val = 0
  · rw [if_neg (not_not.mpr ht)] at h
    refine ⟨ht, ?_⟩
    cases hl : hitrateLoop bt mx input.data 0 0 0 false with
    | error e => rw [hl] at h; cases h
    | ok r =>
      rw [hl] at h
      obtain ⟨s', h', t', cpu⟩ := r
      simp only [Except.ok.injEq, Prod.mk.injEq] at h
      exact ⟨t', cpu, by rw [h.1, h.2]⟩
  · rw [if_pos ht] at h
    cases h

/-- C4. Whenever `get_hitrate_thresh` succeeds, the decoder parses the
buffer into frames without error, `seconds` is the number of PpsSecond frames
of the parse, and `hits` is the number of counted hits (Hit frames with
`cpu_trigger = false`, some channel at most `max_adc_counts`, not discarded
by the threshold test) that lie after the second and before the last
PpsSecond frame; so `hits` is 0 with fewer than three PpsSecond frames and
hits after the last PpsSecond frame are not reported. The buffer PpsSecond,
PpsSecond, one counted Hit, PpsSecond gives `(seconds, hits) = (3, 1)`. -/
theorem hitrate_counts_closed_seconds (input : Buffer) (below_threshold : Nat → Nat → Bool)
    (max_adc_counts seconds hits : Nat)
    (h : get_hitrate_thresh input below_threshold max_adc_counts = .ok (seconds, hits)) :
    (∃ fs, decode_all input = some (fs, none) ∧
      seconds = countPps fs ∧
      hits = countHits below_threshold max_adc_counts (beforeLastPps (afterNthPps 2 fs)) ∧
      (countPps fs < 3 → hits = 0)) ∧
    ∀ (pps1 pps2 pps3 header multi adc_word : Nat),
      (pps1 >>> 24) % 256 = 0xe0 → (pps2 >>> 24) % 256 = 0xe0 → (pps3 >>> 24) % 256 = 0xe0 →
      IsHitHeader header → (multi >>> 28) &&& 0xf = 3 →
      hitCounted below_threshold max_adc_counts
        (multi &&& 0x0fff, (adc_word >>> 16) &&& 0x0fff, adc_word &&& 0x0fff) = true →
      get_hitrate_thresh (Buffer.ofWords [pps1, pps2, header, multi, adc_word, pps3])
        below_threshold max_adc_counts = .ok (3, 1) := by
  constructor
  · obtain ⟨ht, t, cpu, hl⟩ := get_hitrate_thresh_ok input _ _ _ _ h
    obtain ⟨k0, k1⟩ := hitrateLoop_fold_aux _ _ _ input.data (le_refl _) _ _ _ _ _ hl
    obtain ⟨f1, f2⟩ := foldl_hitrateStep_start below_threshold max_adc_counts
      (framesFrom input.data false).1 2 0 (le_refl _) (by omega)
    rw [k1] at f1 f2
    simp only [Nat.sub_self, Nat.zero_add] at f1 f2
    refine ⟨(framesFrom input.data false).1, ?_, f1, f2, ?_⟩
    · rw [decode_all_eq, if_neg (not_not.mpr ht), ← k0]
    · intro hlt
      rw [f2]
      exact countHits_window_zero _ _ _ hlt
  · intro pps1 pps2 pps3 header multi adc_word h1 h2 h3 hh hc hcnt
    rw [get_hitrate_thresh_ofWords, hitrateLoop_second _ _ _ _ _ _ _ _ h1,
      hitrateLoop_second _ _ _ _ _ _ _ _ h2, hitrateLoop_hit_off _ _ _ _ _ _ _ _ _ hh hc,
      hitrateLoop_second _ _ _ _ _ _ _ _ h3, hitrateLoop_nil, hcnt]
    rfl

theorem hitrate_counts_closed_seconds_witness :
    (∃ fs, decode_all (Buffer.ofWords [0xe0000001, 0x01000000, 0x30000001, 0x00020003,
        0xe0000002, 0x01000000, 0x30000064, 0x00c8012c, 0xe0000003, 0xe0000004,
        0x01000000, 0x30000064, 0x00c8012c]) = some (fs, none) ∧
      4 = countPps fs ∧
      1 = countHits (fun _ adc => decide (adc < 50)) 4000 (beforeLastPps (afterNthPps 2 fs)) ∧
      (countPps fs < 3 → 1 = 0)) ∧
    ∀ (pps1 pps2 pps3 header multi adc_word : Nat),
      (pps1 >>> 24) % 256 = 0xe0 → (pps2 >>> 24) % 256 = 0xe0 → (pps3 >>> 24) % 256 = 0xe0 →
      IsHitHeader header → (multi >>> 28) &&& 0xf = 3 →
      hitCounted (fun _ adc => decide (adc < 50)) 4000
        (multi &&& 0x0fff, (adc_word >>> 16) &&& 0x0fff, adc_word &&& 0x0fff) = true →
      get_hitrate_thresh (Buffer.ofWords [pps1, pps2, header, multi, adc_word, pps3])
        (fun _ adc => decide (adc < 50)) 4000 = .ok (3, 1) :=
  hitrate_counts_closed_seconds _ _ 4000 4 1 (by decide)

/-! ## The seconds counter of `analyze_hitbuf` -/

theorem wrapInt_of_range (x : Int) (h0 : -(2 ^ 31) ≤ x) (h1 : x < 2 ^ 31) : wrapInt x = x := by
  unfold wrapInt
  omega

theorem analyzeLoop_seconds (data : List Nat) (count : Nat) :
    ∀ (fuel i : Nat) (s h t : Int), count - i < fuel → 0 ≤ s →
      s + ((count - i : Nat) : Int) < 2 ^ 31 →
      ((analyzeHeaders data count fuel i).filter isPpsSecondHeader).length ≤ count - i ∧
      ∃ res, analyzeLoop data count fuel i s h t = some res ∧
        (res = .error .TruncatedFrame ∨
          ∃ h' t', res = .ok
            (s + (((analyzeHeaders data count fuel i).filter isPpsSecondHeader).length : Nat),
              h', t')) := by
  intro fuel
  induction fuel with
  | zero => intro i s h t hf; omega
  | succ fuel ih =>
    intro i s h t hf hs hb
    rw [analyzeLoop, analyzeHeaders]
    generalize data.getD i 0 = header
    by_cases hi : i < count
    · simp only [hi, if_true]
      rcases frame_type_cases header with h1 | h1 | h1 | h1 | h1
      · have hw : wrapInt (s + 1) = s + 1 := wrapInt_of_range _ (by omega) (by omega)
        have hp : isPpsSecondHeader header = true := by simp [isPpsSecondHeader, h1]
        simp only [h1, OBJECT_CODE_PPS_SECOND, if_true, hw, List.filter_cons, hp,
          List.length_cons]
        obtain ⟨k1, res, k2, k3⟩ := ih (i + 1) (s + 1) (if s < 2 then 0 else t)
          (if s < 2 then 0 else t) (by omega) (by omega) (by omega)
        refine ⟨by omega, res, k2, ?_⟩
        rcases k3 with k3 | ⟨h', t', k3⟩
        · exact Or.inl k3
        · refine Or.inr ⟨h', t', ?_⟩
          rw [k3]
          push_cast
          congr 2
          omega
      · have hp : isPpsSecondHeader header = false := by simp [isPpsSecondHeader, h1]
        simp only [h1, OBJECT_CODE_PPS_SECOND, OBJECT_CODE_PPS_YEAR, OBJECT_CODE_TRIG_CONFIG,
          OBJECT_CODE_DATA_FORMAT, List.filter_cons, hp, Nat.reduceEqDiff, if_false, true_or,
          if_true, Bool.false_eq_true]
        obtain ⟨k1, k2⟩ := ih (i + 1) s h t (by omega) hs (by omega)
        exact ⟨by omega, k2⟩
      · have hp : isPpsSecondHeader header = false := by simp [isPpsSecondHeader, h1]
        have hgt : ¬ (i + 1 > count) := by omega
        simp only [h1, OBJECT_CODE_PPS_SECOND, OBJECT_CODE_PPS_YEAR, OBJECT_CODE_TRIG_CONFIG,
          OBJECT_CODE_DATA_FORMAT, List.filter_cons, hp, hgt, Nat.reduceEqDiff, if_false,
          if_true, Bool.false_eq_true]
        obtain ⟨k1, k2⟩ := ih (i + 1 + 1) s h t (by omega) hs (by omega)
        exact ⟨by omega, k2⟩
      · have hp : isPpsSecondHeader header = false := by simp [isPpsSecondHeader, h1]
        simp only [h1, OBJECT_CODE_PPS_SECOND, OBJECT_CODE_PPS_YEAR, OBJECT_CODE_TRIG_CONFIG,
          OBJECT_CODE_DATA_FORMAT, List.filter_cons, hp, Nat.reduceEqDiff, if_false, or_true,
          if_true, Bool.false_eq_true]
        obtain ⟨k1, k2⟩ := ih (i + 1) s h t (by omega) hs (by omega)
        exact ⟨by omega, k2⟩
      · obtain ⟨g1, g2, g3, g4⟩ := h1
        have hp : isPpsSecondHeader header = false := by simp [isPpsSecondHeader, g1]
        simp only [g1, g2, g3, g4, OBJECT_CODE_PPS_SECOND, OBJECT_CODE_PPS_YEAR,
          OBJECT_CODE_TRIG_CONFIG, OBJECT_CODE_DATA_FORMAT, or_self, if_false]
        by_cases hm : i + 1 ≥ count
        · simp only [hm, if_true, List.filter_cons, hp, List.filter_nil, List.length_nil,
            Bool.false_eq_true, if_false]
          exact ⟨by omega, _, rfl, Or.inl rfl⟩
        · simp only [hm, if_false]
          by_cases he : i + 1 + (data.getD (i + 1) 0 >>> 28 &&& 0xf) / 2 > count
          · simp only [he, if_true, List.filter_cons, hp, List.filter_nil, List.length_nil,
              Bool.false_eq_true, if_false]
            exact ⟨by omega, _, rfl, Or.inl rfl⟩
          · simp only [he, if_false, List.filter_cons, hp, Bool.false_eq_true]
            obtain ⟨k1, k2⟩ := ih (i + 1 + (data.getD (i + 1) 0 >>> 28 &&& 0xf) / 2 + 1) s h
              (wrapInt (t + 1)) (by omega) hs (by omega)
            exact ⟨by omega, k2⟩
    · simp only [hi, if_false]
      refine ⟨by simp, _, rfl, Or.inr ⟨h, t, ?_⟩⟩
      simp

/-- C5. On every buffer of fewer than `2 ^ 31` words `analyze_hitbuf`
returns or throws (the loop ends), and unless it throws "incomplete frame"
it fails with `InsufficientData` exactly when its scan sees fewer than 3
PpsSecond frames, and otherwise returns `seconds_elapsed` equal to the number
of PpsSecond frames seen minus 2, which is at least 1. Three PpsSecond frames
alone give `(1, 0)`, two give `InsufficientData`. -/
theorem analyze_hitbuf_insufficient_data (input : Buffer) (hlen : input.size / 4 < 2 ^ 31) :
    (analyze_hitbuf input = some (.error .TruncatedFrame) ∨
      (ppsSeen input < 3 ∧ analyze_hitbuf input = some (.error .InsufficientData)) ∨
      (3 ≤ ppsSeen input ∧ 1 ≤ (ppsSeen input : Int) - 2 ∧
        ∃ hits, analyze_hitbuf input = some (.ok ((ppsSeen input : Int) - 2, hits)))) ∧
    ∀ (pps1 pps2 pps3 : Nat),
      (pps1 >>> 24) % 256 = 0xe0 → (pps2 >>> 24) % 256 = 0xe0 → (pps3 >>> 24) % 256 = 0xe0 →
      analyze_hitbuf (Buffer.ofWords [pps1, pps2, pps3]) = some (.ok (1, 0)) ∧
      analyze_hitbuf (Buffer.ofWords [pps1, pps2]) = some (.error .InsufficientData) := by
  constructor
  · obtain ⟨k1, res, k2, k3⟩ := analyzeLoop_seconds input.data (input.size / 4)
      (input.size / 4 + 1) 0 0 0 0 (by omega) (le_refl _) (by omega)
    unfold analyze_hitbuf
    simp only [k2]
    rcases k3 with k3 | ⟨h', t', k3⟩
    · left
      rw [k3]
    · right
      rw [k3]
      have hn : ppsSeen input = ((analyzeHeaders input.data (input.size / 4)
          (input.size / 4 + 1) 0).filter isPpsSecondHeader).length := rfl
      rw [← hn] at k1 ⊢
      have hw : wrapInt ((0 : Int) + (ppsSeen input : Nat) - 2) = (ppsSeen input : Int) - 2 := by
        rw [wrapInt_of_range _ (by omega) (by omega)]
        omega
      simp only [hw]
      by_cases h3 : ppsSeen input < 3
      · left
        refine ⟨h3, ?_⟩
        rw [if_pos (by omega)]
      · right
        refine ⟨by omega, by omega, h', ?_⟩
        rw [if_neg (by omega)]
  · intro pps1 pps2 pps3 h1 h2 h3
    constructor
    · simp [analyze_hitbuf, analyzeLoop, Buffer.size, Buffer.ofWords, h1, h2, h3,
        OBJECT_CODE_PPS_SECOND, wrapInt]
    · simp [analyze_hitbuf, analyzeLoop, Buffer.size, Buffer.ofWords, h1, h2,
        OBJECT_CODE_PPS_SECOND, wrapInt]

theorem analyze_hitbuf_insufficient_data_witness :
    (analyze_hitbuf (Buffer.ofWords [0xe0000001, 0xe4000002, 0xe0000003, 0x01000000,
        0x30000001, 0x00020003, 0xe0000004, 0xe0000005]) = some (.error .TruncatedFrame) ∨
      (ppsSeen (Buffer.ofWords [0xe0000001, 0xe4000002, 0xe0000003, 0x01000000,
        0x30000001, 0x00020003, 0xe0000004, 0xe0000005]) < 3 ∧
        analyze_hitbuf (Buffer.ofWords [0xe0000001, 0xe4000002, 0xe0000003, 0x01000000,
          0x30000001, 0x00020003, 0xe0000004, 0xe0000005]) =
          some (.error .InsufficientData)) ∨
      (3 ≤ ppsSeen (Buffer.ofWords [0xe0000001, 0xe4000002, 0xe0000003, 0x01000000,
        0x30000001, 0x00020003, 0xe0000004, 0xe0000005]) ∧
        1 ≤ (ppsSeen (Buffer.ofWords [0xe0000001, 0xe4000002, 0xe0000003, 0x01000000,
          0x30000001, 0x00020003, 0xe0000004, 0xe0000005]) : Int) - 2 ∧
        ∃ hits, analyze_hitbuf (Buffer.ofWords [0xe0000001, 0xe4000002, 0xe0000003,
          0x01000000, 0x30000001, 0x00020003, 0xe0000004, 0xe0000005]) =
          some (.ok ((ppsSeen (Buffer.ofWords [0xe0000001, 0xe4000002, 0xe0000003,
            0x01000000, 0x30000001, 0x00020003, 0xe0000004, 0xe0000005]) : Int) - 2,
            hits)))) ∧
    ∀ (pps1 pps2 pps3 : Nat),
      (pps1 >>> 24) % 256 = 0xe0 → (pps2 >>> 24) % 256 = 0xe0 → (pps3 >>> 24) % 256 = 0xe0 →
      analyze_hitbuf (Buffer.ofWords [pps1, pps2, pps3]) = some (.ok (1, 0)) ∧
      analyze_hitbuf (Buffer.ofWords [pps1, pps2]) = some (.error .InsufficientData) :=
  analyze_hitbuf_insufficient_data _ (by decide)

/-! ## Buffers whose length is not a multiple of four bytes -/

theorem misaligned_is_invalid_input (input : Buffer) (adc_clip : Nat)
    (below_threshold : Nat → Nat → Bool) (max_adc_counts : Nat) (h : input.size % 4 ≠ 0) :
    HitBufferDecoder.new input = .error .InvalidInput ∧
    decode_all input = some ([], some .InvalidInput) ∧
    get_baseline input adc_clip = .error .InvalidInput ∧
    get_hitrate_thresh input below_threshold max_adc_counts = .error .InvalidInput := by
  refine ⟨?_, ?_, ?_, ?_⟩
  · unfold HitBufferDecoder.new; rw [if_pos h]
  · unfold decode_all HitBufferDecoder.new; rw [if_pos h]
  · unfold get_baseline baseline_scan; rw [if_pos h]
  · unfold get_hitrate_thresh; rw [if_pos h]

/-- C6. A buffer of 13 bytes (three PpsSecond words and one more byte) has
a length that is not a multiple of 4; the constructor of `HitBufferDecoder`,
`get_baseline` and `get_hitrate_thresh` fail on it with `InvalidInput`, but
`analyze_hitbuf`, which has no such check, returns `(1, 0)`. -/
theorem analyze_hitbuf_accepts_misaligned :
    (Buffer.mk [0xe0000001, 0xe0000002, 0xe0000003] 1).size = 13 ∧
    (Buffer.mk [0xe0000001, 0xe0000002, 0xe0000003] 1).size % 4 ≠ 0 ∧
    HitBufferDecoder.new (Buffer.mk [0xe0000001, 0xe0000002, 0xe0000003] 1) =
      .error .InvalidInput ∧
    get_baseline (Buffer.mk [0xe0000001, 0xe0000002, 0xe0000003] 1) 4095 =
      .error .InvalidInput ∧
    get_hitrate_thresh (Buffer.mk [0xe0000001, 0xe0000002, 0xe0000003] 1)
      (fun _ _ => false) 4095 = .error .InvalidInput ∧
    analyze_hitbuf (Buffer.mk [0xe0000001, 0xe0000002, 0xe0000003] 1) = some (.ok (1, 0)) := by
  decide

/-! ## Truncated hit frames in the decoder -/

theorem framesFrom_append_aux : ∀ (n : Nat) (B : List Nat), B.length ≤ n →
    ∀ (cpu : Bool) (fs : List Frame), framesFrom B cpu = (fs, none) →
    ∃ cpu', ∀ (S : List Nat),
      framesFrom (B ++ S) cpu = (fs ++ (framesFrom S cpu').1, (framesFrom S cpu').2) := by
  intro n
  induction n with
  | zero =>
    intro B hl cpu fs hB
    have : B = [] := List.length_eq_zero.mp (Nat.le_zero.mp hl)
    subst this
    rw [framesFrom_nil] at hB
    cases hB
    exact ⟨cpu, fun S => by simp⟩
  | succ n ih =>
    intro B hl cpu fs hB
    rcases words_cases B with rfl | ⟨header, rest, rfl, hh⟩ | ⟨header, rest, rfl, hh⟩ |
      ⟨header, rfl, hh⟩ | ⟨header, offset, rest, rfl, hh⟩ | ⟨header, rest, rfl, hh⟩ |
      ⟨header, rfl, hh⟩ | ⟨header, multi, rfl, hh⟩ | ⟨header, multi, adc_word, rest, rfl, hh⟩
    · rw [framesFrom_nil] at hB
      cases hB
      exact ⟨cpu, fun S => by simp⟩
    · simp only [List.length_cons] at hl
      rw [framesFrom_second _ _ _ hh] at hB
      simp only [consFrame, Prod.mk.injEq] at hB
      obtain ⟨cpu', k⟩ := ih rest (by omega) cpu (framesFrom rest cpu).1
        (by rw [← hB.2])
      refine ⟨cpu', fun S => ?_⟩
      rw [List.cons_append, framesFrom_second _ _ _ hh, k S, ← hB.1]
      rfl
    · simp only [List.length_cons] at hl
      rw [framesFrom_year _ _ _ hh] at hB
      simp only [consFrame, Prod.mk.injEq] at hB
      obtain ⟨cpu', k⟩ := ih rest (by omega) cpu (framesFrom rest cpu).1
        (by rw [← hB.2])
      refine ⟨cpu', fun S => ?_⟩
      rw [List.cons_append, framesFrom_year _ _ _ hh, k S, ← hB.1]
      rfl
    · rw [framesFrom_trig_nil _ _ hh] at hB
      simp at hB
    · simp only [List.length_cons] at hl
      rw [framesFrom_trig _ _ _ _ hh] at hB
      obtain ⟨cpu', k⟩ := ih rest (by omega) _ fs hB
      refine ⟨cpu', fun S => ?_⟩
      rw [List.cons_append, List.cons_append, framesFrom_trig _ _ _ _ hh, k S]
    · simp only [List.length_cons] at hl
      rw [framesFrom_format _ _ _ hh] at hB
      obtain ⟨cpu', k⟩ := ih rest (by omega) _ fs hB
      refine ⟨cpu', fun S => ?_⟩
      rw [List.cons_append, framesFrom_format _ _ _ hh, k S]
    · rw [framesFrom_hit_nil _ _ hh] at hB
      simp at hB
    · by_cases hc : (multi >>> 28) &&& 0xf = 3
      · rw [framesFrom_hit_short _ _ _ hh hc] at hB
        simp at hB
      · rw [framesFrom_hit_bad _ _ _ _ hh hc] at hB
        simp at hB
    · simp only [List.length_cons] at hl
      by_cases hc : (multi >>> 28) &&& 0xf = 3
      · rw [framesFrom_hit _ _ _ _ _ hh hc] at hB
        simp only [consFrame, Prod.mk.injEq] at hB
        obtain ⟨cpu', k⟩ := ih rest (by omega) cpu (framesFrom rest cpu).1
          (by rw [← hB.2])
        refine ⟨cpu', fun S => ?_⟩
        rw [List.cons_append, List.cons_append, List.cons_append,
          framesFrom_hit _ _ _ _ _ hh hc, k S, ← hB.1]
        rfl
      · rw [framesFrom_hit_bad _ _ _ _ hh hc] at hB
        simp at hB

/-- C7 as stated fails: on the word-aligned buffer of a hit header followed
by the single word `0` (whose `adc_count` field is 0), the `__next__` call
that reaches the header fails with `InvalidAdcCount`, not with
`TruncatedFrame`, although only one of the two trailing words is present. -/
theorem decoder_truncated_hit_counterexample :
    IsHitHeader 0x01000000 ∧
    (Buffer.ofWords [0x01000000, 0]).size % 4 = 0 ∧
    (HitBufferDecoder.mk (Buffer.ofWords [0x01000000, 0]) 0 false).__next__.1 =
      .error .InvalidAdcCount ∧
    (HitBufferDecoder.mk (Buffer.ofWords [0x01000000, 0]) 0 false).__next__.1 ≠
      .error .TruncatedFrame ∧
    decode_all (Buffer.ofWords [0x01000000, 0]) = some ([], some .InvalidAdcCount) := by
  decide

/-- C7 amended. When the words `B` decode to their end without error (so
what follows starts at a frame boundary) and a hit header is followed by
fewer than two words, iterating the decoder returns the frames of `B` and
then fails: with `TruncatedFrame` when no word follows the header or when the
one word that follows has `adc_count = 3`, and with `InvalidAdcCount` when
the one word that follows has another `adc_count`. So `InvalidAdcCount` needs
the first trailing word to be present, not both. -/
theorem decoder_truncated_hit (B : List Nat) (fs : List Frame) (header : Nat)
    (trailing : List Nat)
    (hB : decode_all (Buffer.ofWords B) = some (fs, none))
    (hh : IsHitHeader header) (ht : trailing.length < 2) :
    decode_all (Buffer.ofWords (B ++ header :: trailing)) =
      some (fs, some (truncatedHitError trailing)) ∧
    (truncatedHitError trailing = .TruncatedFrame ∨
      (truncatedHitError trailing = .InvalidAdcCount ∧ trailing.length = 1)) := by
  rw [decode_all_ofWords] at hB ⊢
  simp only [Option.some.injEq] at hB
  obtain ⟨cpu', k⟩ := framesFrom_append_aux _ B (le_refl _) false fs hB
  rw [k]
  cases trailing with
  | nil => rw [framesFrom_hit_nil _ _ hh]; simp [truncatedHitError]
  | cons multi rest =>
    cases rest with
    | nil =>
      by_cases hc : (multi >>> 28) &&& 0xf = 3
      · rw [framesFrom_hit_short _ _ _ hh hc]; simp [truncatedHitError, hc]
      · rw [framesFrom_hit_bad _ _ _ _ hh hc]; simp [truncatedHitError, hc]
    | cons x xs =>
      simp only [List.length_cons] at ht
      omega

theorem decoder_truncated_hit_witness :
    decode_all (Buffer.ofWords ([0xe0000007, 0xe5000020, 0, 0x01000000, 0x30000001,
        0x00020003] ++ 0x02000000 :: [0x30000005])) =
      some ([.PpsSecond 7, .Hit (1, 2, 3) true], some (truncatedHitError [0x30000005])) ∧
    (truncatedHitError [0x30000005] = .TruncatedFrame ∨
      (truncatedHitError [0x30000005] = .InvalidAdcCount ∧ [0x30000005].length = 1)) :=
  decoder_truncated_hit _ _ 0x02000000 [0x30000005] (by decide) (by decide) (by decide)

/-! ## Truncated frames in `analyze_hitbuf` -/

/-- C8. `analyze_hitbuf` does not fail on every truncated frame: after
three PpsSecond frames, a TrigConfig header as the last word of the buffer,
or a hit header and a word with `adc_count = 3` whose extra word is missing,
makes it return `(1, 0)`, where `get_baseline` fails with `TruncatedFrame`.
A hit header as the last word does make it fail with `TruncatedFrame`. -/
theorem analyze_hitbuf_accepts_truncated :
    analyze_hitbuf (Buffer.ofWords [0xe0000001, 0xe0000002, 0xe0000003, 0xe5000000]) =
      some (.ok (1, 0)) ∧
    get_baseline (Buffer.ofWords [0xe0000001, 0xe0000002, 0xe0000003, 0xe5000000]) 4095 =
      .error .TruncatedFrame ∧
    IsHitHeader 0x01000000 ∧ (0x30000000 >>> 28) &&& 0xf = 3 ∧
    analyze_hitbuf (Buffer.ofWords [0xe0000001, 0xe0000002, 0xe0000003, 0x01000000,
      0x30000000]) = some (.ok (1, 0)) ∧
    get_baseline (Buffer.ofWords [0xe0000001, 0xe0000002, 0xe0000003, 0x01000000,
      0x30000000]) 4095 = .error .TruncatedFrame ∧
    analyze_hitbuf (Buffer.ofWords [0xe0000001, 0xe0000002, 0xe0000003, 0x01000000]) =
      some (.error .TruncatedFrame) := by
  decide

/-! ## Fletcher checksum -/

/-- C14. `fletcher16_wikipedia` of the empty byte sequence is 0, and of the
five ASCII bytes of "abcde" it is `0xC8F0` (51440). -/
theorem fletcher16_test_vectors :
    fletcher16_wikipedia [] = some 0 ∧
    fletcher16_wikipedia [0x61, 0x62, 0x63, 0x64, 0x65] = some 0xC8F0 ∧
    (0xC8F0 : Nat) = 51440 := by
  decide

theorem fletcherBlockExact_eq (l : List Nat) : ∀ (c0 c1 : Nat),
    fletcherBlockExact l (c0, c1) = (c0 + l.sum, c1 + (prefixSumsFrom c0 l).sum) := by
  induction l with
  | nil => intro c0 c1; simp [fletcherBlockExact, prefixSumsFrom]
  | cons b l ih =>
    intro c0 c1
    rw [fletcherBlockExact, ih]
    simp only [List.sum_cons, prefixSumsFrom, Prod.mk.injEq]
    omega

theorem prefixSumsFrom_sum (l : List Nat) : ∀ (acc : Nat),
    (prefixSumsFrom acc l).sum = l.length * acc + (prefixSumsFrom 0 l).sum := by
  induction l with
  | nil => intro acc; simp [prefixSumsFrom]
  | cons b l ih =>
    intro acc
    simp only [prefixSumsFrom, List.sum_cons, List.length_cons, Nat.zero_add]
    rw [ih (acc + b), ih b]
    ring

theorem prefixSumsFrom_append (A B : List Nat) : ∀ (acc : Nat),
    prefixSumsFrom acc (A ++ B) = prefixSumsFrom acc A ++ prefixSumsFrom (acc + A.sum) B := by
  induction A with
  | nil => intro acc; simp [prefixSumsFrom]
  | cons a A ih =>
    intro acc
    rw [List.cons_append, prefixSumsFrom, prefixSumsFrom, ih (acc + a), List.sum_cons,
      Nat.add_assoc, List.cons_append]

theorem prefixSumsFrom_sum_mod (l : List Nat) (x : Nat) :
    (prefixSumsFrom (x % 255) l).sum % 255 = (prefixSumsFrom x l).sum % 255 := by
  rw [prefixSumsFrom_sum l (x % 255), prefixSumsFrom_sum l x]
  have h : l.length * (x % 255) % 255 = l.length * x % 255 := by
    rw [Nat.mul_mod, Nat.mod_mod, ← Nat.mul_mod]
  omega

theorem bytes_sum_le (l : List Nat) (hb : ∀ b ∈ l, b < 256) : l.sum ≤ 255 * l.length := by
  induction l with
  | nil => simp
  | cons b l ih =>
    have h1 := hb b (List.mem_cons_self _ _)
    have h2 := ih (fun x hx => hb x (List.mem_cons_of_mem _ hx))
    simp only [List.sum_cons, List.length_cons]
    omega

theorem prefixSumsFrom_sum_le (l : List Nat) (hb : ∀ b ∈ l, b < 256) : ∀ (acc : Nat),
    2 * (prefixSumsFrom acc l).sum ≤ 2 * (l.length * acc) + 255 * (l.length * (l.length + 1)) := by
  induction l with
  | nil => intro acc; simp [prefixSumsFrom]
  | cons b l ih =>
    intro acc
    have h1 := hb b (List.mem_cons_self _ _)
    have h2 := ih (fun x hx => hb x (List.mem_cons_of_mem _ hx)) (acc + b)
    simp only [prefixSumsFrom, List.sum_cons, List.length_cons]
    have h3 : l.length * b ≤ l.length * 255 := Nat.mul_le_mul_left _ (by omega)
    nlinarith [h2, h3]

theorem fletcherBlock_eq_exact (l : List Nat) : ∀ (c0 c1 : Nat),
    (fletcherBlockExact l (c0, c1)).1 < 2 ^ 32 → (fletcherBlockExact l (c0, c1)).2 < 2 ^ 32 →
    fletcherBlock l (c0, c1) = fletcherBlockExact l (c0, c1) := by
  induction l with
  | nil => intro c0 c1 _ _; rfl
  | cons b l ih =>
    intro c0 c1 h0 h1
    rw [fletcherBlockExact] at h0 h1
    have e := fletcherBlockExact_eq l (c0 + b) (c1 + (c0 + b))
    have g0 : c0 + b < 2 ^ 32 := by rw [e] at h0; simp only at h0; omega
    have g1 : c1 + (c0 + b) < 2 ^ 32 := by rw [e] at h1; simp only at h1; omega
    rw [fletcherBlock, fletcherBlockExact]
    simp only [Nat.mod_eq_of_lt g0, Nat.mod_eq_of_lt g1]
    exact ih _ _ h0 h1

theorem fletcherBlockExact_lt (block : List Nat) (c0 c1 : Nat)
    (hb : ∀ b ∈ block, b < 256) (hl : block.length ≤ 5002) (h0 : c0 < 255) (h1 : c1 < 255) :
    (fletcherBlockExact block (c0, c1)).1 < 2 ^ 32 ∧
    (fletcherBlockExact block (c0, c1)).2 < 2 ^ 32 := by
  rw [fletcherBlockExact_eq]
  have s1 := bytes_sum_le block hb
  have s2 := prefixSumsFrom_sum_le block hb c0
  have s3 : block.length * c0 ≤ 5002 * 254 := Nat.mul_le_mul hl (by omega)
  have s4 : block.length * (block.length + 1) ≤ 5002 * 5003 := Nat.mul_le_mul hl (by omega)
  simp only
  constructor <;> omega

theorem fletcherLoop_eq : ∀ (fuel : Nat) (data : List Nat) (c0 c1 : Nat),
    data.length < fuel → c0 < 255 → c1 < 255 → (∀ b ∈ data, b < 256) →
    fletcherLoop fuel data c0 c1 =
      some ((c0 + data.sum) % 255, (c1 + (prefixSumsFrom c0 data).sum) % 255) := by
  intro fuel
  induction fuel with
  | zero => intro data c0 c1 h; omega
  | succ fuel ih =>
    intro data c0 c1 hf h0 h1 hb
    rw [fletcherLoop]
    by_cases hd : data.length > 0
    · rw [if_pos hd]
      simp only []
      generalize hk : (if data.length > 5002 then 5002 else data.length) = k
      have hk1 : 1 ≤ k := by rw [← hk]; split_ifs <;> omega
      have hk2 : k ≤ 5002 := by rw [← hk]; split_ifs <;> omega
      have hk3 : k ≤ data.length := by rw [← hk]; split_ifs <;> omega
      have hbt : ∀ b ∈ data.take k, b < 256 := fun b hx => hb b (List.mem_of_mem_take hx)
      have hbd : ∀ b ∈ data.drop k, b < 256 := fun b hx => hb b (List.mem_of_mem_drop hx)
      have hlt : (data.take k).length ≤ 5002 := by rw [List.length_take]; omega
      obtain ⟨e0, e1⟩ := fletcherBlockExact_lt (data.take k) c0 c1 hbt hlt h0 h1
      rw [fletcherBlock_eq_exact _ _ _ e0 e1, fletcherBlockExact_eq]
      rw [ih (data.drop k) _ _ (by rw [List.length_drop]; omega) (Nat.mod_lt _ (by omega))
        (Nat.mod_lt _ (by omega)) hbd]
      have hsplit : data = data.take k ++ data.drop k := (List.take_append_drop k data).symm
      have hs : data.sum = (data.take k).sum + (data.drop k).sum := by
        conv_lhs => rw [hsplit]
        rw [List.sum_append]
      have hp : (prefixSumsFrom c0 data).sum =
          (prefixSumsFrom c0 (data.take k)).sum +
            (prefixSumsFrom (c0 + (data.take k).sum) (data.drop k)).sum := by
        conv_lhs => rw [hsplit]
        rw [prefixSumsFrom_append, List.sum_append]
      have hm := prefixSumsFrom_sum_mod (data.drop k) (c0 + (data.take k).sum)
      rw [hs, hp]
      simp only [Option.some.injEq, Prod.mk.injEq]
      constructor <;> omega
    · rw [if_neg hd]
      have : data = [] := List.length_eq_zero.mp (by omega)
      subst this
      simp [prefixSumsFrom, Nat.mod_eq_of_lt h0, Nat.mod_eq_of_lt h1]

theorem fletcherNaive_eq (l : List Nat) : ∀ (c0 c1 : Nat), c0 < 255 → c1 < 255 →
    fletcherNaive l (c0, c1) =
      ((c0 + l.sum) % 255, (c1 + (prefixSumsFrom c0 l).sum) % 255) := by
  induction l with
  | nil =>
    intro c0 c1 h0 h1
    simp [fletcherNaive, prefixSumsFrom, Nat.mod_eq_of_lt h0, Nat.mod_eq_of_lt h1]
  | cons b l ih =>
    intro c0 c1 h0 h1
    rw [fletcherNaive]
    rw [ih _ _ (Nat.mod_lt _ (by omega)) (Nat.mod_lt _ (by omega))]
    have hm := prefixSumsFrom_sum_mod l (c0 + b)
    simp only [List.sum_cons, prefixSumsFrom, Prod.mk.injEq]
    constructor <;> omega

theorem checksum_word_lt (c0 c1 : Nat) (h0 : c0 < 255) (h1 : c1 < 255) :
    ((c1 <<< 8) ||| c0) % 2 ^ 16 = (c1 <<< 8) ||| c0 := by
  apply Nat.mod_eq_of_lt
  apply Nat.or_lt_two_pow
  · rw [Nat.shiftLeft_eq]; omega
  · omega

/-- C13. `fletcher16_wikipedia` equals the reference Fletcher-16 on every
byte sequence: with the sums kept in 32 bits, the result is `(c1 << 8) | c0`
where `c0` is the sum of the bytes modulo 255 and `c1` the sum of the prefix
sums modulo 255, the value of the naive algorithm that reduces modulo 255
after every byte; and within a block of at most 5002 bytes started from
reduced sums, neither sum reaches `2 ^ 32` after any number of bytes, so the
32-bit sums of the block are the exact ones. -/
theorem fletcher16_is_reference (data : List Nat) (hb : ∀ b ∈ data, b < 256) :
    fletcher16_wikipedia data =
      some ((((prefixSumsFrom 0 data).sum % 255) <<< 8) ||| (data.sum % 255)) ∧
    fletcher16_wikipedia data =
      some (((fletcherNaive data (0, 0)).2 <<< 8) ||| (fletcherNaive data (0, 0)).1) ∧
    ∀ (block : List Nat) (c0 c1 k : Nat), (∀ b ∈ block, b < 256) → block.length ≤ 5002 →
      c0 < 255 → c1 < 255 →
      (fletcherBlockExact (block.take k) (c0, c1)).1 < 2 ^ 32 ∧
      (fletcherBlockExact (block.take k) (c0, c1)).2 < 2 ^ 32 ∧
      fletcherBlock block (c0, c1) = fletcherBlockExact block (c0, c1) := by
  have hl := fletcherLoop_eq (data.length + 1) data 0 0 (by omega) (by omega) (by omega) hb
  have key : fletcher16_wikipedia data =
      some ((((prefixSumsFrom 0 data).sum % 255) <<< 8) ||| (data.sum % 255)) := by
    unfold fletcher16_wikipedia
    rw [hl]
    simp only [Nat.zero_add]
    rw [checksum_word_lt _ _ (Nat.mod_lt _ (by omega)) (Nat.mod_lt _ (by omega))]
  refine ⟨key, ?_, ?_⟩
  · rw [key, fletcherNaive_eq data 0 0 (by omega) (by omega)]
    simp only [Nat.zero_add]
  · intro block c0 c1 k hbb hlen h0 h1
    have hbt : ∀ b ∈ block.take k, b < 256 := fun b hx => hbb b (List.mem_of_mem_take hx)
    have hlt : (block.take k).length ≤ 5002 := by rw [List.length_take]; omega
    obtain ⟨e0, e1⟩ := fletcherBlockExact_lt (block.take k) c0 c1 hbt hlt h0 h1
    obtain ⟨f0, f1⟩ := fletcherBlockExact_lt block c0 c1 hbb hlen h0 h1
    exact ⟨e0, e1, fletcherBlock_eq_exact _ _ _ f0 f1⟩

theorem fletcher16_is_reference_witness :
    fletcher16_wikipedia [0x61, 0x62, 0x63, 0x64, 0x65, 0xff, 0x00] =
      some ((((prefixSumsFrom 0 [0x61, 0x62, 0x63, 0x64, 0x65, 0xff, 0x00]).sum % 255) <<< 8) |||
        ([0x61, 0x62, 0x63, 0x64, 0x65, 0xff, 0x00].sum % 255)) ∧
    fletcher16_wikipedia [0x61, 0x62, 0x63, 0x64, 0x65, 0xff, 0x00] =
      some (((fletcherNaive [0x61, 0x62, 0x63, 0x64, 0x65, 0xff, 0x00] (0, 0)).2 <<< 8) |||
        (fletcherNaive [0x61, 0x62, 0x63, 0x64, 0x65, 0xff, 0x00] (0, 0)).1) ∧
    ∀ (block : List Nat) (c0 c1 k : Nat), (∀ b ∈ block, b < 256) → block.length ≤ 5002 →
      c0 < 255 → c1 < 255 →
      (fletcherBlockExact (block.take k) (c0, c1)).1 < 2 ^ 32 ∧
      (fletcherBlockExact (block.take k) (c0, c1)).2 < 2 ^ 32 ∧
      fletcherBlock block (c0, c1) = fletcherBlockExact block (c0, c1) :=
  fletcher16_is_reference [0x61, 0x62, 0x63, 0x64, 0x65, 0xff, 0x00] (by decide)

/-! ## Field extraction of the decoder -/

theorem next_eq (d : HitBufferDecoder) :
    d.__next__ =
      ((nextLoop (d.input.data.drop d.position) d.position d.cpu_trigger).1,
        { d with
          position := (nextLoop (d.input.data.drop d.position) d.position d.cpu_trigger).2.1,
          cpu_trigger :=
            (nextLoop (d.input.data.drop d.position) d.position d.cpu_trigger).2.2 }) := by
  unfold HitBufferDecoder.__next__
  simp only [Buffer.size_div, List.take_length]

theorem framesFrom_inRange_aux : ∀ (n : Nat) (ws : List Nat), ws.length ≤ n →
    ∀ (cpu : Bool), ∀ f ∈ (framesFrom ws cpu).1, f.InRange := by
  intro n
  induction n with
  | zero =>
    intro ws hl cpu f hf
    have : ws = [] := List.length_eq_zero.mp (Nat.le_zero.mp hl)
    subst this
    rw [framesFrom_nil] at hf
    cases hf
  | succ n ih =>
    intro ws hl cpu f hf
    rcases words_cases ws with rfl | ⟨header, rest, rfl, hh⟩ | ⟨header, rest, rfl, hh⟩ |
      ⟨header, rfl, hh⟩ | ⟨header, offset, rest, rfl, hh⟩ | ⟨header, rest, rfl, hh⟩ |
      ⟨header, rfl, hh⟩ | ⟨header, multi, rfl, hh⟩ | ⟨header, multi, adc_word, rest, rfl, hh⟩
    · rw [framesFrom_nil] at hf
      cases hf
    · simp only [List.length_cons] at hl
      rw [framesFrom_second _ _ _ hh] at hf
      simp only [consFrame, List.mem_cons] at hf
      rcases hf with rfl | hf
      · simp only [Frame.InRange, (and_mask_eq_mod header).1]
        omega
      · exact ih rest (by omega) cpu f hf
    · simp only [List.length_cons] at hl
      rw [framesFrom_year _ _ _ hh] at hf
      simp only [consFrame, List.mem_cons] at hf
      rcases hf with rfl | hf
      · simp only [Frame.InRange, (and_mask_eq_mod header).2.1]
        omega
      · exact ih rest (by omega) cpu f hf
    · rw [framesFrom_trig_nil _ _ hh] at hf
      cases hf
    · simp only [List.length_cons] at hl
      rw [framesFrom_trig _ _ _ _ hh] at hf
      exact ih rest (by omega) _ f hf
    · simp only [List.length_cons] at hl
      rw [framesFrom_format _ _ _ hh] at hf
      exact ih rest (by omega) _ f hf
    · rw [framesFrom_hit_nil _ _ hh] at hf
      cases hf
    · by_cases hc : (multi >>> 28) &&& 0xf = 3
      · rw [framesFrom_hit_short _ _ _ hh hc] at hf
        cases hf
      · rw [framesFrom_hit_bad _ _ _ _ hh hc] at hf
        cases hf
    · simp only [List.length_cons] at hl
      by_cases hc : (multi >>> 28) &&& 0xf = 3
      · rw [framesFrom_hit _ _ _ _ _ hh hc] at hf
        simp only [consFrame, List.mem_cons] at hf
        rcases hf with rfl | hf
        · simp only [Frame.InRange, (and_mask_eq_mod _).2.2.2.1]
          omega
        · exact ih rest (by omega) cpu f hf
      · rw [framesFrom_hit_bad _ _ _ _ hh hc] at hf
        cases hf

/-- C18. Field extraction of the frame decoder, for all word values: a call
of `__next__` that stands at a header word with top byte `0xE0` returns
PpsSecond with `second = header mod 2^24`; with top byte `0xE4` it returns
PpsYear with `year = header mod 2^16`; at a complete hit frame (header,
multi, adc) whose multi word has top 4 bits 3 it returns Hit with
`adc0 = multi mod 2^12`, `adc1 = (adc >> 16) mod 2^12`, `adc2 = adc mod 2^12`
and the carried flag, whatever the other bits are. Hence every returned
second is below `2^24`, every year below `2^16`, every ADC value below
`2^12`. -/
theorem decoder_field_extraction :
    (∀ (d : HitBufferDecoder) (header : Nat) (rest : List Nat),
      d.input.data.drop d.position = header :: rest → (header / 2 ^ 24) % 256 = 0xe0 →
      d.__next__.1 = .frame (.PpsSecond (header % 2 ^ 24))) ∧
    (∀ (d : HitBufferDecoder) (header : Nat) (rest : List Nat),
      d.input.data.drop d.position = header :: rest → (header / 2 ^ 24) % 256 = 0xe4 →
      d.__next__.1 = .frame (.PpsYear (header % 2 ^ 16))) ∧
    (∀ (d : HitBufferDecoder) (header multi adc : Nat) (rest : List Nat),
      d.input.data.drop d.position = header :: multi :: adc :: rest →
      (header / 2 ^ 24) % 256 ≠ 0xe0 → (header / 2 ^ 24) % 256 ≠ 0xe4 →
      (header / 2 ^ 24) % 256 ≠ 0xe5 → (header / 2 ^ 24) % 256 ≠ 0xe6 →
      (multi / 2 ^ 28) % 16 = 3 →
      d.__next__.1 =
        .frame (.Hit (multi % 2 ^ 12, (adc / 2 ^ 16) % 2 ^ 12, adc % 2 ^ 12) d.cpu_trigger)) ∧
    (∀ (input : Buffer) (fs : List Frame) (r : Option Err),
      decode_all input = some (fs, r) → ∀ f ∈ fs, f.InRange) := by
  refine ⟨?_, ?_, ?_, ?_⟩
  · intro d header rest hd hh
    rw [next_eq, hd]
    have ht : (header >>> 24) % 256 = 0xe0 := by rw [(shr_eq_div _).1]; exact hh
    rw [nextLoop_second _ _ _ _ ht, (and_mask_eq_mod header).1]
    rfl
  · intro d header rest hd hh
    rw [next_eq, hd]
    have ht : (header >>> 24) % 256 = 0xe4 := by rw [(shr_eq_div _).1]; exact hh
    rw [nextLoop_year _ _ _ _ ht, (and_mask_eq_mod header).2.1]
    rfl
  · intro d header multi adc rest hd h1 h2 h3 h4 hc
    rw [next_eq, hd]
    have ht : IsHitHeader header := by
      unfold IsHitHeader
      rw [(shr_eq_div _).1]
      exact ⟨h1, h2, h3, h4⟩
    have hc' : (multi >>> 28) &&& 0xf = 3 := by
      rw [(and_mask_eq_mod _).2.2.2.2, (shr_eq_div _).2.1]; exact hc
    rw [nextLoop_hit _ _ _ _ _ _ ht hc', (and_mask_eq_mod multi).2.2.2.1,
      (and_mask_eq_mod adc).2.2.2.1, (and_mask_eq_mod (adc >>> 16)).2.2.2.1,
      (shr_eq_div adc).2.2]
    rfl
  · intro input fs r hd f hf
    rw [decode_all_eq] at hd
    split_ifs at hd with ht
    · simp only [Option.some.injEq, Prod.mk.injEq] at hd
      rw [← hd.1] at hf
      cases hf
    · simp only [Option.some.injEq] at hd
      have := framesFrom_inRange_aux _ input.data (le_refl _) false f
      rw [hd] at this
      exact this hf

theorem decoder_field_extraction_witness :
    (HitBufferDecoder.mk (Buffer.ofWords [0xe4ab07e5, 0xe0123456]) 1 true).__next__.1 =
      .frame (.PpsSecond (0xe0123456 % 2 ^ 24)) ∧
    (HitBufferDecoder.mk (Buffer.ofWords [0xe4ab07e5, 0xe0123456]) 0 true).__next__.1 =
      .frame (.PpsYear (0xe4ab07e5 % 2 ^ 16)) ∧
    (HitBufferDecoder.mk (Buffer.ofWords [0x12ffffff, 0x3ffff123, 0xf456f789]) 0 true).__next__.1 =
      .frame (.Hit (0x3ffff123 % 2 ^ 12, (0xf456f789 / 2 ^ 16) % 2 ^ 12, 0xf456f789 % 2 ^ 12)
        true) ∧
    (∀ f ∈ [Frame.PpsYear 0x07e5, Frame.PpsSecond 0x123456], f.InRange) :=
  ⟨decoder_field_extraction.1 _ 0xe0123456 [] (by decide) (by decide),
    decoder_field_extraction.2.1 _ 0xe4ab07e5 [0xe0123456] (by decide) (by decide),
    decoder_field_extraction.2.2.1 _ 0x12ffffff 0x3ffff123 0xf456f789 [] (by decide)
      (by decide) (by decide) (by decide) (by decide) (by decide),
    decoder_field_extraction.2.2.2 (Buffer.ofWords [0xe4ab07e5, 0xe0123456]) _ none
      (by decide)⟩

/-! ## The decoder only moves forward -/

theorem nextLoop_bounds (rest : List Nat) (pos : Nat) (cpu : Bool) :
    pos ≤ (nextLoop rest pos cpu).2.1 ∧ (nextLoop rest pos cpu).2.1 ≤ pos + rest.length ∧
    ((nextLoop rest pos cpu).1 = .stop_iteration →
      (nextLoop rest pos cpu).2.1 = pos + rest.length) := by
  have spec := nextLoop_spec rest pos cpu
  generalize nextLoop rest pos cpu = r at spec
  rcases r with ⟨(f | _ | e), pos', cpu'⟩
  · obtain ⟨k, hk1, hk2, hk3, _⟩ := spec
    refine ⟨by simp only; omega, by simp only; omega, fun h => by cases h⟩
  · obtain ⟨h1, _⟩ := spec
    exact ⟨by simp only; omega, by simp only; omega, fun _ => h1⟩
  · obtain ⟨h1, h2, _⟩ := spec
    exact ⟨h1, h2, fun h => by cases h⟩

theorem nextLoop_advances (rest : List Nat) (pos : Nat) (cpu : Bool) (hne : rest ≠ []) :
    pos < (nextLoop rest pos cpu).2.1 := by
  rcases words_cases rest with rfl | ⟨header, rest, rfl, hh⟩ | ⟨header, rest, rfl, hh⟩ |
    ⟨header, rfl, hh⟩ | ⟨header, offset, rest, rfl, hh⟩ | ⟨header, rest, rfl, hh⟩ |
    ⟨header, rfl, hh⟩ | ⟨header, multi, rfl, hh⟩ | ⟨header, multi, adc_word, rest, rfl, hh⟩
  · exact absurd rfl hne
  · rw [nextLoop_second _ _ _ _ hh]; simp only; omega
  · rw [nextLoop_year _ _ _ _ hh]; simp only; omega
  · rw [nextLoop_trig_nil _ _ _ hh]; simp only; omega
  · rw [nextLoop_trig _ _ _ _ _ hh]
    have := (nextLoop_bounds rest (pos + 1 + 1)
      (((header &&& 0xffff) &&& STATUS_CPUTRIG_ACTIVE) != 0)).1
    omega
  · rw [nextLoop_format _ _ _ _ hh]
    have := (nextLoop_bounds rest (pos + 1) cpu).1
    omega
  · rw [nextLoop_hit_nil _ _ _ hh]; simp only; omega
  · by_cases hc : (multi >>> 28) &&& 0xf = 3
    · rw [nextLoop_hit_short _ _ _ _ hh hc]; simp only; omega
    · rw [nextLoop_hit_bad _ _ _ _ _ hh hc]; simp only; omega
  · by_cases hc : (multi >>> 28) &&& 0xf = 3
    · rw [nextLoop_hit _ _ _ _ _ _ hh hc]; simp only; omega
    · rw [nextLoop_hit_bad _ _ _ _ _ hh hc]; simp only; omega

theorem next_after_stop (d : HitBufferDecoder) (h : d.__next__.1 = .stop_iteration) :
    d.__next__.2.__next__ = (.stop_iteration, d.__next__.2) := by
  rw [next_eq d] at h ⊢
  simp only at h ⊢
  have hb := (nextLoop_bounds (d.input.data.drop d.position) d.position d.cpu_trigger).2.2 h
  rw [List.length_drop] at hb
  rw [next_eq]
  simp only
  have hnil : d.input.data.drop
      (nextLoop (d.input.data.drop d.position) d.position d.cpu_trigger).2.1 = [] := by
    rw [List.drop_eq_nil_iff]
    omega
  rw [hnil, nextLoop_nil]

theorem iterate_next_after_stop (d : HitBufferDecoder) (h : d.__next__.1 = .stop_iteration) :
    ∀ (n : Nat), (fun x => (HitBufferDecoder.__next__ x).2)^[n] d.__next__.2 = d.__next__.2 := by
  intro n
  induction n with
  | zero => rfl
  | succ n ih =>
    rw [Function.iterate_succ_apply', ih, next_after_stop d h]

theorem framesFrom_length_le_aux : ∀ (n : Nat) (ws : List Nat), ws.length ≤ n →
    ∀ (cpu : Bool), (framesFrom ws cpu).1.length ≤ ws.length := by
  intro n
  induction n with
  | zero =>
    intro ws hl cpu
    have : ws = [] := List.length_eq_zero.mp (Nat.le_zero.mp hl)
    subst this
    rw [framesFrom_nil]
    simp
  | succ n ih =>
    intro ws hl cpu
    rcases words_cases ws with rfl | ⟨header, rest, rfl, hh⟩ | ⟨header, rest, rfl, hh⟩ |
      ⟨header, rfl, hh⟩ | ⟨header, offset, rest, rfl, hh⟩ | ⟨header, rest, rfl, hh⟩ |
      ⟨header, rfl, hh⟩ | ⟨header, multi, rfl, hh⟩ | ⟨header, multi, adc_word, rest, rfl, hh⟩
    · rw [framesFrom_nil]; simp
    · simp only [List.length_cons] at hl
      rw [framesFrom_second _ _ _ hh]
      have := ih rest (by omega) cpu
      simp only [consFrame, List.length_cons]
      omega
    · simp only [List.length_cons] at hl
      rw [framesFrom_year _ _ _ hh]
      have := ih rest (by omega) cpu
      simp only [consFrame, List.length_cons]
      omega
    · rw [framesFrom_trig_nil _ _ hh]; simp
    · simp only [List.length_cons] at hl
      rw [framesFrom_trig _ _ _ _ hh]
      have := ih rest (by omega) (((header &&& 0xffff) &&& STATUS_CPUTRIG_ACTIVE) != 0)
      simp only [List.length_cons]
      omega
    · simp only [List.length_cons] at hl
      rw [framesFrom_format _ _ _ hh]
      have := ih rest (by omega) cpu
      simp only [List.length_cons]
      omega
    · rw [framesFrom_hit_nil _ _ hh]; simp
    · by_cases hc : (multi >>> 28) &&& 0xf = 3
      · rw [framesFrom_hit_short _ _ _ hh hc]; simp
      · rw [framesFrom_hit_bad _ _ _ _ hh hc]; simp
    · simp only [List.length_cons] at hl
      by_cases hc : (multi >>> 28) &&& 0xf = 3
      · rw [framesFrom_hit _ _ _ _ _ hh hc]
        have := ih rest (by omega) cpu
        simp only [consFrame, List.length_cons]
        omega
      · rw [framesFrom_hit_bad _ _ _ _ hh hc]; simp

/-- C15. The frame decoder is forward-only and terminating. On a buffer of
`L` words every call of `__next__`, whatever its outcome, keeps the buffer,
leaves `position` at least its previous value and, when it was at most `L`,
at most `L`; a call made with `position < L` strictly increases `position`;
iterating a decoder from any position at most `L` ends (with
`stop_iteration` or an error) after at most `L` returned frames within
`L + 1` calls; and after a call that threw `stop_iteration` every later call
throws `stop_iteration` again and leaves the decoder as it is. -/
theorem decoder_forward_only (d : HitBufferDecoder) :
    d.__next__.2.input = d.input ∧
    d.position ≤ d.__next__.2.position ∧
    (d.position ≤ d.input.data.length → d.__next__.2.position ≤ d.input.data.length) ∧
    (d.position < d.input.data.length → d.position < d.__next__.2.position) ∧
    (d.position ≤ d.input.data.length →
      ∃ fs r, drain (d.input.data.length + 1) d = some (fs, r) ∧
        fs.length ≤ d.input.data.length) ∧
    (d.__next__.1 = .stop_iteration →
      ∀ (n : Nat),
        ((fun x => (HitBufferDecoder.__next__ x).2)^[n] d.__next__.2).__next__ =
          (.stop_iteration, d.__next__.2)) := by
  have hb := nextLoop_bounds (d.input.data.drop d.position) d.position d.cpu_trigger
  rw [List.length_drop] at hb
  refine ⟨?_, ?_, ?_, ?_, ?_, ?_⟩
  · rw [next_eq]
  · rw [next_eq]; exact hb.1
  · intro hle
    rw [next_eq]
    simp only
    omega
  · intro hlt
    rw [next_eq]
    simp only
    apply nextLoop_advances
    intro hnil
    rw [List.drop_eq_nil_iff] at hnil
    omega
  · intro hle
    rw [drain_eq_framesFrom _ _ (by omega)]
    refine ⟨_, _, rfl, ?_⟩
    have := framesFrom_length_le_aux _ (d.input.data.drop d.position) (le_refl _) d.cpu_trigger
    rw [List.length_drop] at this
    omega
  · intro hs n
    rw [iterate_next_after_stop d hs n]
    exact next_after_stop d hs

theorem decoder_forward_only_witness :
    (HitBufferDecoder.mk (Buffer.ofWords [0xe5000020, 7, 0xe6000000]) 0 false).__next__ =
      (.stop_iteration,
        HitBufferDecoder.mk (Buffer.ofWords [0xe5000020, 7, 0xe6000000]) 3 true) ∧
    ∀ (n : Nat),
      ((fun x => (HitBufferDecoder.__next__ x).2)^[n]
        (HitBufferDecoder.mk (Buffer.ofWords [0xe5000020, 7, 0xe6000000]) 0
          false).__next__.2).__next__ =
        (.stop_iteration,
          (HitBufferDecoder.mk (Buffer.ofWords [0xe5000020, 7, 0xe6000000]) 0
            false).__next__.2) :=
  ⟨by decide, (decoder_forward_only _).2.2.2.2.2 (by decide)⟩

/-! ## Baseline of a buffer without CPU triggers -/

theorem decode_all_aligned (input : Buffer) (fs : List Frame) (r : Option Err)
    (ht : input.tail.val = 0) (hd : decode_all input = some (fs, r)) :
    framesFrom input.data false = (fs, r) := by
  rw [decode_all_eq, if_neg (not_not.mpr ht)] at hd
  exact Option.some.inj hd

theorem clippedValues_eq_nil (clip : Nat) (ch : Nat × Nat × Nat → Nat) (fs : List Frame)
    (hoff : ∀ (adcs : Nat × Nat × Nat) (c : Bool), Frame.Hit adcs c ∈ fs → c = false) :
    clippedValues clip ch fs = [] := by
  induction fs with
  | nil => rfl
  | cons f fs ih =>
    have ih := ih (fun adcs c hm => hoff adcs c (List.mem_cons_of_mem _ hm))
    cases f with
    | PpsSecond x => rw [clippedValues_second, ih]
    | PpsYear x => rw [clippedValues_year, ih]
    | Hit adcs c =>
      have hc := hoff adcs c (List.mem_cons_self _ _)
      subst hc
      rw [clippedValues_hit_off, ih]

/-- C11. When `get_baseline` succeeds on a buffer in which every Hit frame
is reached with the carried `cpu_trigger` false (every Hit frame of the
decoder's parse carries `cpu_trigger = false`), all three sums and all three
counts are zero, for every `adc_clip`. -/
theorem baseline_zero_without_cpu_trigger (input : Buffer) (adc_clip : Nat)
    (sums counts : Nat × Nat × Nat) (fs : List Frame) (r : Option Err)
    (h : get_baseline input adc_clip = .ok (sums, counts))
    (hd : decode_all input = some (fs, r))
    (hoff : ∀ (adcs : Nat × Nat × Nat) (c : Bool), Frame.Hit adcs c ∈ fs → c = false) :
    sums = (0, 0, 0) ∧ counts = (0, 0, 0) := by
  obtain ⟨ht, cpu, hl⟩ := get_baseline_ok input adc_clip sums counts h
  obtain ⟨_, k1, k2, k3, k4, k5, k6⟩ :=
    baselineLoop_fold_aux adc_clip _ input.data (le_refl _) _ _ _ _ hl
  rw [decode_all_aligned input fs r ht hd] at k1 k2 k3 k4 k5 k6
  simp only [clippedValues_eq_nil adc_clip _ fs hoff, List.sum_nil, List.length_nil,
    Nat.add_zero] at k1 k2 k3 k4 k5 k6
  obtain ⟨s0, s1, s2⟩ := sums
  obtain ⟨c0, c1, c2⟩ := counts
  simp only at k1 k2 k3 k4 k5 k6
  rw [k1, k2, k3, k4, k5, k6]
  exact ⟨rfl, rfl⟩

theorem baseline_zero_without_cpu_trigger_witness :
    get_baseline (Buffer.ofWords [0x01000000, 0x30000001, 0x00020003, 0xe5000020, 0,
      0xe5000000, 0, 0x01000000, 0x30000004, 0x00050006]) 4095 =
      .ok ((0, 0, 0), (0, 0, 0)) ∧
    decode_all (Buffer.ofWords [0x01000000, 0x30000001, 0x00020003, 0xe5000020, 0,
      0xe5000000, 0, 0x01000000, 0x30000004, 0x00050006]) =
      some ([.Hit (1, 2, 3) false, .Hit (4, 5, 6) false], none) ∧
    ((0, 0, 0) : Nat × Nat × Nat) = (0, 0, 0) ∧ ((0, 0, 0) : Nat × Nat × Nat) = (0, 0, 0) :=
  ⟨by decide, by decide,
    baseline_zero_without_cpu_trigger
      (Buffer.ofWords [0x01000000, 0x30000001, 0x00020003, 0xe5000020, 0, 0xe5000000, 0,
        0x01000000, 0x30000004, 0x00050006])
      4095 (0, 0, 0) (0, 0, 0) [.Hit (1, 2, 3) false, .Hit (4, 5, 6) false] none
      (by decide) (by decide) (by simp)⟩

/-! ## Saturated hits in `get_hitrate_thresh` -/

theorem mem_of_mem_afterNthPps (fs : List Frame) : ∀ (n : Nat) (f : Frame),
    f ∈ afterNthPps n fs → f ∈ fs := by
  induction fs with
  | nil => intro n f hf; cases n <;> simp [afterNthPps] at hf
  | cons g fs ih =>
    intro n f hf
    cases n with
    | zero => simpa [afterNthPps] using hf
    | succ k =>
      rw [afterNthPps] at hf
      split_ifs at hf
      · exact List.mem_cons_of_mem _ (ih k f hf)
      · exact List.mem_cons_of_mem _ (ih (k + 1) f hf)

theorem mem_of_mem_beforeLastPps (fs : List Frame) : ∀ (f : Frame),
    f ∈ beforeLastPps fs → f ∈ fs := by
  induction fs with
  | nil => intro f hf; simp [beforeLastPps] at hf
  | cons g fs ih =>
    intro f hf
    rw [beforeLastPps] at hf
    split_ifs at hf
    · rcases List.mem_cons.mp hf with rfl | hf
      · exact List.mem_cons_self _ _
      · exact List.mem_cons_of_mem _ (ih f hf)
    · cases hf

theorem countHits_eq_zero (bt : Nat → Nat → Bool) (mx : Nat) (fs : List Frame)
    (h : ∀ f ∈ fs, countedFrame bt mx f = false) : countHits bt mx fs = 0 := by
  unfold countHits
  rw [List.length_eq_zero, List.filter_eq_nil_iff]
  intro f hf
  rw [h f hf]
  simp

theorem hitCounted_saturated (bt : Nat → Nat → Bool) (mx : Nat) (adcs : Nat × Nat × Nat)
    (h : mx < adcs.1 ∧ mx < adcs.2.1 ∧ mx < adcs.2.2) : hitCounted bt mx adcs = false := by
  unfold hitCounted
  rw [if_neg (by omega), if_neg (by omega), if_neg (by omega)]

theorem hitrate_saturated_core (input : Buffer) (bt : Nat → Nat → Bool) (mx seconds hits : Nat)
    (fs : List Frame) (r : Option Err)
    (h : get_hitrate_thresh input bt mx = .ok (seconds, hits))
    (hd : decode_all input = some (fs, r))
    (hsat : ∀ (adcs : Nat × Nat × Nat), Frame.Hit adcs false ∈ fs →
      mx < adcs.1 ∧ mx < adcs.2.1 ∧ mx < adcs.2.2) :
    hits = 0 ∧ seconds = countPps fs := by
  obtain ⟨ht, t, cpu, hl⟩ := get_hitrate_thresh_ok input _ _ _ _ h
  obtain ⟨_, k1⟩ := hitrateLoop_fold_aux _ _ _ input.data (le_refl _) _ _ _ _ _ hl
  obtain ⟨f1, f2⟩ := foldl_hitrateStep_start bt mx (framesFrom input.data false).1 2 0
    (le_refl _) (by omega)
  rw [k1] at f1 f2
  rw [decode_all_aligned input fs r ht hd] at f1 f2
  simp only [Nat.sub_self, Nat.zero_add] at f1 f2
  refine ⟨?_, f1⟩
  rw [f2]
  apply countHits_eq_zero
  intro f hf
  have hm := mem_of_mem_afterNthPps fs 2 f (mem_of_mem_beforeLastPps _ f hf)
  cases f with
  | PpsSecond x => rfl
  | PpsYear x => rfl
  | Hit adcs c =>
    cases c
    · exact hitCounted_saturated bt mx adcs (hsat adcs hm)
    · rfl

/-- C12. Saturation is a soft exclusion in `get_hitrate_thresh`. A complete
hit frame with `adc_count = 3` whose three ADC values all exceed
`max_adc_counts` is stepped over by the loop with all counters unchanged and
without an error. When `get_hitrate_thresh` succeeds on a buffer in which
every Hit frame reached with `cpu_trigger = false` has all three channels
above `max_adc_counts`, the returned `hits` is 0 and `seconds` is the number
of PpsSecond frames, and the same `(seconds, 0)` is returned for every other
threshold test, that is, for all values of `adc_amp`, `baseline_adc`,
`mip_per_adc0` and `threshold_mip`. -/
theorem hitrate_saturation_is_soft (input : Buffer) (below_threshold : Nat → Nat → Bool)
    (max_adc_counts seconds hits : Nat) (fs : List Frame) (r : Option Err)
    (h : get_hitrate_thresh input below_threshold max_adc_counts = .ok (seconds, hits))
    (hd : decode_all input = some (fs, r))
    (hsat : ∀ (adcs : Nat × Nat × Nat), Frame.Hit adcs false ∈ fs →
      max_adc_counts < adcs.1 ∧ max_adc_counts < adcs.2.1 ∧ max_adc_counts < adcs.2.2) :
    hits = 0 ∧ seconds = countPps fs ∧
    (∀ (below_threshold' : Nat → Nat → Bool),
      get_hitrate_thresh input below_threshold' max_adc_counts = .ok (seconds, 0)) ∧
    ∀ (header multi adc_word : Nat) (data : List Nat) (s h' t : Nat) (cpu_trigger : Bool),
      IsHitHeader header → (multi >>> 28) &&& 0xf = 3 →
      max_adc_counts < multi &&& 0x0fff → max_adc_counts < (adc_word >>> 16) &&& 0x0fff →
      max_adc_counts < adc_word &&& 0x0fff →
      hitrateLoop below_threshold max_adc_counts (header :: multi :: adc_word :: data)
        s h' t cpu_trigger =
      hitrateLoop below_threshold max_adc_counts data s h' t cpu_trigger := by
  obtain ⟨c1, c2⟩ := hitrate_saturated_core input _ _ _ _ fs r h hd hsat
  refine ⟨c1, c2, ?_, ?_⟩
  · intro bt'
    have he : errOf (get_hitrate_thresh input bt' max_adc_counts) =
        errOf (get_hitrate_thresh input below_threshold max_adc_counts) := by
      rw [errOf_get_hitrate_thresh, errOf_get_hitrate_thresh]
      split_ifs
      · rfl
      · rw [← (loops_fail_alike_aux 0 bt' max_adc_counts _ input.data (le_refl _)
            (0, 0, 0) (0, 0, 0) false 0 0 0 false).1,
          ← (loops_fail_alike_aux 0 below_threshold max_adc_counts _ input.data (le_refl _)
            (0, 0, 0) (0, 0, 0) false 0 0 0 false).1]
    rw [h] at he
    cases hr : get_hitrate_thresh input bt' max_adc_counts with
    | error e => rw [hr] at he; cases he
    | ok v =>
      obtain ⟨s', h''⟩ := v
      obtain ⟨d1, d2⟩ := hitrate_saturated_core input _ _ _ _ fs r hr hd hsat
      rw [d1, d2, c2]
  · intro header multi adc_word data s h' t cpu hh hc g0 g1 g2
    cases cpu
    · rw [hitrateLoop_hit_off _ _ _ _ _ _ _ _ _ hh hc,
        hitCounted_saturated _ _ _ ⟨g0, g1, g2⟩]
      rfl
    · rw [hitrateLoop_hit_on _ _ _ _ _ _ _ _ _ hh hc]

theorem hitrate_saturation_is_soft_witness :
    get_hitrate_thresh (Buffer.ofWords [0xe0000001, 0xe0000002, 0x01000000, 0x300000c8,
      0x00c900ca, 0xe5000020, 0, 0x01000000, 0x30000001, 0x00020003, 0xe0000003])
      (fun _ _ => false) 100 = .ok (3, 0) ∧
    decode_all (Buffer.ofWords [0xe0000001, 0xe0000002, 0x01000000, 0x300000c8,
      0x00c900ca, 0xe5000020, 0, 0x01000000, 0x30000001, 0x00020003, 0xe0000003]) =
      some ([.PpsSecond 1, .PpsSecond 2, .Hit (200, 201, 202) false, .Hit (1, 2, 3) true,
        .PpsSecond 3], none) ∧
    (0 : Nat) = 0 ∧
    3 = countPps [.PpsSecond 1, .PpsSecond 2, .Hit (200, 201, 202) false, .Hit (1, 2, 3) true,
      .PpsSecond 3] :=
  ⟨by decide, by decide,
    (hitrate_saturation_is_soft
      (Buffer.ofWords [0xe0000001, 0xe0000002, 0x01000000, 0x300000c8,
        0x00c900ca, 0xe5000020, 0, 0x01000000, 0x30000001, 0x00020003, 0xe0000003])
      (fun _ _ => false) 100 3 0
      [.PpsSecond 1, .PpsSecond 2, .Hit (200, 201, 202) false, .Hit (1, 2, 3) true,
        .PpsSecond 3] none (by decide) (by decide) (by simp)).1,
    (hitrate_saturation_is_soft
      (Buffer.ofWords [0xe0000001, 0xe0000002, 0x01000000, 0x300000c8,
        0x00c900ca, 0xe5000020, 0, 0x01000000, 0x30000001, 0x00020003, 0xe0000003])
      (fun _ _ => false) 100 3 0
      [.PpsSecond 1, .PpsSecond 2, .Hit (200, 201, 202) false, .Hit (1, 2, 3) true,
        .PpsSecond 3] none (by decide) (by decide) (by simp)).2.1⟩

/-! ## Bounds on the accumulators of `get_baseline` -/

theorem framesFrom_hits_le_aux : ∀ (n : Nat) (ws : List Nat), ws.length ≤ n →
    ∀ (cpu : Bool), 3 * ((framesFrom ws cpu).1.filter isHit).length ≤ ws.length := by
  intro n
  induction n with
  | zero =>
    intro ws hl cpu
    have : ws = [] := List.length_eq_zero.mp (Nat.le_zero.mp hl)
    subst this
    rw [framesFrom_nil]
    simp
  | succ n ih =>
    intro ws hl cpu
    rcases words_cases ws with rfl | ⟨header, rest, rfl, hh⟩ | ⟨header, rest, rfl, hh⟩ |
      ⟨header, rfl, hh⟩ | ⟨header, offset, rest, rfl, hh⟩ | ⟨header, rest, rfl, hh⟩ |
      ⟨header, rfl, hh⟩ | ⟨header, multi, rfl, hh⟩ | ⟨header, multi, adc_word, rest, rfl, hh⟩
    · rw [framesFrom_nil]; simp
    · simp only [List.length_cons] at hl
      rw [framesFrom_second _ _ _ hh]
      have := ih rest (by omega) cpu
      simp only [consFrame, List.filter_cons, isHit, Bool.false_eq_true, if_false,
        List.length_cons]
      omega
    · simp only [List.length_cons] at hl
      rw [framesFrom_year _ _ _ hh]
      have := ih rest (by omega) cpu
      simp only [consFrame, List.filter_cons, isHit, Bool.false_eq_true, if_false,
        List.length_cons]
      omega
    · rw [framesFrom_trig_nil _ _ hh]; simp
    · simp only [List.length_cons] at hl
      rw [framesFrom_trig _ _ _ _ hh]
      have := ih rest (by omega) (((header &&& 0xffff) &&& STATUS_CPUTRIG_ACTIVE) != 0)
      simp only [List.length_cons]
      omega
    · simp only [List.length_cons] at hl
      rw [framesFrom_format _ _ _ hh]
      have := ih rest (by omega) cpu
      simp only [List.length_cons]
      omega
    · rw [framesFrom_hit_nil _ _ hh]; simp
    · by_cases hc : (multi >>> 28) &&& 0xf = 3
      · rw [framesFrom_hit_short _ _ _ hh hc]; simp
      · rw [framesFrom_hit_bad _ _ _ _ hh hc]; simp
    · simp only [List.length_cons] at hl
      by_cases hc : (multi >>> 28) &&& 0xf = 3
      · rw [framesFrom_hit _ _ _ _ _ hh hc]
        have := ih rest (by omega) cpu
        simp only [consFrame, List.filter_cons, isHit, if_true, List.length_cons]
        omega
      · rw [framesFrom_hit_bad _ _ _ _ hh hc]; simp

theorem countCpuHits_le_hits (fs : List Frame) :
    countCpuHits fs ≤ (fs.filter isHit).length := by
  unfold countCpuHits
  induction fs with
  | nil => simp
  | cons f fs ih =>
    cases f with
    | PpsSecond x => simpa [List.filter_cons, isHit, isCpuHit] using ih
    | PpsYear x => simpa [List.filter_cons, isHit, isCpuHit] using ih
    | Hit adcs c =>
      cases c
      · simp only [List.filter_cons, isHit, isCpuHit, Bool.false_eq_true, if_false, if_true,
          List.length_cons]
        omega
      · simp only [List.filter_cons, isHit, isCpuHit, if_true, List.length_cons]
        omega

theorem clippedValues_spec (clip : Nat) (ch : Nat × Nat × Nat → Nat) (fs : List Frame)
    (hr : ∀ f ∈ fs, f.InRange)
    (hch : ∀ (adcs : Nat × Nat × Nat) (c : Bool), (Frame.Hit adcs c).InRange → ch adcs ≤ 4095) :
    (clippedValues clip ch fs).length ≤ countCpuHits fs ∧
    (clippedValues clip ch fs).sum ≤ min clip 4095 * (clippedValues clip ch fs).length ∧
    (4095 ≤ clip → (clippedValues clip ch fs).length = countCpuHits fs) := by
  induction fs with
  | nil => simp [clippedValues_nil, countCpuHits]
  | cons f fs ih =>
    obtain ⟨i1, i2, i3⟩ := ih (fun g hg => hr g (List.mem_cons_of_mem _ hg))
    have hc : countCpuHits (f :: fs) = (if isCpuHit f then 1 else 0) + countCpuHits fs := by
      unfold countCpuHits
      rw [List.filter_cons]
      split_ifs <;> simp [Nat.add_comm]
    rw [hc]
    cases f with
    | PpsSecond x =>
      rw [clippedValues_second]
      simp only [isCpuHit, Bool.false_eq_true, if_false, Nat.zero_add]
      exact ⟨i1, i2, i3⟩
    | PpsYear x =>
      rw [clippedValues_year]
      simp only [isCpuHit, Bool.false_eq_true, if_false, Nat.zero_add]
      exact ⟨i1, i2, i3⟩
    | Hit adcs c =>
      have hv := hch adcs c (hr _ (List.mem_cons_self _ _))
      cases c
      · rw [clippedValues_hit_off]
        simp only [isCpuHit, Bool.false_eq_true, if_false, Nat.zero_add]
        exact ⟨i1, i2, i3⟩
      · rw [clippedValues_hit_on]
        simp only [isCpuHit, if_true]
        by_cases hle : ch adcs ≤ clip
        · rw [if_pos hle]
          simp only [List.length_cons, List.sum_cons]
          have hm : ch adcs ≤ min clip 4095 := Nat.le_min.mpr ⟨hle, hv⟩
          refine ⟨by omega, ?_, fun h => by have := i3 h; omega⟩
          rw [Nat.mul_add, Nat.mul_one]
          omega
        · rw [if_neg hle]
          exact ⟨by omega, i2, fun h => by omega⟩

theorem channel_le_of_inRange (adcs : Nat × Nat × Nat) (c : Bool)
    (h : (Frame.Hit adcs c).InRange) : adcs.1 ≤ 4095 ∧ adcs.2.1 ≤ 4095 ∧ adcs.2.2 ≤ 4095 := by
  simp only [Frame.InRange] at h
  omega

theorem accumulator_bound (m L count sum : Nat) (hc : count ≤ L / 3) (hs : sum ≤ m * count)
    (hm : m ≤ 4095) :
    (0 < count → sum / count ≤ m) ∧ (L < 2 ^ 52 → sum < 2 ^ 64 ∧ count < 2 ^ 64) := by
  constructor
  · intro _
    apply Nat.div_le_of_le_mul
    rw [Nat.mul_comm]
    exact hs
  · intro hL
    have h1 : m * count ≤ 4095 * (L / 3) := Nat.mul_le_mul hm hc
    constructor <;> omega

/-- C20. Bounds on the accumulators of `get_baseline`: whenever it succeeds
on a buffer of `L` words, every count is at most `L / 3` and every sum at
most `min(adc_clip, 4095)` times its count, so a mean `sums[i] / counts[i]`
with a positive count is at most `min(adc_clip, 4095)`, and on a buffer of
fewer than `2 ^ 52` words every sum and count is below `2 ^ 64`; when
`adc_clip >= 4095` the three counts all equal the number of Hit frames
reached with `cpu_trigger = true`. -/
theorem baseline_accumulator_bounds (input : Buffer) (adc_clip : Nat)
    (sums counts : Nat × Nat × Nat)
    (h : get_baseline input adc_clip = .ok (sums, counts)) :
    (counts.1 ≤ input.size / 4 / 3 ∧ counts.2.1 ≤ input.size / 4 / 3 ∧
      counts.2.2 ≤ input.size / 4 / 3) ∧
    (sums.1 ≤ min adc_clip 4095 * counts.1 ∧ sums.2.1 ≤ min adc_clip 4095 * counts.2.1 ∧
      sums.2.2 ≤ min adc_clip 4095 * counts.2.2) ∧
    ((0 < counts.1 → sums.1 / counts.1 ≤ min adc_clip 4095) ∧
      (0 < counts.2.1 → sums.2.1 / counts.2.1 ≤ min adc_clip 4095) ∧
      (0 < counts.2.2 → sums.2.2 / counts.2.2 ≤ min adc_clip 4095)) ∧
    (input.size / 4 < 2 ^ 52 →
      (sums.1 < 2 ^ 64 ∧ sums.2.1 < 2 ^ 64 ∧ sums.2.2 < 2 ^ 64) ∧
      (counts.1 < 2 ^ 64 ∧ counts.2.1 < 2 ^ 64 ∧ counts.2.2 < 2 ^ 64)) ∧
    (4095 ≤ adc_clip →
      ∃ fs, decode_all input = some (fs, none) ∧
        counts = (countCpuHits fs, countCpuHits fs, countCpuHits fs)) := by
  obtain ⟨ht, cpu, hl⟩ := get_baseline_ok input adc_clip sums counts h
  obtain ⟨k0, k1, k2, k3, k4, k5, k6⟩ :=
    baselineLoop_fold_aux adc_clip _ input.data (le_refl _) _ _ _ _ hl
  simp only [Nat.zero_add] at k1 k2 k3 k4 k5 k6
  have hr := framesFrom_inRange_aux _ input.data (le_refl _) false
  have hw := framesFrom_hits_le_aux _ input.data (le_refl _) false
  have hcw := countCpuHits_le_hits (framesFrom input.data false).1
  obtain ⟨a1, a2, a3⟩ := clippedValues_spec adc_clip (fun a => a.1) _ hr
    (fun adcs c hi => (channel_le_of_inRange adcs c hi).1)
  obtain ⟨b1, b2, b3⟩ := clippedValues_spec adc_clip (fun a => a.2.1) _ hr
    (fun adcs c hi => (channel_le_of_inRange adcs c hi).2.1)
  obtain ⟨c1, c2, c3⟩ := clippedValues_spec adc_clip (fun a => a.2.2) _ hr
    (fun adcs c hi => (channel_le_of_inRange adcs c hi).2.2)
  rw [← k1, ← k4] at a2
  rw [← k2, ← k5] at b2
  rw [← k3, ← k6] at c2
  rw [← k4] at a1 a3
  rw [← k5] at b1 b3
  rw [← k6] at c1 c3
  rw [Buffer.size_div]
  have d1 : counts.1 ≤ input.data.length / 3 := by omega
  have d2 : counts.2.1 ≤ input.data.length / 3 := by omega
  have d3 : counts.2.2 ≤ input.data.length / 3 := by omega
  have hm : min adc_clip 4095 ≤ 4095 := Nat.min_le_right _ _
  have e1 := accumulator_bound _ _ _ _ d1 a2 hm
  have e2 := accumulator_bound _ _ _ _ d2 b2 hm
  have e3 := accumulator_bound _ _ _ _ d3 c2 hm
  refine ⟨⟨d1, d2, d3⟩, ⟨a2, b2, c2⟩, ⟨e1.1, e2.1, e3.1⟩, ?_, ?_⟩
  · intro hL
    exact ⟨⟨(e1.2 hL).1, (e2.2 hL).1, (e3.2 hL).1⟩, (e1.2 hL).2, (e2.2 hL).2, (e3.2 hL).2⟩
  · intro hclip
    refine ⟨(framesFrom input.data false).1, ?_, ?_⟩
    · rw [decode_all_eq, if_neg (not_not.mpr ht), ← k0]
    · obtain ⟨n0, n1, n2⟩ := counts
      simp only at a3 b3 c3
      rw [a3 hclip, b3 hclip, c3 hclip]

theorem baseline_accumulator_bounds_witness :
    ((2 : Nat) ≤ (Buffer.ofWords [0xe5000020, 0, 0x01000000, 0x30000fff, 0x0fff0005,
        0x01000000, 0x30000001, 0x00020003]).size / 4 / 3 ∧
      2 ≤ (Buffer.ofWords [0xe5000020, 0, 0x01000000, 0x30000fff, 0x0fff0005,
        0x01000000, 0x30000001, 0x00020003]).size / 4 / 3 ∧
      2 ≤ (Buffer.ofWords [0xe5000020, 0, 0x01000000, 0x30000fff, 0x0fff0005,
        0x01000000, 0x30000001, 0x00020003]).size / 4 / 3) ∧
    (4096 ≤ min 5000 4095 * 2 ∧ 4097 ≤ min 5000 4095 * 2 ∧ 8 ≤ min 5000 4095 * 2) ∧
    ((0 < 2 → 4096 / 2 ≤ min 5000 4095) ∧ (0 < 2 → 4097 / 2 ≤ min 5000 4095) ∧
      (0 < 2 → 8 / 2 ≤ min 5000 4095)) ∧
    ((Buffer.ofWords [0xe5000020, 0, 0x01000000, 0x30000fff, 0x0fff0005,
        0x01000000, 0x30000001, 0x00020003]).size / 4 < 2 ^ 52 →
      (4096 < 2 ^ 64 ∧ 4097 < 2 ^ 64 ∧ 8 < 2 ^ 64) ∧
      (2 < 2 ^ 64 ∧ 2 < 2 ^ 64 ∧ 2 < 2 ^ 64)) ∧
    (4095 ≤ 5000 →
      ∃ fs, decode_all (Buffer.ofWords [0xe5000020, 0, 0x01000000, 0x30000fff, 0x0fff0005,
          0x01000000, 0x30000001, 0x00020003]) = some (fs, none) ∧
        ((2, 2, 2) : Nat × Nat × Nat) = (countCpuHits fs, countCpuHits fs, countCpuHits fs)) :=
  baseline_accumulator_bounds
    (Buffer.ofWords [0xe5000020, 0, 0x01000000, 0x30000fff, 0x0fff0005,
      0x01000000, 0x30000001, 0x00020003]) 5000 (4096, 4097, 8) (2, 2, 2) (by decide)

/-! ## The threshold decision for one hit -/

/-- C16. Threshold decision of `get_hitrate_thresh` for a complete hit frame
with `adc_count = 3` reached with `cpu_trigger = false`, the `double`
operations left uninterpreted. The loop steps over the frame with `seconds`
and `hits` unchanged and `hits_temp` one higher exactly when a channel is at
most `max_adc_counts` and, for the least such channel `i`, the test
`mips < threshold_mip` is false, with
`mips = (adc[i] - baseline_adc[i]) * mip_per_adc0` for `i = 0` and that value
times `adc_amp[i - 1]` for `i = 1, 2`; the later channels do not enter the
decision; when all three channels are above `max_adc_counts` nothing is
counted; and with `max_adc_counts >= 4095` the channel is 0. -/
theorem hitrate_threshold_decision {F : Type} (ops : DoubleOps F) (adc_amp baseline_adc : Nat → F)
    (mip_per_adc0 threshold_mip : F) (max_adc_counts header multi adc_word : Nat)
    (data : List Nat) (seconds hits hits_temp : Nat)
    (hh : IsHitHeader header) (hc : (multi >>> 28) &&& 0xf = 3) :
    (multi &&& 0x0fff ≤ max_adc_counts →
      hitrateLoop (below_threshold_of ops adc_amp baseline_adc mip_per_adc0 threshold_mip)
        max_adc_counts (header :: multi :: adc_word :: data) seconds hits hits_temp false =
      hitrateLoop (below_threshold_of ops adc_amp baseline_adc mip_per_adc0 threshold_mip)
        max_adc_counts data seconds hits
        (hits_temp +
          if ops.lt (ops.mul (ops.sub (ops.ofUInt16 (multi &&& 0x0fff)) (baseline_adc 0))
            mip_per_adc0) threshold_mip then 0 else 1) false) ∧
    (max_adc_counts < multi &&& 0x0fff → (adc_word >>> 16) &&& 0x0fff ≤ max_adc_counts →
      hitrateLoop (below_threshold_of ops adc_amp baseline_adc mip_per_adc0 threshold_mip)
        max_adc_counts (header :: multi :: adc_word :: data) seconds hits hits_temp false =
      hitrateLoop (below_threshold_of ops adc_amp baseline_adc mip_per_adc0 threshold_mip)
        max_adc_counts data seconds hits
        (hits_temp +
          if ops.lt (ops.mul (ops.mul (ops.sub (ops.ofUInt16 ((adc_word >>> 16) &&& 0x0fff))
            (baseline_adc 1)) mip_per_adc0) (adc_amp 0)) threshold_mip then 0 else 1) false) ∧
    (max_adc_counts < multi &&& 0x0fff → max_adc_counts < (adc_word >>> 16) &&& 0x0fff →
      adc_word &&& 0x0fff ≤ max_adc_counts →
      hitrateLoop (below_threshold_of ops adc_amp baseline_adc mip_per_adc0 threshold_mip)
        max_adc_counts (header :: multi :: adc_word :: data) seconds hits hits_temp false =
      hitrateLoop (below_threshold_of ops adc_amp baseline_adc mip_per_adc0 threshold_mip)
        max_adc_counts data seconds hits
        (hits_temp +
          if ops.lt (ops.mul (ops.mul (ops.sub (ops.ofUInt16 (adc_word &&& 0x0fff))
            (baseline_adc 2)) mip_per_adc0) (adc_amp 1)) threshold_mip then 0 else 1) false) ∧
    (max_adc_counts < multi &&& 0x0fff → max_adc_counts < (adc_word >>> 16) &&& 0x0fff →
      max_adc_counts < adc_word &&& 0x0fff →
      hitrateLoop (below_threshold_of ops adc_amp baseline_adc mip_per_adc0 threshold_mip)
        max_adc_counts (header :: multi :: adc_word :: data) seconds hits hits_temp false =
      hitrateLoop (below_threshold_of ops adc_amp baseline_adc mip_per_adc0 threshold_mip)
        max_adc_counts data seconds hits hits_temp false) ∧
    (4095 ≤ max_adc_counts → multi &&& 0x0fff ≤ max_adc_counts) := by
  have step := hitrateLoop_hit_off
    (below_threshold_of ops adc_amp baseline_adc mip_per_adc0 threshold_mip) max_adc_counts
    header multi adc_word data seconds hits hits_temp hh hc
  refine ⟨?_, ?_, ?_, ?_, ?_⟩
  · intro g0
    rw [step]
    simp only [hitCounted, g0, if_true, below_threshold_of, mips_of, Nat.lt_irrefl, if_false]
    cases ops.lt (ops.mul (ops.sub (ops.ofUInt16 (multi &&& 0x0fff)) (baseline_adc 0))
      mip_per_adc0) threshold_mip <;> rfl
  · intro g0 g1
    rw [step]
    simp only [hitCounted, Nat.not_le.mpr g0, g1, if_true, if_false, below_threshold_of,
      mips_of, Nat.lt_add_one, Nat.sub_self]
    cases ops.lt (ops.mul (ops.mul (ops.sub (ops.ofUInt16 ((adc_word >>> 16) &&& 0x0fff))
      (baseline_adc 1)) mip_per_adc0) (adc_amp 0)) threshold_mip <;> rfl
  · intro g0 g1 g2
    rw [step]
    simp only [hitCounted, Nat.not_le.mpr g0, Nat.not_le.mpr g1, g2, if_true, if_false,
      below_threshold_of, mips_of, Nat.zero_lt_two, Nat.add_one_sub_one]
    cases ops.lt (ops.mul (ops.mul (ops.sub (ops.ofUInt16 (adc_word &&& 0x0fff))
      (baseline_adc 2)) mip_per_adc0) (adc_amp 1)) threshold_mip <;> rfl
  · intro g0 g1 g2
    rw [step, hitCounted_saturated _ _ _ ⟨g0, g1, g2⟩]
    rfl
  · intro hm
    rw [(and_mask_eq_mod multi).2.2.2.1]
    omega

theorem hitrate_threshold_decision_witness :
    hitrateLoop (below_threshold_of intOps (fun _ => 2) (fun _ => 10) 3 100) 40
        (0x01000000 :: 0x30000032 :: 0x00200003 :: []) 5 1 2 false =
      hitrateLoop (below_threshold_of intOps (fun _ => 2) (fun _ => 10) 3 100) 40 [] 5 1
        (2 + if intOps.lt (intOps.mul (intOps.mul
          (intOps.sub (intOps.ofUInt16 ((0x00200003 >>> 16) &&& 0x0fff)) 10) 3) 2) 100
          then 0 else 1) false ∧
    hitrateLoop (below_threshold_of intOps (fun _ => 2) (fun _ => 10) 3 100) 40
        (0x01000000 :: 0x30000032 :: 0x00200003 :: []) 5 1 2 false = .ok (5, 1, 3, false) :=
  ⟨(hitrate_threshold_decision intOps (fun _ => 2) (fun _ => 10) 3 100 40
      0x01000000 0x30000032 0x00200003 [] 5 1 2 (by decide) (by decide)).2.1
      (by decide) (by decide), by decide⟩

/-! ## `analyze_hitbuf` as an iteration of one step -/

theorem analyzeLoop_succ (data : List Nat) (count fuel i : Nat) (s h t : Int) :
    analyzeLoop data count (fuel + 1) i s h t =
      if i < count then
        match analyzeStep data count i s h t with
        | .error e => some (.error e)
        | .ok (i', s', h', t') => analyzeLoop data count fuel i' s' h' t'
      else some (.ok (s, h, t)) := by
  rw [analyzeLoop]
  unfold analyzeStep
  simp only []
  split_ifs <;> rfl

theorem analyzeLoop_eq_run (data : List Nat) (count : Nat) :
    ∀ (fuel i : Nat) (s h t : Int),
      analyzeLoop data count fuel i s h t =
        match analyzeRun data count fuel i s h t with
        | none => none
        | some (.error e) => some (.error e)
        | some (.ok (_, s', h', t')) => some (.ok (s', h', t')) := by
  intro fuel
  induction fuel with
  | zero => intro i s h t; rfl
  | succ fuel ih =>
    intro i s h t
    rw [analyzeLoop_succ, analyzeRun]
    by_cases hi : i < count
    · simp only [hi, if_true]
      cases hstep : analyzeStep data count i s h t with
      | error e => rfl
      | ok v =>
        obtain ⟨i', s', h', t'⟩ := v
        simp only []
        exact ih i' s' h' t'
    · simp only [hi, if_false]

theorem analyzeStep_second (data : List Nat) (count i header : Nat) (s h t : Int)
    (hd : data.getD i 0 = header) (hh : (header >>> 24) % 256 = 0xe0) :
    analyzeStep data count i s h t =
      .ok (i + 1, wrapInt (s + 1), (if s < 2 then 0 else t), (if s < 2 then 0 else t)) := by
  unfold analyzeStep
  simp only [hd, hh, OBJECT_CODE_PPS_SECOND, OBJECT_CODE_PPS_YEAR,
    OBJECT_CODE_TRIG_CONFIG, OBJECT_CODE_DATA_FORMAT, if_true]

theorem analyzeStep_trig (data : List Nat) (count i header : Nat) (s h t : Int)
    (hd : data.getD i 0 = header) (hh : (header >>> 24) % 256 = 0xe5) (hi : i < count) :
    analyzeStep data count i s h t = .ok (i + 1 + 1, s, h, t) := by
  unfold analyzeStep
  have hgt : ¬ (i + 1 > count) := by omega
  simp only [hd, hh, OBJECT_CODE_PPS_SECOND, OBJECT_CODE_PPS_YEAR,
    OBJECT_CODE_TRIG_CONFIG, OBJECT_CODE_DATA_FORMAT, hgt, Nat.reduceEqDiff, if_true, if_false]

theorem analyzeStep_skip (data : List Nat) (count i header : Nat) (s h t : Int)
    (hd : data.getD i 0 = header)
    (hh : (header >>> 24) % 256 = 0xe4 ∨ (header >>> 24) % 256 = 0xe6) :
    analyzeStep data count i s h t = .ok (i + 1, s, h, t) := by
  unfold analyzeStep
  rcases hh with hh | hh <;>
    simp only [hd, hh, OBJECT_CODE_PPS_SECOND, OBJECT_CODE_PPS_YEAR,
    OBJECT_CODE_TRIG_CONFIG, OBJECT_CODE_DATA_FORMAT, Nat.reduceEqDiff, if_true, if_false, true_or, or_true]

theorem analyzeStep_hit (data : List Nat) (count i header multi : Nat) (s h t : Int)
    (hd : data.getD i 0 = header) (hm : data.getD (i + 1) 0 = multi)
    (hh : IsHitHeader header) (h1 : i + 1 < count)
    (h2 : i + 1 + ((multi >>> 28) &&& 0xf) / 2 ≤ count) :
    analyzeStep data count i s h t =
      .ok (i + 1 + ((multi >>> 28) &&& 0xf) / 2 + 1, s, h, wrapInt (t + 1)) := by
  obtain ⟨g1, g2, g3, g4⟩ := hh
  unfold analyzeStep
  have k1 : ¬ (i + 1 ≥ count) := by omega
  have k2 : ¬ (i + 1 + ((multi >>> 28) &&& 0xf) / 2 > count) := by omega
  simp only [hd, hm, g1, g2, g3, g4, OBJECT_CODE_PPS_SECOND, OBJECT_CODE_PPS_YEAR,
    OBJECT_CODE_TRIG_CONFIG, OBJECT_CODE_DATA_FORMAT, k1, k2, or_self, if_false]

theorem analyzeStep_hit_nil (data : List Nat) (count i header : Nat) (s h t : Int)
    (hd : data.getD i 0 = header) (hh : IsHitHeader header) (h1 : count ≤ i + 1) :
    analyzeStep data count i s h t = .error .TruncatedFrame := by
  obtain ⟨g1, g2, g3, g4⟩ := hh
  unfold analyzeStep
  have k1 : i + 1 ≥ count := h1
  simp only [hd, g1, g2, g3, g4, OBJECT_CODE_PPS_SECOND, OBJECT_CODE_PPS_YEAR,
    OBJECT_CODE_TRIG_CONFIG, OBJECT_CODE_DATA_FORMAT, k1, or_self, if_false, if_true]

theorem analyzeStep_hit_over (data : List Nat) (count i header multi : Nat) (s h t : Int)
    (hd : data.getD i 0 = header) (hm : data.getD (i + 1) 0 = multi)
    (hh : IsHitHeader header) (h1 : i + 1 < count)
    (h2 : count < i + 1 + ((multi >>> 28) &&& 0xf) / 2) :
    analyzeStep data count i s h t = .error .TruncatedFrame := by
  obtain ⟨g1, g2, g3, g4⟩ := hh
  unfold analyzeStep
  have k1 : ¬ (i + 1 ≥ count) := by omega
  have k2 : i + 1 + ((multi >>> 28) &&& 0xf) / 2 > count := h2
  simp only [hd, hm, g1, g2, g3, g4, OBJECT_CODE_PPS_SECOND, OBJECT_CODE_PPS_YEAR,
    OBJECT_CODE_TRIG_CONFIG, OBJECT_CODE_DATA_FORMAT, k1, k2, or_self, if_false, if_true]

theorem analyzeStep_advances (data : List Nat) (count i : Nat) (s h t : Int)
    (r : Nat × Int × Int × Int) (hr : analyzeStep data count i s h t = .ok r) : i < r.1 := by
  rcases frame_type_cases (data.getD i 0) with h1 | h1 | h1 | h1 | h1
  · rw [analyzeStep_second data count i _ s h t rfl h1] at hr
    cases hr; simp only; omega
  · rw [analyzeStep_skip data count i _ s h t rfl (Or.inl h1)] at hr
    cases hr; simp only; omega
  · by_cases hi : i < count
    · rw [analyzeStep_trig data count i _ s h t rfl h1 hi] at hr
      cases hr; simp only; omega
    · unfold analyzeStep at hr
      have hgt : i + 1 > count := by omega
      simp only [h1, OBJECT_CODE_PPS_SECOND, OBJECT_CODE_TRIG_CONFIG, hgt, Nat.reduceEqDiff,
        if_true, if_false] at hr
      cases hr
  · rw [analyzeStep_skip data count i _ s h t rfl (Or.inr h1)] at hr
    cases hr; simp only; omega
  · by_cases k1 : i + 1 < count
    · by_cases k2 : i + 1 + ((data.getD (i + 1) 0 >>> 28) &&& 0xf) / 2 ≤ count
      · rw [analyzeStep_hit data count i _ _ s h t rfl rfl h1 k1 k2] at hr
        cases hr; simp only; omega
      · rw [analyzeStep_hit_over data count i _ _ s h t rfl rfl h1 k1 (by omega)] at hr
        cases hr
    · rw [analyzeStep_hit_nil data count i _ s h t rfl h1 (by omega)] at hr
      cases hr

theorem analyzeStep_append (B D : List Nat) (i : Nat) (s h t : Int)
    (r : Nat × Int × Int × Int) (hi : i < B.length)
    (hr : analyzeStep B B.length i s h t = .ok r) :
    analyzeStep (B ++ D) (B.length + D.length) i s h t = .ok r := by
  have hd : (B ++ D).getD i 0 = B.getD i 0 := List.getD_append _ _ _ _ hi
  rcases frame_type_cases (B.getD i 0) with h1 | h1 | h1 | h1 | h1
  · rw [analyzeStep_second B _ i _ s h t rfl h1] at hr
    rw [analyzeStep_second (B ++ D) _ i _ s h t hd h1, hr]
  · rw [analyzeStep_skip B _ i _ s h t rfl (Or.inl h1)] at hr
    rw [analyzeStep_skip (B ++ D) _ i _ s h t hd (Or.inl h1), hr]
  · rw [analyzeStep_trig B _ i _ s h t rfl h1 hi] at hr
    rw [analyzeStep_trig (B ++ D) _ i _ s h t hd h1 (by omega), hr]
  · rw [analyzeStep_skip B _ i _ s h t rfl (Or.inr h1)] at hr
    rw [analyzeStep_skip (B ++ D) _ i _ s h t hd (Or.inr h1), hr]
  · by_cases k1 : i + 1 < B.length
    · have hm : (B ++ D).getD (i + 1) 0 = B.getD (i + 1) 0 := List.getD_append _ _ _ _ k1
      by_cases k2 : i + 1 + ((B.getD (i + 1) 0 >>> 28) &&& 0xf) / 2 ≤ B.length
      · rw [analyzeStep_hit B _ i _ _ s h t rfl rfl h1 k1 k2] at hr
        rw [analyzeStep_hit (B ++ D) _ i _ _ s h t hd hm h1 (by omega) (by omega), hr]
      · rw [analyzeStep_hit_over B _ i _ _ s h t rfl rfl h1 k1 (by omega)] at hr
        cases hr
    · rw [analyzeStep_hit_nil B _ i _ s h t rfl h1 (by omega)] at hr
      cases hr

theorem analyzeStep_shift (pre D : List Nat) (j : Nat) (s h t : Int) (hj : j < D.length) :
    analyzeStep (pre ++ D) (pre.length + D.length) (pre.length + j) s h t =
      shiftIndex pre.length (analyzeStep D D.length j s h t) := by
  have hd : (pre ++ D).getD (pre.length + j) 0 = D.getD j 0 := by
    rw [List.getD_append_right _ _ _ _ (by omega)]
    congr 1
    omega
  have hm : (pre ++ D).getD (pre.length + j + 1) 0 = D.getD (j + 1) 0 := by
    rw [List.getD_append_right _ _ _ _ (by omega)]
    congr 1
    omega
  rcases frame_type_cases (D.getD j 0) with h1 | h1 | h1 | h1 | h1
  · rw [analyzeStep_second D _ j _ s h t rfl h1,
      analyzeStep_second (pre ++ D) _ _ _ s h t hd h1]
    rfl
  · rw [analyzeStep_skip D _ j _ s h t rfl (Or.inl h1),
      analyzeStep_skip (pre ++ D) _ _ _ s h t hd (Or.inl h1)]
    rfl
  · rw [analyzeStep_trig D _ j _ s h t rfl h1 hj,
      analyzeStep_trig (pre ++ D) _ _ _ s h t hd h1 (by omega)]
    rfl
  · rw [analyzeStep_skip D _ j _ s h t rfl (Or.inr h1),
      analyzeStep_skip (pre ++ D) _ _ _ s h t hd (Or.inr h1)]
    rfl
  · by_cases k1 : j + 1 < D.length
    · by_cases k2 : j + 1 + ((D.getD (j + 1) 0 >>> 28) &&& 0xf) / 2 ≤ D.length
      · rw [analyzeStep_hit D _ j _ _ s h t rfl rfl h1 k1 k2,
          analyzeStep_hit (pre ++ D) _ _ _ _ s h t hd hm h1 (by omega) (by omega)]
        simp only [shiftIndex, Nat.add_assoc]
      · rw [analyzeStep_hit_over D _ j _ _ s h t rfl rfl h1 k1 (by omega),
          analyzeStep_hit_over (pre ++ D) _ _ _ _ s h t hd hm h1 (by omega) (by omega)]
        rfl
    · rw [analyzeStep_hit_nil D _ j _ s h t rfl h1 (by omega),
        analyzeStep_hit_nil (pre ++ D) _ _ _ s h t hd h1 (by omega)]
      rfl

theorem analyzeRun_succ (data : List Nat) (count fuel i : Nat) (s h t : Int) :
    analyzeRun data count (fuel + 1) i s h t =
      if i < count then
        match analyzeStep data count i s h t with
        | .error e => some (.error e)
        | .ok (i', s', h', t') => analyzeRun data count fuel i' s' h' t'
      else some (.ok (i, s, h, t)) := by
  rw [analyzeRun]

theorem analyzeRun_mono (data : List Nat) (count : Nat) :
    ∀ (fuel i : Nat) (s h t : Int) (r : Except Err (Nat × Int × Int × Int)),
      analyzeRun data count fuel i s h t = some r →
      ∀ (k : Nat), analyzeRun data count (fuel + k) i s h t = some r := by
  intro fuel
  induction fuel with
  | zero => intro i s h t r hr; cases hr
  | succ fuel ih =>
    intro i s h t r hr k
    rw [Nat.add_right_comm, analyzeRun_succ]
    rw [analyzeRun_succ] at hr
    by_cases hi : i < count
    · simp only [hi, if_true] at hr ⊢
      cases hstep : analyzeStep data count i s h t with
      | error e => rw [hstep] at hr; exact hr
      | ok v =>
        obtain ⟨i', s', h', t'⟩ := v
        rw [hstep] at hr
        exact ih i' s' h' t' r hr k
    · simp only [hi, if_false] at hr ⊢
      exact hr

theorem analyzeRun_total (data : List Nat) (count : Nat) :
    ∀ (fuel i : Nat) (s h t : Int), count - i < fuel →
      ∃ r, analyzeRun data count fuel i s h t = some r := by
  intro fuel
  induction fuel with
  | zero => intro i s h t hf; omega
  | succ fuel ih =>
    intro i s h t hf
    rw [analyzeRun_succ]
    by_cases hi : i < count
    · simp only [hi, if_true]
      cases hstep : analyzeStep data count i s h t with
      | error e => exact ⟨_, rfl⟩
      | ok v =>
        have hadv := analyzeStep_advances data count i s h t v hstep
        obtain ⟨i', s', h', t'⟩ := v
        simp only at hadv
        exact ih i' s' h' t' (by omega)
    · simp only [hi, if_false]
      exact ⟨_, rfl⟩

theorem analyzeRun_prefix (B D : List Nat) :
    ∀ (fuel i : Nat) (s h t : Int) (st : Int × Int × Int),
      analyzeRun B B.length fuel i s h t = some (.ok (B.length, st)) →
      ∀ (g : Nat) (r : Except Err (Nat × Int × Int × Int)),
        analyzeRun (B ++ D) (B.length + D.length) g B.length st.1 st.2.1 st.2.2 = some r →
        analyzeRun (B ++ D) (B.length + D.length) (fuel + g) i s h t = some r := by
  intro fuel
  induction fuel with
  | zero => intro i s h t st hr; cases hr
  | succ fuel ih =>
    intro i s h t st hr g r hg
    rw [analyzeRun_succ] at hr
    by_cases hi : i < B.length
    · simp only [hi, if_true] at hr
      have hi' : i < B.length + D.length := by omega
      rw [Nat.add_right_comm, analyzeRun_succ]
      simp only [hi', if_true]
      cases hstep : analyzeStep B B.length i s h t with
      | error e => rw [hstep] at hr; cases hr
      | ok v =>
        rw [analyzeStep_append B D i s h t v hi hstep]
        obtain ⟨i', s', h', t'⟩ := v
        rw [hstep] at hr
        exact ih i' s' h' t' st hr g r hg
    · simp only [hi, if_false, Option.some.injEq, Except.ok.injEq, Prod.mk.injEq] at hr
      obtain ⟨rfl, rfl⟩ := hr
      rw [Nat.add_comm (fuel + 1) g]
      exact analyzeRun_mono _ _ _ _ _ _ _ _ hg _

theorem analyzeRun_shift (pre D : List Nat) :
    ∀ (fuel j : Nat) (s h t : Int),
      analyzeRun (pre ++ D) (pre.length + D.length) fuel (pre.length + j) s h t =
        (analyzeRun D D.length fuel j s h t).map (shiftIndex pre.length) := by
  intro fuel
  induction fuel with
  | zero => intro j s h t; rfl
  | succ fuel ih =>
    intro j s h t
    rw [analyzeRun_succ, analyzeRun_succ]
    by_cases hj : j < D.length
    · have hj' : pre.length + j < pre.length + D.length := by omega
      simp only [hj, hj', if_true]
      rw [analyzeStep_shift pre D j s h t hj]
      cases hstep : analyzeStep D D.length j s h t with
      | error e => rfl
      | ok v =>
        obtain ⟨j', s', h', t'⟩ := v
        simp only [shiftIndex]
        exact ih j' s' h' t'
    · have hj' : ¬ (pre.length + j < pre.length + D.length) := by omega
      simp only [hj, hj', if_false]
      rfl

theorem analyzeStep_error (data : List Nat) (count i : Nat) (s h t : Int) (e : Err)
    (hr : analyzeStep data count i s h t = .error e) : e = .TruncatedFrame := by
  rcases frame_type_cases (data.getD i 0) with h1 | h1 | h1 | h1 | h1
  · rw [analyzeStep_second data count i _ s h t rfl h1] at hr
    cases hr
  · rw [analyzeStep_skip data count i _ s h t rfl (Or.inl h1)] at hr
    cases hr
  · unfold analyzeStep at hr
    simp only [h1, OBJECT_CODE_PPS_SECOND, OBJECT_CODE_TRIG_CONFIG, Nat.reduceEqDiff,
      if_true, if_false] at hr
    split_ifs at hr
    · cases hr; rfl
  · rw [analyzeStep_skip data count i _ s h t rfl (Or.inr h1)] at hr
    cases hr
  · by_cases k1 : i + 1 < count
    · by_cases k2 : i + 1 + ((data.getD (i + 1) 0 >>> 28) &&& 0xf) / 2 ≤ count
      · rw [analyzeStep_hit data count i _ _ s h t rfl rfl h1 k1 k2] at hr
        cases hr
      · rw [analyzeStep_hit_over data count i _ _ s h t rfl rfl h1 k1 (by omega)] at hr
        cases hr; rfl
    · rw [analyzeStep_hit_nil data count i _ s h t rfl h1 (by omega)] at hr
      cases hr; rfl

theorem analyzeRun_error (data : List Nat) (count : Nat) :
    ∀ (fuel i : Nat) (s h t : Int) (e : Err),
      analyzeRun data count fuel i s h t = some (.error e) → e = .TruncatedFrame := by
  intro fuel
  induction fuel with
  | zero => intro i s h t e hr; cases hr
  | succ fuel ih =>
    intro i s h t e hr
    rw [analyzeRun_succ] at hr
    by_cases hi : i < count
    · simp only [hi, if_true] at hr
      cases hstep : analyzeStep data count i s h t with
      | error e' =>
        rw [hstep] at hr
        simp only [Option.some.injEq, Except.error.injEq] at hr
        rw [← hr]
        exact analyzeStep_error _ _ _ _ _ _ _ hstep
      | ok v =>
        obtain ⟨i', s', h', t'⟩ := v
        rw [hstep] at hr
        exact ih i' s' h' t' e hr
    · simp only [hi, if_false] at hr
      cases hr

theorem analyzeStep_hits_temp (data : List Nat) (count i : Nat) (s h t : Int)
    (r : Nat × Int × Int × Int) (hc : count < 2 ^ 31) (hi : i < count)
    (h0 : 0 ≤ t) (h1 : t ≤ i) (hr : analyzeStep data count i s h t = .ok r) :
    0 ≤ r.2.2.2 ∧ r.2.2.2 ≤ r.1 := by
  rcases frame_type_cases (data.getD i 0) with g | g | g | g | g
  · rw [analyzeStep_second data count i _ s h t rfl g] at hr
    cases hr
    simp only
    split_ifs <;> omega
  · rw [analyzeStep_skip data count i _ s h t rfl (Or.inl g)] at hr
    cases hr; simp only; omega
  · rw [analyzeStep_trig data count i _ s h t rfl g hi] at hr
    cases hr; simp only; omega
  · rw [analyzeStep_skip data count i _ s h t rfl (Or.inr g)] at hr
    cases hr; simp only; omega
  · by_cases k1 : i + 1 < count
    · by_cases k2 : i + 1 + ((data.getD (i + 1) 0 >>> 28) &&& 0xf) / 2 ≤ count
      · rw [analyzeStep_hit data count i _ _ s h t rfl rfl g k1 k2] at hr
        cases hr
        simp only
        rw [wrapInt_of_range _ (by omega) (by omega)]
        omega
      · rw [analyzeStep_hit_over data count i _ _ s h t rfl rfl g k1 (by omega)] at hr
        cases hr
    · rw [analyzeStep_hit_nil data count i _ s h t rfl g (by omega)] at hr
      cases hr

theorem analyzeRun_hits_temp (data : List Nat) (count : Nat) (hc : count < 2 ^ 31) :
    ∀ (fuel i : Nat) (s h t : Int) (r : Nat × Int × Int × Int),
      0 ≤ t → t ≤ i → analyzeRun data count fuel i s h t = some (.ok r) →
      0 ≤ r.2.2.2 ∧ r.2.2.2 ≤ r.1 := by
  intro fuel
  induction fuel with
  | zero => intro i s h t r _ _ hr; cases hr
  | succ fuel ih =>
    intro i s h t r h0 h1 hr
    rw [analyzeRun_succ] at hr
    by_cases hi : i < count
    · simp only [hi, if_true] at hr
      cases hstep : analyzeStep data count i s h t with
      | error e => rw [hstep] at hr; cases hr
      | ok v =>
        have hb := analyzeStep_hits_temp data count i s h t v hc hi h0 h1 hstep
        obtain ⟨i', s', h', t'⟩ := v
        rw [hstep] at hr
        exact ih i' s' h' t' r hb.1 hb.2 hr
    · simp only [hi, if_false, Option.some.injEq, Except.ok.injEq] at hr
      rw [← hr]
      exact ⟨h0, h1⟩

/-! ## The width of a hit frame in `analyze_hitbuf` -/

theorem analyzeStep_at_hit (B S extras : List Nat) (header multi : Nat) (s h t : Int)
    (hh : IsHitHeader header) (he : extras.length = ((multi >>> 28) &&& 0xf) / 2) :
    analyzeStep (B ++ (header :: multi :: extras ++ S))
        (B.length + (header :: multi :: extras ++ S).length) (B.length + 0) s h t =
      .ok (B.length + (2 + ((multi >>> 28) &&& 0xf) / 2), s, h, wrapInt (t + 1)) := by
  have hl : (header :: multi :: extras ++ S).length =
      2 + ((multi >>> 28) &&& 0xf) / 2 + S.length := by
    simp only [List.cons_append, List.length_cons, List.length_append, he]
    omega
  rw [analyzeStep_shift B _ 0 s h t (by omega)]
  rw [analyzeStep_hit (header :: multi :: extras ++ S) _ 0 header multi s h t rfl rfl hh
    (by omega) (by omega)]
  simp only [shiftIndex]
  congr 3
  omega

theorem analyzeLoop_after_hit (B S extras : List Nat) (header multi : Nat) (s h t : Int)
    (hB : analyzeRun B B.length (B.length + 1) 0 0 0 0 = some (.ok (B.length, s, h, t)))
    (hh : IsHitHeader header) (he : extras.length = ((multi >>> 28) &&& 0xf) / 2) :
    analyzeLoop (B ++ (header :: multi :: extras) ++ S)
        (B ++ (header :: multi :: extras) ++ S).length
        ((B ++ (header :: multi :: extras) ++ S).length + 1) 0 0 0 0 =
      analyzeLoop S S.length (S.length + 1) 0 s h (wrapInt (t + 1)) := by
  have hHl : (header :: multi :: extras).length = 2 + ((multi >>> 28) &&& 0xf) / 2 := by
    simp only [List.length_cons, he]
    omega
  have hstep := analyzeStep_at_hit B S extras header multi s h t hh he
  have hassoc : B ++ (header :: multi :: extras) ++ S =
      B ++ (header :: multi :: extras ++ S) := by
    simp only [List.append_assoc, List.cons_append]
  have hDl : (header :: multi :: extras ++ S).length =
      2 + ((multi >>> 28) &&& 0xf) / 2 + S.length := by
    simp only [List.cons_append, List.length_cons, List.length_append, he]
    omega
  have hcnt : (B ++ (header :: multi :: extras) ++ S).length =
      B.length + (header :: multi :: extras ++ S).length := by
    rw [hassoc, List.length_append]
  -- the scan of the suffix alone
  obtain ⟨rS, hS⟩ := analyzeRun_total S S.length (S.length + 1) 0 s h (wrapInt (t + 1))
    (by omega)
  -- the scan of the whole buffer from the first word after the hit
  have hshift := analyzeRun_shift (B ++ (header :: multi :: extras)) S (S.length + 1) 0 s h
    (wrapInt (t + 1))
  rw [hS, List.length_append, hHl] at hshift
  simp only [Option.map_some', Nat.add_zero] at hshift
  -- one iteration at the header of the hit
  have hfrom : analyzeRun (B ++ (header :: multi :: extras ++ S))
      (B.length + (header :: multi :: extras ++ S).length) (S.length + 1 + 1) B.length s h t =
      some (shiftIndex (B.length + (2 + ((multi >>> 28) &&& 0xf) / 2)) rS) := by
    rw [analyzeRun_succ, if_pos (by omega)]
    rw [Nat.add_zero] at hstep
    rw [hstep]
    dsimp only
    rw [← hshift, hassoc, hDl]
    congr 1
    omega
  have hwhole := analyzeRun_prefix B (header :: multi :: extras ++ S) (B.length + 1) 0 0 0 0
    (s, h, t) hB (S.length + 1 + 1) _ hfrom
  have hfuel : (B ++ (header :: multi :: extras) ++ S).length + 1 =
      B.length + 1 + (S.length + 1 + 1) + ((multi >>> 28) &&& 0xf) / 2 := by
    rw [hcnt, hDl]
    omega
  have hfinal := analyzeRun_mono _ _ _ _ _ _ _ _ hwhole (((multi >>> 28) &&& 0xf) / 2)
  rw [analyzeLoop_eq_run, analyzeLoop_eq_run, hS, hfuel, hcnt, hassoc, hfinal]
  cases rS with
  | error e => rfl
  | ok v => rfl

theorem analyze_hitbuf_error_kind (input : Buffer) :
    analyze_hitbuf input ≠ some (.error .InvalidAdcCount) ∧
    analyze_hitbuf input ≠ some (.error .InvalidInput) := by
  unfold analyze_hitbuf
  simp only []
  rw [analyzeLoop_eq_run]
  cases hr : analyzeRun input.data (input.size / 4) (input.size / 4 + 1) 0 0 0 0 with
  | none => simp
  | some r =>
    cases r with
    | error e =>
      have := analyzeRun_error _ _ _ _ _ _ _ _ hr
      subst this
      simp
    | ok v =>
      obtain ⟨i, s, h, t⟩ := v
      simp only []
      split_ifs <;> simp

/-- C17. Hit width in `analyze_hitbuf`. A header word whose top byte is no
object code, followed by a word with top 4 bits `c` and `c / 2` more words,
is a frame of `2 + c / 2` words (2 for `c = 0, 1`, 3 for `c = 2, 3`, 9 for
`c = 15`). When the scan of `B` alone ends at the end of `B` with the
counters `seconds`, `hits`, `hits_temp`, the iteration of the scan of
`B ++ H ++ S` at the header of `H` leaves `seconds` and `hits` unchanged,
increments `hits_temp` (as an `int`; by exactly one on a buffer of fewer than
`2 ^ 31` words) and moves to the first word of `S`, so the scan of
`B ++ H ++ S` is the scan of `S` from its first word with those counters.
`analyze_hitbuf` never fails with `InvalidAdcCount`. -/
theorem analyze_hitbuf_hit_width (B S extras : List Nat) (header multi : Nat)
    (seconds hits hits_temp : Int)
    (hB : analyzeRun B B.length (B.length + 1) 0 0 0 0 =
      some (.ok (B.length, seconds, hits, hits_temp)))
    (hh : IsHitHeader header) (he : extras.length = ((multi >>> 28) &&& 0xf) / 2) :
    (header :: multi :: extras).length = analyzeHitWidth multi ∧
    analyzeStep (B ++ (header :: multi :: extras) ++ S)
        (B ++ (header :: multi :: extras) ++ S).length B.length seconds hits hits_temp =
      .ok (B.length + analyzeHitWidth multi, seconds, hits, wrapInt (hits_temp + 1)) ∧
    analyzeLoop (B ++ (header :: multi :: extras) ++ S)
        (B ++ (header :: multi :: extras) ++ S).length
        ((B ++ (header :: multi :: extras) ++ S).length + 1) 0 0 0 0 =
      analyzeLoop S S.length (S.length + 1) 0 seconds hits (wrapInt (hits_temp + 1)) ∧
    ((B ++ (header :: multi :: extras) ++ S).length < 2 ^ 31 →
      wrapInt (hits_temp + 1) = hits_temp + 1) ∧
    (∀ (m : Nat), ((m >>> 28) &&& 0xf = 0 ∨ (m >>> 28) &&& 0xf = 1 → analyzeHitWidth m = 2) ∧
      ((m >>> 28) &&& 0xf = 2 ∨ (m >>> 28) &&& 0xf = 3 → analyzeHitWidth m = 3) ∧
      ((m >>> 28) &&& 0xf = 15 → analyzeHitWidth m = 9)) ∧
    ∀ (input : Buffer), analyze_hitbuf input ≠ some (.error .InvalidAdcCount) := by
  have hassoc : B ++ (header :: multi :: extras) ++ S =
      B ++ (header :: multi :: extras ++ S) := by
    simp only [List.append_assoc, List.cons_append]
  refine ⟨?_, ?_, analyzeLoop_after_hit B S extras header multi seconds hits hits_temp hB hh he,
    ?_, ?_, fun input => (analyze_hitbuf_error_kind input).1⟩
  · simp only [List.length_cons, he, analyzeHitWidth]
    omega
  · have hstep := analyzeStep_at_hit B S extras header multi seconds hits hits_temp hh he
    rw [Nat.add_zero] at hstep
    rw [hassoc, List.length_append, hstep]
    rfl
  · intro hlen
    have hc : B.length < 2 ^ 31 := by
      simp only [List.length_append] at hlen
      omega
    have hb := analyzeRun_hits_temp B B.length hc _ 0 0 0 0 _ (le_refl _) (by simp) hB
    simp only at hb
    simp only [List.length_append, List.length_cons] at hlen
    exact wrapInt_of_range _ (by omega) (by omega)
  · intro m
    unfold analyzeHitWidth
    refine ⟨?_, ?_, ?_⟩
    · intro hm; rcases hm with hm | hm <;> rw [hm]
    · intro hm; rcases hm with hm | hm <;> rw [hm]
    · intro hm; rw [hm]

theorem analyze_hitbuf_hit_width_witness :
    analyzeRun [0xe0000001, 0xe5000000, 7] 3 4 0 0 0 0 = some (.ok (3, 1, 0, 0)) ∧
    analyzeLoop ([0xe0000001, 0xe5000000, 7] ++
        (0x01000000 :: 0xf0000000 :: [1, 2, 3, 4, 5, 6, 7]) ++ [0xe0000002, 0xe0000003])
        ([0xe0000001, 0xe5000000, 7] ++
          (0x01000000 :: 0xf0000000 :: [1, 2, 3, 4, 5, 6, 7]) ++
          [0xe0000002, 0xe0000003]).length
        (([0xe0000001, 0xe5000000, 7] ++
          (0x01000000 :: 0xf0000000 :: [1, 2, 3, 4, 5, 6, 7]) ++
          [0xe0000002, 0xe0000003]).length + 1) 0 0 0 0 =
      analyzeLoop [0xe0000002, 0xe0000003] [0xe0000002, 0xe0000003].length
        ([0xe0000002, 0xe0000003].length + 1) 0 1 0 (wrapInt (0 + 1)) ∧
    (0x01000000 :: 0xf0000000 :: [1, 2, 3, 4, 5, 6, 7]).length = analyzeHitWidth 0xf0000000 :=
  ⟨by decide,
    (analyze_hitbuf_hit_width [0xe0000001, 0xe5000000, 7] [0xe0000002, 0xe0000003]
      [1, 2, 3, 4, 5, 6, 7] 0x01000000 0xf0000000 1 0 0 (by decide) (by decide)
      (by decide)).2.2.1,
    (analyze_hitbuf_hit_width [0xe0000001, 0xe5000000, 7] [0xe0000002, 0xe0000003]
      [1, 2, 3, 4, 5, 6, 7] 0x01000000 0xf0000000 1 0 0 (by decide) (by decide)
      (by decide)).1⟩

/-! ## `analyze_hitbuf` on data the decoder accepts -/

theorem analyzeRun_after_prefix (pre D : List Nat) (fuel : Nat) (s h t : Int) :
    analyzeRun (pre ++ D) (pre ++ D).length fuel pre.length s h t =
      (analyzeRun D D.length fuel 0 s h t).map (shiftIndex pre.length) := by
  have := analyzeRun_shift pre D fuel 0 s h t
  rw [Nat.add_zero] at this
  rw [List.length_append, this]

theorem analyzeRun_frames_aux : ∀ (n : Nat) (ws : List Nat), ws.length ≤ n →
    ∀ (cpu : Bool) (fs : List Frame), framesFrom ws cpu = (fs, none) →
    ∀ (fuel : Nat) (s h t : Int), ws.length < fuel →
      analyzeRun ws ws.length fuel 0 s h t =
        some (.ok (ws.length, fs.foldl analyzeFrameStep (s, h, t))) := by
  intro n
  induction n with
  | zero =>
    intro ws hl cpu fs hf fuel s h t hfuel
    have : ws = [] := List.length_eq_zero.mp (Nat.le_zero.mp hl)
    subst this
    rw [framesFrom_nil] at hf
    cases hf
    obtain ⟨fuel, rfl⟩ : ∃ k, fuel = k + 1 := ⟨fuel - 1, by simp at hfuel; omega⟩
    rw [analyzeRun_succ]
    simp
  | succ n ih =>
    intro ws hl cpu fs hf fuel s h t hfuel
    obtain ⟨fuel, rfl⟩ : ∃ k, fuel = k + 1 := ⟨fuel - 1, by omega⟩
    rcases words_cases ws with rfl | ⟨header, rest, rfl, hh⟩ | ⟨header, rest, rfl, hh⟩ |
      ⟨header, rfl, hh⟩ | ⟨header, offset, rest, rfl, hh⟩ | ⟨header, rest, rfl, hh⟩ |
      ⟨header, rfl, hh⟩ | ⟨header, multi, rfl, hh⟩ | ⟨header, multi, adc_word, rest, rfl, hh⟩
    · rw [framesFrom_nil] at hf
      cases hf
      rw [analyzeRun_succ]
      simp
    · simp only [List.length_cons] at hl hfuel
      rw [framesFrom_second _ _ _ hh] at hf
      simp only [consFrame, Prod.mk.injEq] at hf
      obtain ⟨hf1, hf2⟩ := hf
      subst hf1
      have key := ih rest (by omega) cpu (framesFrom rest cpu).1 (by rw [← hf2]) fuel
        (wrapInt (s + 1)) (if s < 2 then 0 else t) (if s < 2 then 0 else t) (by omega)
      rw [analyzeRun_succ, if_pos (by simp),
        analyzeStep_second (header :: rest) _ 0 header s h t rfl hh]
      have hsh := analyzeRun_after_prefix [header] rest fuel (wrapInt (s + 1))
        (if s < 2 then 0 else t) (if s < 2 then 0 else t)
      simp only [List.singleton_append, List.length_singleton] at hsh
      simp only [Nat.zero_add]
      rw [hsh, key]
      simp only [Option.map_some', shiftIndex, List.foldl_cons, analyzeFrameStep,
        List.length_cons, Nat.add_comm 1]
    · simp only [List.length_cons] at hl hfuel
      rw [framesFrom_year _ _ _ hh] at hf
      simp only [consFrame, Prod.mk.injEq] at hf
      obtain ⟨hf1, hf2⟩ := hf
      subst hf1
      have key := ih rest (by omega) cpu (framesFrom rest cpu).1 (by rw [← hf2]) fuel
        s h t (by omega)
      rw [analyzeRun_succ, if_pos (by simp),
        analyzeStep_skip (header :: rest) _ 0 header s h t rfl (Or.inl hh)]
      have hsh := analyzeRun_after_prefix [header] rest fuel s h t
      simp only [List.singleton_append, List.length_singleton] at hsh
      simp only [Nat.zero_add]
      rw [hsh, key]
      simp only [Option.map_some', shiftIndex, List.foldl_cons, analyzeFrameStep,
        List.length_cons, Nat.add_comm 1]
    · rw [framesFrom_trig_nil _ _ hh] at hf
      simp at hf
    · simp only [List.length_cons] at hl hfuel
      rw [framesFrom_trig _ _ _ _ hh] at hf
      have key := ih rest (by omega) _ fs hf fuel s h t (by omega)
      rw [analyzeRun_succ, if_pos (by simp),
        analyzeStep_trig (header :: offset :: rest) _ 0 header s h t rfl hh (by simp)]
      have hsh := analyzeRun_after_prefix [header, offset] rest fuel s h t
      simp only [List.cons_append, List.nil_append, List.length_cons, List.length_nil,
        Nat.zero_add] at hsh
      simp only [Nat.zero_add, List.length_cons]
      rw [hsh, key]
      simp only [Option.map_some', shiftIndex]
      congr 3
      omega
    · simp only [List.length_cons] at hl hfuel
      rw [framesFrom_format _ _ _ hh] at hf
      have key := ih rest (by omega) _ fs hf fuel s h t (by omega)
      rw [analyzeRun_succ, if_pos (by simp),
        analyzeStep_skip (header :: rest) _ 0 header s h t rfl (Or.inr hh)]
      have hsh := analyzeRun_after_prefix [header] rest fuel s h t
      simp only [List.singleton_append, List.length_singleton] at hsh
      simp only [Nat.zero_add]
      rw [hsh, key]
      simp only [Option.map_some', shiftIndex, List.length_cons, Nat.add_comm 1]
    · rw [framesFrom_hit_nil _ _ hh] at hf
      simp at hf
    · by_cases hc : (multi >>> 28) &&& 0xf = 3
      · rw [framesFrom_hit_short _ _ _ hh hc] at hf
        simp at hf
      · rw [framesFrom_hit_bad _ _ _ _ hh hc] at hf
        simp at hf
    · simp only [List.length_cons] at hl hfuel
      by_cases hc : (multi >>> 28) &&& 0xf = 3
      · rw [framesFrom_hit _ _ _ _ _ hh hc] at hf
        simp only [consFrame, Prod.mk.injEq] at hf
        obtain ⟨hf1, hf2⟩ := hf
        subst hf1
        have key := ih rest (by omega) cpu (framesFrom rest cpu).1 (by rw [← hf2]) fuel
          s h (wrapInt (t + 1)) (by omega)
        have hstep := analyzeStep_hit (header :: multi :: adc_word :: rest)
          (header :: multi :: adc_word :: rest).length 0 header multi s h t rfl rfl hh
          (by simp) (by rw [hc]; simp)
        rw [hc] at hstep
        rw [analyzeRun_succ, if_pos (by simp), hstep]
        have hsh := analyzeRun_after_prefix [header, multi, adc_word] rest fuel s h
          (wrapInt (t + 1))
        simp only [List.cons_append, List.nil_append, List.length_cons, List.length_nil,
          Nat.zero_add] at hsh
        simp only [Nat.zero_add, Nat.reduceDiv, Nat.reduceAdd, List.length_cons]
        simp only [Nat.reduceAdd] at hsh
        rw [hsh, key]
        simp only [Option.map_some', shiftIndex, List.foldl_cons, analyzeFrameStep]
        congr 3
        omega
      · rw [framesFrom_hit_bad _ _ _ _ hh hc] at hf
        simp at hf

theorem countHitFrames_cons (f : Frame) (fs : List Frame) :
    countHitFrames (f :: fs) = (if isHit f then 1 else 0) + countHitFrames fs := by
  unfold countHitFrames
  rw [List.filter_cons]
  split_ifs <;> simp [Nat.add_comm]

theorem countHitFrames_beforeLastPps_cons (f : Frame) (fs : List Frame) :
    countHitFrames (beforeLastPps (f :: fs)) =
      if fs.any isPpsSecond then
        (if isHit f then 1 else 0) + countHitFrames (beforeLastPps fs)
      else 0 := by
  rw [beforeLastPps]
  by_cases ha : fs.any isPpsSecond = true
  · rw [if_pos ha, if_pos ha, countHitFrames_cons]
  · rw [if_neg ha, if_neg ha]
    rfl

theorem foldl_countStep_warm (fs : List Frame) :
    ∀ (s h t : Nat), 2 ≤ s →
      fs.foldl countStep (s, h, t) =
        (s + countPps fs,
         if fs.any isPpsSecond then t + countHitFrames (beforeLastPps fs) else h,
         t + countHitFrames fs) := by
  induction fs with
  | nil => intro s h t _; simp [countPps, countHitFrames]
  | cons f fs ih =>
    intro s h t hs
    rw [List.foldl_cons, countHitFrames_beforeLastPps_cons, countHitFrames_cons, countPps_cons,
      List.any_cons]
    cases f with
    | PpsSecond x =>
      have hn : ¬ s < 2 := by omega
      simp only [countStep, hn, if_false]
      rw [ih (s + 1) t t (by omega)]
      simp only [isPpsSecond, isHit, if_true, Bool.true_or, Bool.false_eq_true, if_false]
      by_cases ha : fs.any isPpsSecond = true
      · simp only [ha, if_true, Prod.mk.injEq]
        omega
      · simp only [ha, Bool.false_eq_true, if_false, Prod.mk.injEq, true_and]
        omega
    | PpsYear x =>
      simp only [countStep]
      rw [ih s h t hs]
      simp only [isPpsSecond, isHit, Bool.false_or, Bool.false_eq_true, if_false]
      by_cases ha : fs.any isPpsSecond = true
      · simp only [ha, if_true, Prod.mk.injEq]
        omega
      · simp only [ha, Bool.false_eq_true, if_false, Prod.mk.injEq, true_and]
        omega
    | Hit adcs c =>
      simp only [countStep]
      rw [ih s h _ hs]
      simp only [isPpsSecond, isHit, Bool.false_or, if_true, Bool.false_eq_true, if_false]
      by_cases ha : fs.any isPpsSecond = true
      · simp only [ha, if_true, Prod.mk.injEq]
        omega
      · simp only [ha, Bool.false_eq_true, if_false, Prod.mk.injEq, true_and]
        omega

theorem foldl_countStep_start (fs : List Frame) :
    ∀ (n t : Nat), n ≤ 2 → (n = 0 → t = 0) →
      (fs.foldl countStep (2 - n, 0, t)).1 = 2 - n + countPps fs ∧
      (fs.foldl countStep (2 - n, 0, t)).2.1 =
        countHitFrames (beforeLastPps (afterNthPps n fs)) := by
  induction fs with
  | nil =>
    intro n t _ _
    cases n <;> simp [countPps, countHitFrames, afterNthPps, beforeLastPps]
  | cons f fs ih =>
    intro n t hn ht
    cases n with
    | zero =>
      have ht0 : t = 0 := ht rfl
      subst ht0
      rw [foldl_countStep_warm (f :: fs) 2 0 0 (le_refl _)]
      refine ⟨rfl, ?_⟩
      simp only [afterNthPps]
      by_cases ha : (f :: fs).any isPpsSecond = true
      · simp [ha]
      · rw [Bool.not_eq_true] at ha
        rw [beforeLastPps_of_not_any _ ha]
        simp [ha, countHitFrames]
    | succ k =>
      rw [List.foldl_cons]
      cases f with
      | PpsSecond x =>
        have hlt : 2 - (k + 1) < 2 := by omega
        simp only [countStep, hlt, if_true, afterNthPps, isPpsSecond]
        have hk : 2 - (k + 1) + 1 = 2 - k := by omega
        rw [hk]
        obtain ⟨i1, i2⟩ := ih k 0 (by omega) (fun _ => rfl)
        refine ⟨?_, i2⟩
        rw [i1]
        simp [countPps, isPpsSecond]
        omega
      | PpsYear x =>
        simp only [countStep, afterNthPps, isPpsSecond]
        obtain ⟨i1, i2⟩ := ih (k + 1) t hn (by omega)
        refine ⟨?_, i2⟩
        rw [i1]
        simp [countPps, isPpsSecond]
      | Hit adcs c =>
        simp only [countStep, afterNthPps, isPpsSecond]
        obtain ⟨i1, i2⟩ := ih (k + 1) (t + 1) hn (by omega)
        refine ⟨?_, i2⟩
        rw [i1]
        simp [countPps, isPpsSecond]

theorem foldl_analyzeFrameStep_cast (fs : List Frame) :
    ∀ (s h t : Nat), s + fs.length < 2 ^ 31 → t + fs.length < 2 ^ 31 →
      fs.foldl analyzeFrameStep ((s : Int), (h : Int), (t : Int)) =
        (((fs.foldl countStep (s, h, t)).1 : Int), ((fs.foldl countStep (s, h, t)).2.1 : Int),
          ((fs.foldl countStep (s, h, t)).2.2 : Int)) := by
  induction fs with
  | nil => intro s h t _ _; rfl
  | cons f fs ih =>
    intro s h t hs ht
    simp only [List.length_cons] at hs ht
    rw [List.foldl_cons, List.foldl_cons]
    cases f with
    | PpsSecond x =>
      have hw : wrapInt ((s : Int) + 1) = ((s + 1 : Nat) : Int) := by
        rw [wrapInt_of_range _ (by omega) (by omega)]
        rfl
      by_cases h2 : s < 2
      · have h2i : (s : Int) < 2 := by omega
        simp only [analyzeFrameStep, countStep, h2, h2i, if_true]
        rw [hw]
        exact ih (s + 1) 0 0 (by omega) (by omega)
      · have h2i : ¬ (s : Int) < 2 := by omega
        simp only [analyzeFrameStep, countStep, h2, h2i, if_false]
        rw [hw]
        exact ih (s + 1) t t (by omega) (by omega)
    | PpsYear x =>
      simp only [analyzeFrameStep, countStep]
      exact ih s h t (by omega) (by omega)
    | Hit adcs c =>
      have hw : wrapInt ((t : Int) + 1) = ((t + 1 : Nat) : Int) := by
        rw [wrapInt_of_range _ (by omega) (by omega)]
        rfl
      simp only [analyzeFrameStep, countStep]
      rw [hw]
      exact ih s h (t + 1) (by omega) (by omega)

/-- C19. The Generic Event Counter agrees with the Frame Decoder on
well-formed 3-ADC data. For every word-aligned buffer of fewer than 2^31
words on which draining the decoder raises no error and yields the frames
`fs` with at least 3 PpsSecond frames, `analyze_hitbuf` returns (the fuel of
the model suffices and no exception is thrown) `seconds_elapsed` = the
number of PpsSecond frames minus 2 and `hits` = the number of Hit frames
that lie after the second and before the last PpsSecond frame, whatever
their `cpu_trigger` flag and ADC values. -/
theorem analyze_hitbuf_agrees_with_decoder (input : Buffer) (fs : List Frame)
    (ha : input.tail.val = 0) (hs : input.size / 4 < 2 ^ 31)
    (hd : decode_all input = some (fs, none)) (hp : 3 ≤ countPps fs) :
    analyze_hitbuf input =
      some (.ok (((countPps fs : Nat) : Int) - 2,
        ((countHitFrames (beforeLastPps (afterNthPps 2 fs)) : Nat) : Int))) := by
  have hf := decode_all_aligned input fs none ha hd
  have hcount : input.size / 4 = input.data.length := by
    unfold Buffer.size
    omega
  rw [hcount] at hs
  have hlen : fs.length ≤ input.data.length := by
    have := framesFrom_length_le_aux _ input.data (le_refl _) false
    rw [hf] at this
    exact this
  have hpl : countPps fs ≤ fs.length := List.length_filter_le _ _
  have hrun := analyzeRun_frames_aux _ input.data (le_refl _) false fs hf
    (input.data.length + 1) 0 0 0 (by omega)
  have hcast := foldl_analyzeFrameStep_cast fs 0 0 0 (by omega) (by omega)
  simp only [Nat.cast_zero] at hcast
  obtain ⟨c1, c2⟩ := foldl_countStep_start fs 2 0 (le_refl _) (by omega)
  simp only [Nat.sub_self, Nat.zero_add] at c1 c2
  rw [hcast, c1, c2] at hrun
  unfold analyze_hitbuf
  simp only [hcount]
  rw [analyzeLoop_eq_run, hrun]
  have hw : wrapInt (((countPps fs : Nat) : Int) - 2) = ((countPps fs : Nat) : Int) - 2 :=
    wrapInt_of_range _ (by omega) (by omega)
  simp only [hw]
  rw [if_neg (by omega)]

theorem analyze_hitbuf_agrees_with_decoder_witness :
    decode_all (Buffer.ofWords [0xe0000001, 0x01000000, 0x30000001, 0x00020003,
      0xe0000002, 0x01000000, 0x30000004, 0x00050006, 0xe5000020, 0, 0x01000000, 0x30000007,
      0x00080009, 0xe0000003, 0x01000000, 0x30000001, 0x00020003]) =
      some ([.PpsSecond 1, .Hit (1, 2, 3) false, .PpsSecond 2, .Hit (4, 5, 6) false,
      .Hit (7, 8, 9) true, .PpsSecond 3, .Hit (1, 2, 3) true], none) ∧
    analyze_hitbuf (Buffer.ofWords [0xe0000001, 0x01000000, 0x30000001, 0x00020003,
      0xe0000002, 0x01000000, 0x30000004, 0x00050006, 0xe5000020, 0, 0x01000000, 0x30000007,
      0x00080009, 0xe0000003, 0x01000000, 0x30000001, 0x00020003]) =
      some (.ok (((countPps [.PpsSecond 1, .Hit (1, 2, 3) false, .PpsSecond 2, .Hit (4, 5, 6) false,
      .Hit (7, 8, 9) true, .PpsSecond 3, .Hit (1, 2, 3) true] : Nat) : Int) - 2,
        ((countHitFrames (beforeLastPps (afterNthPps 2 [.PpsSecond 1, .Hit (1, 2, 3) false, .PpsSecond 2, .Hit (4, 5, 6) false,
      .Hit (7, 8, 9) true, .PpsSecond 3, .Hit (1, 2, 3) true])) : Nat) : Int))) ∧
    (((countPps [.PpsSecond 1, .Hit (1, 2, 3) false, .PpsSecond 2, .Hit (4, 5, 6) false,
      .Hit (7, 8, 9) true, .PpsSecond 3, .Hit (1, 2, 3) true] : Nat) : Int) - 2,
        ((countHitFrames (beforeLastPps (afterNthPps 2 [.PpsSecond 1, .Hit (1, 2, 3) false, .PpsSecond 2, .Hit (4, 5, 6) false,
      .Hit (7, 8, 9) true, .PpsSecond 3, .Hit (1, 2, 3) true])) : Nat) : Int)) = ((1, 2) : Int × Int) :=
  ⟨(decode_all_ofWords _).trans (congrArg some (by decide)),
    analyze_hitbuf_agrees_with_decoder (Buffer.ofWords [0xe0000001, 0x01000000, 0x30000001, 0x00020003,
      0xe0000002, 0x01000000, 0x30000004, 0x00050006, 0xe5000020, 0, 0x01000000, 0x30000007,
      0x00080009, 0xe0000003, 0x01000000, 0x30000001, 0x00020003])
      [.PpsSecond 1, .Hit (1, 2, 3) false, .PpsSecond 2, .Hit (4, 5, 6) false,
      .Hit (7, 8, 9) true, .PpsSecond 3, .Hit (1, 2, 3) true] rfl (by decide)
      ((decode_all_ofWords _).trans (congrArg some (by decide))) (by decide),
    by decide⟩

end Hitbuffer
